import Mathlib

/-!
knmi-go: schema migration runner and idempotent ingestion.

A shallow embedding of `internal/migration/runner.go`, `internal/migration/tracker.go`
and `internal/db/weather.go`.

Modelling conventions.

* A Go `error` is a `GoError`: a leaf message or an `fmt.Errorf("...: %w", err)` wrapper.
* The PostgreSQL store is explicit state.  `MigrationDB` holds the `migrations` table
  (absent until created) and the list of migration bodies whose transaction committed.
  A migration body is opaque: its only modelled effect is that it is (or is not) committed.
* Everything that can fail for reasons outside the program (connectivity, invalid SQL,
  a failing commit) is decided by a `Faults` record, so that every outcome of every step
  is reachable.  The uniqueness constraints of the tables are part of the store model.
* `time.Now`, `Result.Duration` and the `applied_at` column are wall-clock values and are
  left out.  Logging has no effect on the result and is left out.
-/

namespace Knmi

/-! ## Go errors -/

/-- Go error value: `leaf` is an error made without `%w`, `wrap pfx inner` is
`fmt.Errorf(pfx + "%w", inner)`. -/
inductive GoError where
  | leaf (msg : String)
  | wrap (pfx : String) (inner : GoError)
deriving DecidableEq, Repr

/-- The `Error()` string of a Go error. -/
def GoError.Error : GoError → String
  | .leaf msg => msg
  | .wrap pfx inner => pfx ++ inner.Error

/-- The `Unwrap()` of a Go error (`errors.Unwrap`). -/
def GoError.Unwrap : GoError → Option GoError
  | .leaf _ => none
  | .wrap _ inner => some inner

deriving instance DecidableEq for Except

/-! ## strconv.Atoi and ParseVersion -/

/-- Value of a run of ASCII digits read in base 10. -/
def digitsValue (ds : List Char) : Nat :=
  ds.foldl (fun acc c => acc * 10 + (c.toNat - 48)) 0

/-- Largest value of a 64-bit Go `int`. -/
def maxInt : Nat := 2 ^ 63 - 1

/-- Go `strconv.Atoi` on a 64-bit platform: optional sign, then one or more ASCII digits,
and the value has to fit in an `int`. -/
def Atoi (s : List Char) : Except GoError Int :=
  let body : List Char := match s with
    | '+' :: t => t
    | '-' :: t => t
    | _ => s
  let neg : Bool := match s with
    | '-' :: _ => true
    | _ => false
  if body = [] ∨ ¬ body.all Char.isDigit = true then
    .error (.leaf ("strconv.Atoi: parsing " ++ String.mk s ++ ": invalid syntax"))
  else if neg then
    if digitsValue body ≤ maxInt + 1 then .ok (-(digitsValue body : Int))
    else .error (.leaf ("strconv.Atoi: parsing " ++ String.mk s ++ ": value out of range"))
  else
    if digitsValue body ≤ maxInt then .ok (digitsValue body : Int)
    else .error (.leaf ("strconv.Atoi: parsing " ++ String.mk s ++ ": value out of range"))

/-- The regular expression `^(\d+)_.*\.sql$` of `versionRegex`, as `FindStringSubmatch`
uses it: the result is capture group 1.  `\d` is an ASCII digit, `.` is any character but
a newline, and `$` is the end of the text. -/
def versionRegex (s : List Char) : Option (List Char) :=
  let digits := s.takeWhile Char.isDigit
  match s.dropWhile Char.isDigit with
  | '_' :: tail =>
    if digits ≠ [] ∧ (".sql".data).isSuffixOf tail = true ∧ '\n' ∉ tail then some digits
    else none
  | _ => none

/-- Go `ParseVersion`: the version and the error (`none` is `nil`); every error return
carries version 0. -/
def ParseVersion (filename : String) : Int × Option GoError :=
  if filename = "" then (0, some (.leaf "empty filename"))
  else
    match versionRegex filename.data with
    | none => (0, some (.leaf ("invalid migration filename format: " ++ filename)))
    | some digits =>
      match Atoi digits with
      | .error err => (0, some (.wrap "parsing version number: " err))
      | .ok version => (version, none)

/-! ## Discover -/

/-- Go `Migration`. -/
structure Migration where
  Version : Int
  Name : String
  Filename : String
  Path : String
  Content : String
deriving DecidableEq, Repr

/-- One `os.DirEntry` as `Discover` reads it. -/
structure DirEntry where
  Name : String
  IsDir : Bool
deriving DecidableEq, Repr

/-- Outcome of `os.ReadDir`. -/
inductive ReadDirResult where
  | entries (es : List DirEntry)
  | notExist (err : GoError)
  | failed (err : GoError)
deriving Repr

/-- The file system as `Discover` sees it. -/
structure FileSystem where
  ReadDir : String → ReadDirResult
  ReadFile : String → Except GoError String
  Join : String → String → String

/-- Go `strings.HasSuffix`. -/
def HasSuffix (s suffix : String) : Bool := suffix.data.isSuffixOf s.data

/-- Go `strings.TrimSuffix`. -/
def TrimSuffix (s suffix : String) : String :=
  if HasSuffix s suffix then String.mk (s.data.take (s.data.length - suffix.data.length)) else s

/-- The name part of a migration filename: the `.sql` suffix is trimmed and everything up
to and including the first underscore is dropped. -/
def migrationName (filename : String) : String :=
  let name := TrimSuffix filename ".sql"
  match name.data.dropWhile (fun c => c ≠ '_') with
  | [] => name
  | _ :: rest => String.mk rest

/-- The loop of `Discover` over the directory entries, before sorting. -/
def discoverLoop (fs : FileSystem) (dir : String) :
    List DirEntry → List Migration → Except GoError (List Migration)
  | [], migrations => .ok migrations
  | entry :: rest, migrations =>
    if entry.IsDir then discoverLoop fs dir rest migrations
    else if !HasSuffix entry.Name ".sql" then discoverLoop fs dir rest migrations
    else
      match ParseVersion entry.Name with
      | (_, some _) => discoverLoop fs dir rest migrations
      | (version, none) =>
        match fs.ReadFile (fs.Join dir entry.Name) with
        | .error err =>
          .error (.wrap ("reading migration file " ++ entry.Name ++ ": ") err)
        | .ok content =>
          discoverLoop fs dir rest (migrations ++ [{
            Version := version
            Name := migrationName entry.Name
            Filename := entry.Name
            Path := fs.Join dir entry.Name
            Content := content }])

/-- The order `sort.Slice` sorts by: ascending `Version`. -/
def versionLE (a b : Migration) : Prop := a.Version ≤ b.Version

instance : DecidableRel versionLE := fun a b => inferInstanceAs (Decidable (a.Version ≤ b.Version))

/-- Go `Discover`.  `sort.Slice` is modelled by a stable insertion sort; Go leaves the
relative order of equal versions unspecified. -/
def Discover (fs : FileSystem) (dir : String) : Except GoError (List Migration) :=
  match fs.ReadDir dir with
  | .notExist _ => .error (.leaf ("migrations directory not found: " ++ dir))
  | .failed err => .error (.wrap "reading migrations directory: " err)
  | .entries es =>
    match discoverLoop fs dir es [] with
    | .error err => .error err
    | .ok migrations => .ok (migrations.insertionSort versionLE)

/-! ## The migrations ledger (tracker.go) -/

/-- One row of the `migrations` table: `version INTEGER NOT NULL UNIQUE`, `filename`. -/
structure LedgerRow where
  version : Int
  filename : String
deriving DecidableEq, Repr

/-- The store the runner works on.  `migrations` is the ledger table (`none` while the
table does not exist); `schema` lists the migration bodies whose transaction committed,
in commit order. -/
structure MigrationDB where
  migrations : Option (List LedgerRow)
  schema : List String
deriving DecidableEq, Repr

/-- The versions recorded in the ledger. -/
def MigrationDB.versions (db : MigrationDB) : List Int :=
  (db.migrations.getD []).map LedgerRow.version

/-- Where `Tracker.Applied` can fail. -/
inductive AppliedFault where
  | query (err : GoError)
  | scan (err : GoError)
  | rows (err : GoError)
deriving DecidableEq, Repr

/-- Failures decided outside the program.  `none` means the step does not fail for an
external reason. -/
structure Faults where
  ensureTable : Option GoError
  applied : Option AppliedFault
  begin : Migration → Option GoError
  exec : Migration → Option GoError
  record : Int → String → Option GoError
  commit : Migration → Option GoError

/-- Go `Tracker.EnsureTable`: `CREATE TABLE IF NOT EXISTS migrations`. -/
def Tracker.EnsureTable (env : Faults) (db : MigrationDB) : MigrationDB × Option GoError :=
  match env.ensureTable with
  | some err => (db, some (.wrap "creating migrations table: " err))
  | none => (MigrationDB.mk (some (db.migrations.getD [])) db.schema, none)

/-- Go `Tracker.Applied`: the set of recorded versions, as the list of scanned rows. -/
def Tracker.Applied (env : Faults) (db : MigrationDB) : Except GoError (List Int) :=
  match db.migrations with
  | none => .error (.wrap "querying applied migrations: "
      (.leaf "pq: relation \"migrations\" does not exist"))
  | some rows =>
    match env.applied with
    | some (.query err) => .error (.wrap "querying applied migrations: " err)
    | some (.scan err) =>
      if rows = [] then .ok [] else .error (.wrap "scanning migration version: " err)
    | some (.rows err) => .error (.wrap "iterating migrations: " err)
    | none => .ok (rows.map LedgerRow.version)

/-- Go `Tracker.Record`: one `INSERT INTO migrations` through the database handle
`t.db`, which commits on its own.  The `UNIQUE` constraint on `version` rejects a
version that is already recorded. -/
def Tracker.Record (env : Faults) (db : MigrationDB) (version : Int) (filename : String) :
    MigrationDB × Option GoError :=
  match env.record version filename with
  | some err => (db, some (.wrap "recording migration: " err))
  | none =>
    match db.migrations with
    | none => (db, some (.wrap "recording migration: "
        (.leaf "pq: relation \"migrations\" does not exist")))
    | some rows =>
      if version ∈ rows.map LedgerRow.version then
        (db, some (.wrap "recording migration: "
          (.leaf "pq: duplicate key value violates unique constraint \"migrations_version_key\"")))
      else
        (MigrationDB.mk (some (rows ++ [LedgerRow.mk version filename])) db.schema, none)

/-! ## The runner (runner.go) -/

/-- Go `Result`, without `Duration`. -/
structure Result where
  Applied : List String
  Skipped : Int
deriving DecidableEq, Repr

/-- Go `Runner.applyMigration`.  `tx.Exec` runs the body inside the transaction `tx`;
`r.tracker.Record` goes through `r.db`, not through `tx`; `tx.Commit` makes the body
durable, and the deferred `tx.Rollback` discards the body on every error return. -/
def applyMigration (env : Faults) (db : MigrationDB) (m : Migration) :
    MigrationDB × Option GoError :=
  match env.begin m with
  | some err => (db, some (.wrap "beginning transaction: " err))
  | none =>
    match env.exec m with
    | some err => (db, some (.wrap "executing SQL: " err))
    | none =>
      match Tracker.Record env db m.Version m.Filename with
      | (db1, some err) => (db1, some (.wrap "recording migration: " err))
      | (db1, none) =>
        match env.commit m with
        | some err => (db1, some (.wrap "committing transaction: " err))
        | none => (MigrationDB.mk db1.migrations (db1.schema ++ [m.Content]), none)

/-- What `Runner.Run` leaves behind and returns: the store, the `*Result` (`none` is
`nil`) and the error (`none` is `nil`). -/
structure RunOutcome where
  db : MigrationDB
  result : Option Result
  err : Option GoError
deriving DecidableEq, Repr

/-- The loop of `Runner.Run` over the pending migrations.  On a failure the result is
returned as it stands, with `Skipped` not yet set. -/
def applyLoop (env : Faults) (nMigrations nPending : Nat) :
    List Migration → MigrationDB → Result → RunOutcome
  | [], db, result =>
    RunOutcome.mk db (some (Result.mk result.Applied ((nMigrations : Int) - (nPending : Int)))) none
  | m :: rest, db, result =>
    match applyMigration env db m with
    | (db1, some err) =>
      RunOutcome.mk db1 (some result) (some (.wrap ("migration " ++ m.Filename ++ " failed: ") err))
    | (db1, none) =>
      applyLoop env nMigrations nPending rest db1 (Result.mk (result.Applied ++ [m.Filename]) result.Skipped)

/-- The pending migrations: those whose version is not in the applied set, in order. -/
def pendingOf (applied : List Int) (migrations : List Migration) : List Migration :=
  migrations.filter (fun m => decide (m.Version ∉ applied))

/-- Go `Runner.Run`. -/
def Run (env : Faults) (fs : FileSystem) (db : MigrationDB) (dir : String) : RunOutcome :=
  match Tracker.EnsureTable env db with
  | (db0, some err) => RunOutcome.mk db0 none (some (.wrap "ensuring migrations table: " err))
  | (db0, none) =>
    match Discover fs dir with
    | .error err => RunOutcome.mk db0 none (some err)
    | .ok migrations =>
      if migrations.length = 0 then RunOutcome.mk db0 (some (Result.mk [] 0)) none
      else
        match Tracker.Applied env db0 with
        | .error err => RunOutcome.mk db0 none (some (.wrap "getting applied migrations: " err))
        | .ok applied =>
          let pending := pendingOf applied migrations
          if pending.length = 0 then
            RunOutcome.mk db0 (some (Result.mk [] (migrations.length : Int))) none
          else
            applyLoop env migrations.length pending.length pending db0 (Result.mk [] 0)

/-- The store after the loop of `Runner.Run` has applied the given migrations in order. -/
def applyAll (env : Faults) (db : MigrationDB) (ms : List Migration) : MigrationDB :=
  ms.foldl (fun d m => (applyMigration env d m).1) db

/-- Every call of `applyMigration` that the loop makes on the given migrations, started
on `db`, returns a nil error. -/
def allApplied (env : Faults) : MigrationDB → List Migration → Bool
  | _, [] => true
  | db, m :: rest =>
    (applyMigration env db m).2.isNone && allApplied env (applyMigration env db m).1 rest

/-- The ledger row `Tracker.Record` writes for a migration. -/
def rowOf (m : Migration) : LedgerRow := LedgerRow.mk m.Version m.Filename

/-! ## Concrete inputs -/

/-- A directory `migrations` holding the given files, each with the body `-- test`. -/
def fsOf (names : List String) : FileSystem where
  ReadDir := fun _ => .entries (names.map (fun n => DirEntry.mk n false))
  ReadFile := fun _ => .ok "-- test"
  Join := fun d f => d ++ "/" ++ f

/-- No external failure at all. -/
def noFaults : Faults where
  ensureTable := none
  applied := none
  begin := fun _ => none
  exec := fun _ => none
  record := fun _ _ => none
  commit := fun _ => none

/-- A store with no tables and nothing committed. -/
def emptyDB : MigrationDB := MigrationDB.mk none []

/-! ## Weather records (parser/csv.go, db/weather.go) -/

/-- The calendar day of a `time.Time`: the value the `date DATE` column stores and the
value `Format("2006-01-02")` prints. -/
structure Date where
  year : Nat
  month : Nat
  day : Nat
deriving DecidableEq, Repr

/-- A number printed in decimal, zero-padded on the left to the given width. -/
def zeroPad (width n : Nat) : String :=
  String.mk (List.replicate (width - (Nat.repr n).length) '0') ++ Nat.repr n

/-- Go `Date.Format("2006-01-02")`. -/
def Date.Format (d : Date) : String :=
  zeroPad 4 d.year ++ "-" ++ zeroPad 2 d.month ++ "-" ++ zeroPad 2 d.day

/-- Go `parser.WeatherRecord`; a nil `*int` is `none`. -/
structure WeatherRecord where
  StationID : Int
  Date : Date
  DDVEC : Option Int
  FHVEC : Option Int
  FG : Option Int
  FHX : Option Int
  FHXH : Option Int
  FHN : Option Int
  FHNH : Option Int
  FXX : Option Int
  FXXH : Option Int
  TG : Option Int
  TN : Option Int
  TNH : Option Int
  TX : Option Int
  TXH : Option Int
  T10N : Option Int
  T10NH : Option Int
  SQ : Option Int
  SP : Option Int
  Q : Option Int
  DR : Option Int
  RH : Option Int
  RHX : Option Int
  RHXH : Option Int
  PG : Option Int
  PX : Option Int
  PXH : Option Int
  PN : Option Int
  PNH : Option Int
  VVN : Option Int
  VVNH : Option Int
  VVX : Option Int
  VVXH : Option Int
  NG : Option Int
  UG : Option Int
  UX : Option Int
  UXH : Option Int
  UN : Option Int
  UNH : Option Int
  EV24 : Option Int
deriving DecidableEq, Repr

/-- The composite key `(station_id, date)` of the `UNIQUE (station_id, date)` constraint.
`FilterNewRecords` renders it as `fmt.Sprintf("%d:%s", StationID, Date.Format(...))`,
which is one-to-one on these pairs. -/
def recordKey (r : WeatherRecord) : Int × Date := (r.StationID, r.Date)

/-- The `weather_records` table: `none` while the table does not exist. -/
abbrev WeatherStore := Option (List WeatherRecord)

/-- The keys present in the store. -/
def storeKeys (store : WeatherStore) : List (Int × Date) := (store.getD []).map recordKey

/-- Failures of the weather store decided outside the program; `exec` and `rowsAffected`
are per position in the batch. -/
structure StoreFaults where
  prepare : Option GoError
  exec : Nat → WeatherRecord → Option GoError
  rowsAffected : Nat → Option GoError
  query : Option GoError
  scan : Option GoError
  rows : Option GoError

/-- Go `InsertResult`. -/
structure InsertResult where
  Inserted : Nat
  Skipped : Nat
  Total : Nat
deriving DecidableEq, Repr

/-- What `InsertRecords` leaves behind and returns. -/
structure InsertOutcome where
  store : WeatherStore
  result : Option InsertResult
  err : Option GoError
deriving DecidableEq, Repr

/-- The loop of `InsertRecords`, from position `i` of the batch.  Each `stmt.Exec` is an
`INSERT ... ON CONFLICT (station_id, date) DO NOTHING` that commits on its own: it adds
the row and affects one row when the key is absent, and affects no row otherwise. -/
def insertLoop (env : StoreFaults) :
    Nat → List WeatherRecord → List WeatherRecord → InsertResult → InsertOutcome
  | _, [], rows, result => InsertOutcome.mk (some rows) (some result) none
  | i, record :: rest, rows, result =>
    match env.exec i record with
    | some err =>
      InsertOutcome.mk (some rows) (some result)
        (some (.wrap ("inserting record for date " ++ record.Date.Format ++ ": ") err))
    | none =>
      let conflict : Bool := decide (recordKey record ∈ rows.map recordKey)
      let rows1 := if conflict then rows else rows ++ [record]
      let affected : Nat := if conflict then 0 else 1
      match env.rowsAffected i with
      | some err =>
        InsertOutcome.mk (some rows1) (some result) (some (.wrap "getting rows affected: " err))
      | none =>
        if affected > 0 then
          insertLoop env (i + 1) rest rows1
            (InsertResult.mk (result.Inserted + 1) result.Skipped result.Total)
        else
          insertLoop env (i + 1) rest rows1
            (InsertResult.mk result.Inserted (result.Skipped + 1) result.Total)

/-- Go `WeatherRepository.InsertRecords`. -/
def InsertRecords (env : StoreFaults) (store : WeatherStore) (records : List WeatherRecord) :
    InsertOutcome :=
  if records.length = 0 then InsertOutcome.mk store (some (InsertResult.mk 0 0 records.length)) none
  else
    match env.prepare with
    | some err => InsertOutcome.mk store none (some (.wrap "preparing insert statement: " err))
    | none =>
      match store with
      | none =>
        InsertOutcome.mk store none (some (.wrap "preparing insert statement: "
          (.leaf "pq: relation \"weather_records\" does not exist")))
      | some rows => insertLoop env 0 records rows (InsertResult.mk 0 0 records.length)

/-- Go `WeatherRepository.FilterNewRecords`; it only issues a `SELECT`, the store is
returned as it was. -/
def FilterNewRecords (env : StoreFaults) (store : WeatherStore) (records : List WeatherRecord) :
    WeatherStore × Except GoError (List WeatherRecord) :=
  if records.length = 0 then (store, .ok records)
  else
    match store with
    | none =>
      (store, .error (.wrap "querying existing records: "
        (.leaf "pq: relation \"weather_records\" does not exist")))
    | some rows =>
      match env.query with
      | some err => (store, .error (.wrap "querying existing records: " err))
      | none =>
        match (if rows = [] then none else env.scan) with
        | some err => (store, .error (.wrap "scanning existing record: " err))
        | none =>
          match env.rows with
          | some err => (store, .error (.wrap "iterating existing records: " err))
          | none =>
            let existing := rows.map recordKey
            (store, .ok (records.filter (fun record => decide (recordKey record ∉ existing))))

/-- No `stmt.Exec` and no `RowsAffected` fails on the given records, from position `i`. -/
def noInsertFault (env : StoreFaults) : Nat → List WeatherRecord → Bool
  | _, [] => true
  | i, record :: rest =>
    (env.exec i record).isNone && (env.rowsAffected i).isNone && noInsertFault env (i + 1) rest

/-- A weather store that never fails. -/
def noStoreFaults : StoreFaults where
  prepare := none
  exec := fun _ _ => none
  rowsAffected := fun _ => none
  query := none
  scan := none
  rows := none

/-- A record of station 260 with a mean temperature and no other measurement. -/
def observation (date : Date) (tg : Int) : WeatherRecord :=
  WeatherRecord.mk 260 date none none none none none none none none none (some tg)
    none none none none none none none none none none none none none none none none none none
    none none none none none none none none none none none

/-- The three records of the scenario: 1, 2 and 3 January 2024. -/
def batch3 : List WeatherRecord :=
  [observation (Date.mk 2024 1 1) 85, observation (Date.mk 2024 1 2) 90,
   observation (Date.mk 2024 1 3) 88]

/-! ## Failure scenarios and inputs used by the closed theorems -/

instance : IsTotal Migration versionLE := ⟨fun a b => Int.le_total a.Version b.Version⟩

instance : IsTrans Migration versionLE := ⟨fun _ _ _ hab hbc => Int.le_trans hab hbc⟩

/-- A ledger read that fails: the query of `Tracker.Applied` returns an error. -/
def readFaults : Faults where
  ensureTable := none
  applied := some (.query (.leaf "driver: bad connection"))
  begin := fun _ => none
  exec := fun _ => none
  record := fun _ _ => none
  commit := fun _ => none

/-- The body of every migration is invalid SQL: `tx.Exec` fails. -/
def execFaults : Faults where
  ensureTable := none
  applied := none
  begin := fun _ => none
  exec := fun _ => some (.leaf "pq: syntax error at or near \"THIS\"")
  record := fun _ _ => none
  commit := fun _ => none

/-- Only the body of version 2 is invalid SQL. -/
def execFaultsAt2 : Faults where
  ensureTable := none
  applied := none
  begin := fun _ => none
  exec := fun m => if m.Version = 2 then some (.leaf "pq: syntax error at or near \"THIS\"") else none
  record := fun _ _ => none
  commit := fun _ => none

/-- The migration `Discover` builds for a file of `fsOf` in the directory `migrations`. -/
def migrationOf (version : Int) (name filename : String) : Migration :=
  Migration.mk version name filename ("migrations/" ++ filename) "-- test"

/-- Every `tx.Commit` fails. -/
def commitFaults : Faults where
  ensureTable := none
  applied := none
  begin := fun _ => none
  exec := fun _ => none
  record := fun _ _ => none
  commit := fun _ => some (.leaf "driver: bad connection")

/-- A ledger that already holds version 1. -/
def ledgerWith1 : MigrationDB :=
  MigrationDB.mk (some [LedgerRow.mk 1 "001_create.sql"]) ["-- test"]

/-- Two records of 1 January 2024 that share their key and differ in temperature. -/
def repeatedKeyBatch : List WeatherRecord :=
  [observation (Date.mk 2024 1 1) 85, observation (Date.mk 2024 1 1) 90]

/-- The insert at position `k` of the batch fails; nothing else does. -/
def execFaultAt (k : Nat) : StoreFaults where
  prepare := none
  exec := fun i _ => if i = k then some (.leaf "driver: bad connection") else none
  rowsAffected := fun _ => none
  query := none
  scan := none
  rows := none

/-- The store cannot be reached: preparing a statement and querying both fail. -/
def unreachableStore : StoreFaults where
  prepare := some (.leaf "dial tcp 127.0.0.1:5432: connect: connection refused")
  exec := fun _ _ => none
  rowsAffected := fun _ => none
  query := some (.leaf "dial tcp 127.0.0.1:5432: connect: connection refused")
  scan := none
  rows := none

/-- An entry `Discover` turns into a migration: not a directory, a name ending in `.sql`
and a name `ParseVersion` accepts. -/
def isMigrationFile (e : DirEntry) : Bool :=
  !e.IsDir && HasSuffix e.Name ".sql" && (ParseVersion e.Name).2.isNone

/-- The content `os.ReadFile` returns for a path, empty when the read fails. -/
def readContent (fs : FileSystem) (path : String) : String :=
  match fs.ReadFile path with
  | .ok content => content
  | .error _ => ""

/-- The migration `Discover` builds for a directory entry. -/
def migrationOfEntry (fs : FileSystem) (dir : String) (e : DirEntry) : Migration :=
  Migration.mk (ParseVersion e.Name).1 (migrationName e.Name) e.Name (fs.Join dir e.Name)
    (readContent fs (fs.Join dir e.Name))

/-- A directory with a sub-directory named like a migration, a non-SQL file, two SQL files
without the digit pattern, and three migration files of which two share version 1. -/
def mixedDir : FileSystem where
  ReadDir := fun _ => .entries
    [DirEntry.mk "003_archive.sql" true, DirEntry.mk "README.md" false,
     DirEntry.mk "readme.sql" false, DirEntry.mk "abc_x.sql" false,
     DirEntry.mk "002_index.sql" false, DirEntry.mk "001_create.sql" false,
     DirEntry.mk "1_again.sql" false]
  ReadFile := fun _ => .ok "-- test"
  Join := fun d f => d ++ "/" ++ f

/-- A directory that does not exist. -/
def missingDir : FileSystem where
  ReadDir := fun _ => .notExist (.leaf "open /nonexistent/path: no such file or directory")
  ReadFile := fun _ => .error (.leaf "no such file or directory")
  Join := fun d f => d ++ "/" ++ f

/-- A directory that exists and cannot be listed. -/
def forbiddenDir : FileSystem where
  ReadDir := fun _ => .failed (.leaf "open migrations: permission denied")
  ReadFile := fun _ => .error (.leaf "permission denied")
  Join := fun d f => d ++ "/" ++ f

/-- A directory whose file `002_index.sql` cannot be read. -/
def unreadableFileDir : FileSystem where
  ReadDir := fun _ => .entries
    [DirEntry.mk "001_create.sql" false, DirEntry.mk "002_index.sql" false]
  ReadFile := fun path =>
    if path = "migrations/002_index.sql" then
      .error (.leaf "open migrations/002_index.sql: permission denied")
    else .ok "-- test"
  Join := fun d f => d ++ "/" ++ f

/-! ## The CSV parser (parser/csv.go) -/

/-- Go `unicode.IsSpace`: the characters with the Unicode White_Space property. -/
def isSpace (c : Char) : Bool :=
  (9 ≤ c.toNat && c.toNat ≤ 13) || c.toNat = 32 || c.toNat = 0x85 || c.toNat = 0xA0 ||
  c.toNat = 0x1680 || (0x2000 ≤ c.toNat && c.toNat ≤ 0x200A) || c.toNat = 0x2028 ||
  c.toNat = 0x2029 || c.toNat = 0x202F || c.toNat = 0x205F || c.toNat = 0x3000

/-- Go `strings.TrimSpace`. -/
def TrimSpace (s : List Char) : List Char :=
  ((s.dropWhile isSpace).reverse.dropWhile isSpace).reverse

/-- Go `strings.Split(s, sep)` for a one-character separator. -/
def splitOn (sep : Char) : List Char → List (List Char)
  | [] => [[]]
  | c :: cs =>
    if c = sep then [] :: splitOn sep cs
    else
      match splitOn sep cs with
      | [] => [[c]]
      | field :: fields => (c :: field) :: fields

/-- Go `%q` of a string, for strings that need no escaping. -/
def goQuote (s : List Char) : String := "\"" ++ String.mk s ++ "\""

/-- Go `parseRequiredInt`. -/
def parseRequiredInt (s : List Char) (name : String) (lineNum : Nat) : Except GoError Int :=
  let s := TrimSpace s
  if s = [] then
    .error (.leaf ("line " ++ toString lineNum ++ ": required field " ++ name ++ " is empty"))
  else
    match Atoi s with
    | .error err =>
      .error (.wrap ("line " ++ toString lineNum ++ ": invalid " ++ name ++ " value " ++
        goQuote s ++ ": ") err)
    | .ok v => .ok v

/-- Go `parseOptionalInt`: `none` is the nil pointer. -/
def parseOptionalInt (s : List Char) : Option Int :=
  let s := TrimSpace s
  if s = [] then none
  else
    match Atoi s with
    | .error _ => none
    | .ok v => some v

/-- Go `isLeap` of package `time`. -/
def isLeap (year : Nat) : Bool := year % 4 = 0 && (year % 100 ≠ 0 || year % 400 = 0)

/-- Go `daysIn` of package `time`. -/
def daysIn (month year : Nat) : Nat :=
  if month = 2 && isLeap year then 29
  else
    match month with
    | 1 => 31 | 2 => 28 | 3 => 31 | 4 => 30 | 5 => 31 | 6 => 30
    | 7 => 31 | 8 => 31 | 9 => 30 | 10 => 31 | 11 => 30 | 12 => 31
    | _ => 0

/-- Go `getnum(s, true)` of package `time`: two digits. -/
def getnum2 (s : List Char) : Option (Nat × List Char) :=
  match s with
  | a :: b :: rest =>
    if a.isDigit && b.isDigit then some ((a.toNat - 48) * 10 + (b.toNat - 48), rest) else none
  | _ => none

/-- Go `time.Parse("20060102", s)`: a four-digit year, a two-digit month in 1..12, a
two-digit day, no extra text, and a day that exists in that month.  The result is the
calendar day; the text of the error is abridged. -/
def timeParse (s : List Char) : Except GoError Date :=
  match s with
  | y1 :: y2 :: y3 :: y4 :: rest =>
    if y1.isDigit && y2.isDigit && y3.isDigit && y4.isDigit then
      match getnum2 rest with
      | none => .error (.leaf "parsing time: cannot parse month")
      | some (month, rest1) =>
        if month = 0 ∨ 12 < month then .error (.leaf "parsing time: month out of range")
        else
          match getnum2 rest1 with
          | none => .error (.leaf "parsing time: cannot parse day")
          | some (day, rest2) =>
            if rest2 ≠ [] then .error (.leaf "parsing time: extra text")
            else if day < 1 ∨ daysIn month (digitsValue [y1, y2, y3, y4]) < day then
              .error (.leaf "parsing time: day out of range")
            else .ok (Date.mk (digitsValue [y1, y2, y3, y4]) month day)
    else .error (.leaf "parsing time: cannot parse year")
  | _ => .error (.leaf "parsing time: cannot parse year")

/-- Go `parseDate`. -/
def parseDate (s : List Char) (lineNum : Nat) : Except GoError Date :=
  let s := TrimSpace s
  if s = [] then .error (.leaf ("line " ++ toString lineNum ++ ": date is empty"))
  else
    match timeParse s with
    | .error err =>
      .error (.wrap ("line " ++ toString lineNum ++ ": invalid date format " ++ goQuote s ++
        " (expected YYYYMMDD): ") err)
    | .ok t => .ok t

/-- Go `parseLine`. -/
def parseLine (line : List Char) (lineNum : Nat) : Except GoError WeatherRecord :=
  let fields := splitOn ',' line
  if fields.length ≠ 41 then
    .error (.leaf ("line " ++ toString lineNum ++ ": expected " ++ toString 41 ++
      " columns, got " ++ toString fields.length))
  else
    match parseRequiredInt (fields.getD 0 []) "station_id" lineNum with
    | .error err => .error err
    | .ok stationID =>
      match parseDate (fields.getD 1 []) lineNum with
      | .error err => .error err
      | .ok date =>
        .ok (WeatherRecord.mk stationID date
        (parseOptionalInt (fields.getD 2 []))
        (parseOptionalInt (fields.getD 3 []))
        (parseOptionalInt (fields.getD 4 []))
        (parseOptionalInt (fields.getD 5 []))
        (parseOptionalInt (fields.getD 6 []))
        (parseOptionalInt (fields.getD 7 []))
        (parseOptionalInt (fields.getD 8 []))
        (parseOptionalInt (fields.getD 9 []))
        (parseOptionalInt (fields.getD 10 []))
        (parseOptionalInt (fields.getD 11 []))
        (parseOptionalInt (fields.getD 12 []))
        (parseOptionalInt (fields.getD 13 []))
        (parseOptionalInt (fields.getD 14 []))
        (parseOptionalInt (fields.getD 15 []))
        (parseOptionalInt (fields.getD 16 []))
        (parseOptionalInt (fields.getD 17 []))
        (parseOptionalInt (fields.getD 18 []))
        (parseOptionalInt (fields.getD 19 []))
        (parseOptionalInt (fields.getD 20 []))
        (parseOptionalInt (fields.getD 21 []))
        (parseOptionalInt (fields.getD 22 []))
        (parseOptionalInt (fields.getD 23 []))
        (parseOptionalInt (fields.getD 24 []))
        (parseOptionalInt (fields.getD 25 []))
        (parseOptionalInt (fields.getD 26 []))
        (parseOptionalInt (fields.getD 27 []))
        (parseOptionalInt (fields.getD 28 []))
        (parseOptionalInt (fields.getD 29 []))
        (parseOptionalInt (fields.getD 30 []))
        (parseOptionalInt (fields.getD 31 []))
        (parseOptionalInt (fields.getD 32 []))
        (parseOptionalInt (fields.getD 33 []))
        (parseOptionalInt (fields.getD 34 []))
        (parseOptionalInt (fields.getD 35 []))
        (parseOptionalInt (fields.getD 36 []))
        (parseOptionalInt (fields.getD 37 []))
        (parseOptionalInt (fields.getD 38 []))
        (parseOptionalInt (fields.getD 39 []))
        (parseOptionalInt (fields.getD 40 [])))

/-- What `ParseCSV` reads from: the text the reader delivers and the error it ends with
(`none` is `io.EOF`). -/
structure Reader where
  text : List Char
  err : Option GoError

/-- Length in bytes of a text in UTF-8. -/
def utf8Len (s : List Char) : Nat := (s.map Char.utf8Size).sum

/-- Go `bufio.MaxScanTokenSize`. -/
def maxScanTokenSize : Nat := 64 * 1024

/-- Go `dropCR` of package `bufio`. -/
def dropCR (s : List Char) : List Char :=
  if s.getLast? = some '\r' then s.dropLast else s

/-- The lines of a text as `bufio.ScanLines` cuts them, before the carriage return is
dropped: the text is cut at every newline, and a last line that is empty is not a line. -/
def rawLines (text : List Char) : List (List Char) :=
  if (splitOn '\n' text).getLast? = some [] then (splitOn '\n' text).dropLast
  else splitOn '\n' text

/-- The tokens `scanner.Scan` delivers and the final `scanner.Err()`.  A line of
`maxScanTokenSize` bytes or more does not fit the buffer: scanning stops there with
`bufio.ErrTooLong`.  Otherwise every line is delivered and the error is the one of the
reader.  (The reader is taken to report `io.EOF` on a read of its own: a reader that
returns its last bytes together with `io.EOF` still gets a last line of exactly
`maxScanTokenSize` bytes without a newline delivered.) -/
def scanLines (r : Reader) : List (List Char) × Option GoError :=
  let fit := (rawLines r.text).takeWhile (fun l => decide (utf8Len l < maxScanTokenSize))
  if fit.length < (rawLines r.text).length then
    (fit.map dropCR, some (.leaf "bufio.Scanner: token too long"))
  else (fit.map dropCR, r.err)

/-- The loop of `ParseCSV` over the scanned lines; `lineNum` is the number of lines
scanned so far. -/
def parseLoop : Nat → List (List Char) → List WeatherRecord →
    Except GoError (List WeatherRecord)
  | _, [], records => .ok records
  | lineNum, text :: rest, records =>
    let line := TrimSpace text
    if line = [] ∨ line.head? = some '#' then parseLoop (lineNum + 1) rest records
    else if line.length = 0 ∨ ¬ (line.head?.any Char.isDigit = true) then
      parseLoop (lineNum + 1) rest records
    else
      match parseLine line (lineNum + 1) with
      | .error err => .error err
      | .ok record => parseLoop (lineNum + 1) rest (records ++ [record])

/-- Go `ParseCSV`. -/
def ParseCSV (r : Reader) : Except GoError (List WeatherRecord) :=
  match parseLoop 0 (scanLines r).1 [] with
  | .error err => .error err
  | .ok records =>
    match (scanLines r).2 with
    | some err => .error (.wrap "reading input: " err)
    | none => .ok records

/-- The 39 optional fields of a record in the order of the struct: DDVEC, FHVEC, ...,
EV24. -/
def WeatherRecord.optionals (r : WeatherRecord) : List (Option Int) :=
  [r.DDVEC, r.FHVEC, r.FG, r.FHX, r.FHXH, r.FHN, r.FHNH, r.FXX, r.FXXH, r.TG, r.TN, r.TNH, r.TX, r.TXH, r.T10N, r.T10NH, r.SQ, r.SP, r.Q, r.DR, r.RH, r.RHX, r.RHXH, r.PG, r.PX, r.PXH, r.PN, r.PNH, r.VVN, r.VVNH, r.VVX, r.VVXH, r.NG, r.UG, r.UX, r.UXH, r.UN, r.UNH, r.EV24]

/-- The text `s` is a valid integer with value `v`: an optional sign, one or more ASCII
decimal digits, and a value that a Go `int` holds. -/
def IsIntText (s : List Char) (v : Int) : Prop :=
  ∃ digits, digits ≠ [] ∧ (∀ c ∈ digits, c.isDigit = true) ∧
    (((s = digits ∨ s = '+' :: digits) ∧ v = (digitsValue digits : Int) ∧
        digitsValue digits ≤ maxInt) ∨
      (s = '-' :: digits ∧ v = -(digitsValue digits : Int) ∧ digitsValue digits ≤ maxInt + 1))

/-- A data line: a line whose first non-whitespace character is an ASCII digit. -/
def isDataLine (text : List Char) : Bool := (TrimSpace text).head?.any Char.isDigit

/-- A valid `YYYYMMDD` date: eight ASCII digits, a month from 1 to 12 and a day that
exists in that month of that year. -/
def isValidYYYYMMDD (s : List Char) : Bool :=
  s.length = 8 && s.all Char.isDigit &&
  1 ≤ digitsValue ((s.drop 4).take 2) && digitsValue ((s.drop 4).take 2) ≤ 12 &&
  1 ≤ digitsValue (s.drop 6) &&
  digitsValue (s.drop 6) ≤ daysIn (digitsValue ((s.drop 4).take 2)) (digitsValue (s.take 4))

/-- The calendar day a valid `YYYYMMDD` text denotes. -/
def dateOfYYYYMMDD (s : List Char) : Date :=
  Date.mk (digitsValue (s.take 4)) (digitsValue ((s.drop 4).take 2)) (digitsValue (s.drop 6))

/-- The station id column of a line is empty or is not an integer. -/
def BadStation (line : List Char) : Prop :=
  TrimSpace ((splitOn ',' line).getD 0 []) = [] ∨
    ¬ ∃ v, IsIntText (TrimSpace ((splitOn ',' line).getD 0 [])) v

/-- The date column of a line is empty or is not a valid `YYYYMMDD` date. -/
def BadDate (line : List Char) : Prop :=
  TrimSpace ((splitOn ',' line).getD 1 []) = [] ∨
    isValidYYYYMMDD (TrimSpace ((splitOn ',' line).getD 1 [])) = false

/-- A malformed data line: not exactly 41 comma-separated columns, or a bad station id,
or a bad date. -/
def Malformed (line : List Char) : Prop :=
  (splitOn ',' line).length ≠ 41 ∨ BadStation line ∨ BadDate line

/-- The error `e` names line `n` and the first fault of the line: the column count, else
the station id, else the date. -/
def NamesFault (e : GoError) (n : Nat) (line : List Char) : Prop :=
  ((splitOn ',' line).length ≠ 41 ∧
    e.Error = "line " ++ toString n ++ ": expected 41 columns, got " ++
      toString (splitOn ',' line).length) ∨
  ((splitOn ',' line).length = 41 ∧ BadStation line ∧
    (e.Error = "line " ++ toString n ++ ": required field station_id is empty" ∨
      ∃ rest, e.Error = "line " ++ toString n ++ ": invalid station_id value " ++ rest)) ∨
  ((splitOn ',' line).length = 41 ∧ ¬ BadStation line ∧ BadDate line ∧
    (e.Error = "line " ++ toString n ++ ": date is empty" ∨
      ∃ rest, e.Error = "line " ++ toString n ++ ": invalid date format " ++ rest))

/-- A record is built from a data line: 41 columns, the station id from column 1, the
date from column 2 and the 39 optional fields from columns 3 to 41 in struct order. -/
def BuiltFrom (text : List Char) (record : WeatherRecord) : Prop :=
  (splitOn ',' (TrimSpace text)).length = 41 ∧
  IsIntText (TrimSpace ((splitOn ',' (TrimSpace text)).getD 0 [])) record.StationID ∧
  isValidYYYYMMDD (TrimSpace ((splitOn ',' (TrimSpace text)).getD 1 [])) = true ∧
  record.Date = dateOfYYYYMMDD (TrimSpace ((splitOn ',' (TrimSpace text)).getD 1 [])) ∧
  record.optionals = ((splitOn ',' (TrimSpace text)).drop 2).map parseOptionalInt

/-- A comment, a blank line, a header and one data line that ends in a carriage return:
station 260 on 1 January 2024 with the 12th column (TG) 85 and no other measurement. -/
def sampleCSV : List Char :=
  String.toList "# KNMI\n\nSTN,YYYYMMDD\n  260,20240101,,,,,,,,,,85,,,,,,,,,,,,,,,,,,,,,,,,,,,,,\r\n"

/-- A comment followed by a data line of three columns. -/
def shortLineCSV : List Char := String.toList "# KNMI\n260,20240101,1\n"

/-! ## Basic facts about the tracker and `applyMigration` -/

theorem ensureTable_ok (env : Faults) (db : MigrationDB) (h : env.ensureTable = none) :
    Tracker.EnsureTable env db = (MigrationDB.mk (some (db.migrations.getD [])) db.schema, none) := by
  simp [Tracker.EnsureTable, h]

theorem applied_ok (env : Faults) (rows : List LedgerRow) (schema : List String)
    (applied : List Int)
    (h : Tracker.Applied env (MigrationDB.mk (some rows) schema) = .ok applied) :
    applied = rows.map LedgerRow.version := by
  unfold Tracker.Applied at h
  cases hf : env.applied with
  | none => simp [hf] at h; exact h.symm
  | some f =>
    cases f with
    | query e => simp [hf] at h
    | scan e =>
      by_cases hr : rows = []
      · simp [hf, hr] at h; simp [hr, h]
      · simp [hf, hr] at h
    | rows e => simp [hf] at h

/-- A successful `applyMigration` appends exactly one ledger row and commits the body. -/
theorem applyMigration_ok (env : Faults) (db db1 : MigrationDB) (m : Migration)
    (h : applyMigration env db m = (db1, none)) :
    ∃ rows, db.migrations = some rows ∧ m.Version ∉ rows.map LedgerRow.version ∧
      db1 = MigrationDB.mk (some (rows ++ [rowOf m])) (db.schema ++ [m.Content]) := by
  cases hb : env.begin m with
  | some e => simp [applyMigration, hb] at h
  | none =>
  cases he : env.exec m with
  | some e => simp [applyMigration, hb, he] at h
  | none =>
  cases hr : env.record m.Version m.Filename with
  | some e => simp [applyMigration, Tracker.Record, hb, he, hr] at h
  | none =>
  cases hm : db.migrations with
  | none => simp [applyMigration, Tracker.Record, hb, he, hr, hm] at h
  | some rows =>
  by_cases hv : m.Version ∈ rows.map LedgerRow.version
  · rw [applyMigration, hb, he] at h
    simp only [Tracker.Record, hr, hm, hv, if_true] at h
    simp at h
  · cases hc : env.commit m with
    | some e =>
      rw [applyMigration, hb, he] at h
      simp only [Tracker.Record, hr, hm, hv, if_false, hc] at h
      simp at h
    | none =>
      rw [applyMigration, hb, he] at h
      simp only [Tracker.Record, hr, hm, hv, if_false, hc] at h
      exact ⟨rows, rfl, hv, by simp at h; rw [← h]; rfl⟩

theorem applyAll_cons (env : Faults) (db : MigrationDB) (m : Migration) (ms : List Migration) :
    applyAll env db (m :: ms) = applyAll env (applyMigration env db m).1 ms := rfl

theorem applyAll_append (env : Faults) (db : MigrationDB) (xs ys : List Migration) :
    applyAll env db (xs ++ ys) = applyAll env (applyAll env db xs) ys := by
  simp [applyAll, List.foldl_append]

/-- When every application succeeds the loop returns all filenames and sets `Skipped`. -/
theorem applyLoop_ok (env : Faults) (n p : Nat) :
    ∀ (pending : List Migration) (db : MigrationDB) (result : Result),
      allApplied env db pending = true →
      applyLoop env n p pending db result =
        RunOutcome.mk (applyAll env db pending)
          (some (Result.mk (result.Applied ++ pending.map Migration.Filename) ((n : Int) - (p : Int))))
          none := by
  intro pending
  induction pending with
  | nil => intro db result _; simp [applyLoop, applyAll]
  | cons m rest ih =>
    intro db result h
    rw [allApplied, Bool.and_eq_true] at h
    obtain ⟨h1, h2⟩ := h
    rw [applyLoop, applyAll_cons]
    cases hm : applyMigration env db m with
    | mk db1 e =>
      rw [hm] at h1 h2
      cases e with
      | some err => simp at h1
      | none =>
        simp only
        rw [ih db1 _ h2]
        simp

/-- When the loop fails at `m`, after `pre` succeeded, it returns the filenames of `pre`
and an error naming `m`, and it touches nothing after `m`. -/
theorem applyLoop_fail (env : Faults) (n p : Nat) (m : Migration) (post : List Migration) :
    ∀ (pre : List Migration) (db db1 : MigrationDB) (result : Result) (cause : GoError),
      allApplied env db pre = true →
      applyMigration env (applyAll env db pre) m = (db1, some cause) →
      applyLoop env n p (pre ++ m :: post) db result =
        RunOutcome.mk db1
          (some (Result.mk (result.Applied ++ pre.map Migration.Filename) result.Skipped))
          (some (.wrap ("migration " ++ m.Filename ++ " failed: ") cause)) := by
  intro pre
  induction pre with
  | nil =>
    intro db db1 result cause _ hf
    simp only [applyAll, List.foldl_nil] at hf
    simp [applyLoop, hf]
  | cons a rest ih =>
    intro db db1 result cause h hf
    rw [allApplied, Bool.and_eq_true] at h
    obtain ⟨h1, h2⟩ := h
    rw [applyAll_cons] at hf
    rw [List.cons_append, applyLoop]
    cases hm : applyMigration env db a with
    | mk db2 e =>
      rw [hm] at h1 h2 hf
      cases e with
      | some err => simp at h1
      | none =>
        simp only
        rw [ih db2 db1 _ cause h2 hf]
        simp

/-- A loop that returns a nil error has applied every migration. -/
theorem applyLoop_err_none (env : Faults) (n p : Nat) :
    ∀ (pending : List Migration) (db : MigrationDB) (result : Result),
      (applyLoop env n p pending db result).err = none → allApplied env db pending = true := by
  intro pending
  induction pending with
  | nil => intro db result _; rfl
  | cons m rest ih =>
    intro db result h
    rw [applyLoop] at h
    rw [allApplied, Bool.and_eq_true]
    cases hm : applyMigration env db m with
    | mk db1 e =>
      rw [hm] at h
      cases e with
      | some err => simp at h
      | none => exact ⟨by simp, ih db1 _ h⟩

/-- The store after a run of successful applications: one ledger row and one committed
body per migration, in order, and the recorded versions are new and pairwise distinct. -/
theorem applyAll_ok (env : Faults) :
    ∀ (pending : List Migration) (db : MigrationDB) (rows : List LedgerRow),
      db.migrations = some rows → allApplied env db pending = true →
      applyAll env db pending =
          MigrationDB.mk (some (rows ++ pending.map rowOf))
            (db.schema ++ pending.map Migration.Content) ∧
        (∀ m ∈ pending, m.Version ∉ rows.map LedgerRow.version) ∧
        (pending.map Migration.Version).Nodup := by
  intro pending
  induction pending with
  | nil =>
    intro db rows hr _
    cases db with
    | mk mg sc => simp at hr; simp [applyAll, hr]
  | cons m rest ih =>
    intro db rows hr h
    rw [allApplied, Bool.and_eq_true] at h
    obtain ⟨h1, h2⟩ := h
    cases hm : applyMigration env db m with
    | mk db1 e =>
      rw [hm] at h1 h2
      cases e with
      | some err => simp at h1
      | none =>
        obtain ⟨rows0, hr0, hv, hdb1⟩ := applyMigration_ok env db db1 m hm
        rw [hr] at hr0
        cases hr0
        have hstep := ih db1 (rows ++ [rowOf m]) (by rw [hdb1]) h2
        obtain ⟨e1, e2, e3⟩ := hstep
        rw [applyAll_cons, hm]
        refine ⟨?_, ?_, ?_⟩
        · rw [e1, hdb1]; simp
        · intro x hx
          rcases List.mem_cons.1 hx with hx | hx
          · rw [hx]; exact hv
          · intro hmem
            exact e2 x hx (by simp only [List.map_append, List.mem_append]; exact Or.inl hmem)
        · rw [List.map_cons, List.nodup_cons]
          refine ⟨?_, e3⟩
          intro hmem
          obtain ⟨x, hx, hxv⟩ := List.mem_map.1 hmem
          exact e2 x hx (by simp [rowOf, hxv])

/-- A failing `applyMigration` commits no body; the ledger is as before, except that a
failing commit leaves the row that `Tracker.Record` wrote. -/
theorem applyMigration_fail (env : Faults) (db db1 : MigrationDB) (m : Migration)
    (cause : GoError) (h : applyMigration env db m = (db1, some cause)) :
    db1.schema = db.schema ∧
      (db1.migrations = db.migrations ∨
        (env.commit m ≠ none ∧ ∃ rows, db.migrations = some rows ∧
          m.Version ∉ rows.map LedgerRow.version ∧
          db1.migrations = some (rows ++ [rowOf m]))) := by
  cases hb : env.begin m with
  | some e =>
    simp only [applyMigration, hb, Prod.mk.injEq] at h
    rw [← h.1]; exact ⟨rfl, Or.inl rfl⟩
  | none =>
  cases he : env.exec m with
  | some e =>
    simp only [applyMigration, hb, he, Prod.mk.injEq] at h
    rw [← h.1]; exact ⟨rfl, Or.inl rfl⟩
  | none =>
  cases hr : env.record m.Version m.Filename with
  | some e =>
    simp only [applyMigration, Tracker.Record, hb, he, hr, Prod.mk.injEq] at h
    rw [← h.1]; exact ⟨rfl, Or.inl rfl⟩
  | none =>
  cases hm : db.migrations with
  | none =>
    simp only [applyMigration, Tracker.Record, hb, he, hr, hm, Prod.mk.injEq] at h
    rw [← h.1]; exact ⟨rfl, Or.inl hm⟩
  | some rows =>
  by_cases hv : m.Version ∈ rows.map LedgerRow.version
  · rw [applyMigration, hb, he] at h
    simp only [Tracker.Record, hr, hm, hv, if_true, Prod.mk.injEq] at h
    rw [← h.1]; exact ⟨rfl, Or.inl hm⟩
  · cases hc : env.commit m with
    | some e =>
      rw [applyMigration, hb, he] at h
      simp only [Tracker.Record, hr, hm, hv, if_false, hc, Prod.mk.injEq] at h
      rw [← h.1]
      exact ⟨rfl, Or.inr ⟨by simp, rows, rfl, hv, rfl⟩⟩
    | none =>
      rw [applyMigration, hb, he] at h
      simp only [Tracker.Record, hr, hm, hv, if_false, hc] at h
      simp at h

/-- The result of `Discover` is sorted ascending by version. -/
theorem discover_sorted (fs : FileSystem) (dir : String) (migrations : List Migration)
    (h : Discover fs dir = .ok migrations) : migrations.Sorted versionLE := by
  unfold Discover at h
  cases hrd : fs.ReadDir dir with
  | notExist e => simp [hrd] at h
  | failed e => simp [hrd] at h
  | entries es =>
    simp only [hrd] at h
    cases hl : discoverLoop fs dir es [] with
    | error e => simp [hl] at h
    | ok ms =>
      simp only [hl, Except.ok.injEq] at h
      rw [← h]
      exact List.sorted_insertionSort versionLE ms

/-- The outcome of `Run` when provisioning, discovery, the ledger read and every
application succeed. -/
theorem run_ok_eq (env : Faults) (fs : FileSystem) (db : MigrationDB) (dir : String)
    (migrations : List Migration)
    (hE : env.ensureTable = none)
    (hD : Discover fs dir = .ok migrations)
    (hA : migrations ≠ [] → ∃ applied, Tracker.Applied env (Tracker.EnsureTable env db).1 = .ok applied)
    (hP : allApplied env (Tracker.EnsureTable env db).1 (pendingOf db.versions migrations) = true) :
    Run env fs db dir = RunOutcome.mk
        (MigrationDB.mk
          (some (db.migrations.getD [] ++ (pendingOf db.versions migrations).map rowOf))
          (db.schema ++ (pendingOf db.versions migrations).map Migration.Content))
        (some (Result.mk ((pendingOf db.versions migrations).map Migration.Filename)
          ((migrations.length : Int) - ((pendingOf db.versions migrations).length : Int))))
        none ∧
    ((pendingOf db.versions migrations).map Migration.Version).Nodup := by
  have hE0 := ensureTable_ok env db hE
  rw [hE0] at hA hP
  obtain ⟨e1, _, e3⟩ := applyAll_ok env (pendingOf db.versions migrations)
    (MigrationDB.mk (some (db.migrations.getD [])) db.schema) (db.migrations.getD []) rfl hP
  refine ⟨?_, e3⟩
  by_cases hnil : migrations = []
  · subst hnil
    simp [Run, hE0, hD, pendingOf]
  · obtain ⟨applied, happ⟩ := hA hnil
    have hav2 : applied = db.versions := by rw [applied_ok env _ _ applied happ]; rfl
    have hlen : migrations.length ≠ 0 := by
      intro h0; exact hnil (List.length_eq_zero.1 h0)
    by_cases hp : pendingOf db.versions migrations = []
    · simp [Run, hE0, hD, hlen, happ, hav2, hp]
    · have hplen : (pendingOf db.versions migrations).length ≠ 0 := by
        intro h0; exact hp (List.length_eq_zero.1 h0)
      have hloop := applyLoop_ok env migrations.length (pendingOf db.versions migrations).length
        (pendingOf db.versions migrations) _ (Result.mk [] 0) hP
      rw [e1] at hloop
      rw [← List.nil_append ((pendingOf db.versions migrations).map Migration.Filename), ← hloop]
      simp [Run, hE0, hD, hlen, happ, hav2, hplen]

/-- A run that returns a nil error passed provisioning, discovery, the ledger read and
every application. -/
theorem run_ok_inv (env : Faults) (fs : FileSystem) (db : MigrationDB) (dir : String)
    (h : (Run env fs db dir).err = none) :
    env.ensureTable = none ∧ ∃ migrations, Discover fs dir = .ok migrations ∧
      (migrations ≠ [] →
        ∃ applied, Tracker.Applied env (Tracker.EnsureTable env db).1 = .ok applied) ∧
      allApplied env (Tracker.EnsureTable env db).1 (pendingOf db.versions migrations) = true := by
  cases hE : env.ensureTable with
  | some e => simp [Run, Tracker.EnsureTable, hE] at h
  | none =>
    refine ⟨rfl, ?_⟩
    have hE0 := ensureTable_ok env db hE
    cases hD : Discover fs dir with
    | error e => simp [Run, hE0, hD] at h
    | ok migrations =>
      refine ⟨migrations, rfl, ?_⟩
      rw [hE0]
      by_cases hnil : migrations = []
      · subst hnil
        exact ⟨fun hne => absurd rfl hne, by simp [pendingOf, allApplied]⟩
      · have hlen : migrations.length ≠ 0 := by
          intro h0; exact hnil (List.length_eq_zero.1 h0)
        cases happ : Tracker.Applied env (MigrationDB.mk (some (db.migrations.getD [])) db.schema) with
        | error e => simp [Run, hE0, hD, hlen, happ] at h
        | ok applied =>
          have hav2 : applied = db.versions := by rw [applied_ok env _ _ applied happ]; rfl
          refine ⟨fun _ => ⟨applied, rfl⟩, ?_⟩
          by_cases hp : pendingOf db.versions migrations = []
          · rw [hp]; rfl
          · have hplen : (pendingOf db.versions migrations).length ≠ 0 := by
              intro h0; exact hp (List.length_eq_zero.1 h0)
            simp only [Run, hE0, hD, hlen, happ, hav2, hplen, if_false] at h
            exact applyLoop_err_none env _ _ _ _ _ h

/-! ## Runner.Run on success (C1) -/

/-- C1, as stated, fails: with the files `001_create.sql` and `002_index.sql` and an empty
ledger, ledger provisioning succeeds, discovery succeeds and no application fails, yet
`Run` returns an error and no result, because reading the applied versions failed. -/
theorem run_success_needs_ledger_read :
    (Tracker.EnsureTable readFaults emptyDB).2 = none ∧
    (Discover (fsOf ["001_create.sql", "002_index.sql"]) "migrations").toOption.isSome = true ∧
    (∀ m : Migration, (applyMigration readFaults (Tracker.EnsureTable readFaults emptyDB).1 m).2
      = none) ∧
    (Run readFaults (fsOf ["001_create.sql", "002_index.sql"]) emptyDB "migrations").err ≠ none ∧
    (Run readFaults (fsOf ["001_create.sql", "002_index.sql"]) emptyDB "migrations").result
      = none := by
  refine ⟨by decide, by decide, ?_, by decide, by decide⟩
  intro m
  simp [applyMigration, Tracker.Record, Tracker.EnsureTable, readFaults, emptyDB]

/-- C1 (amended): when ledger provisioning, discovery, the read of the applied versions
(made whenever a migration was discovered) and every individual application succeed,
`Run` returns no error, `Applied` is exactly the filenames of the discovered migrations
whose version is not in the ledger at start, in discovery order, which is ascending by
version; the ledger gains exactly those versions; with nothing pending `Applied` is empty. -/
theorem run_success (env : Faults) (fs : FileSystem) (db : MigrationDB) (dir : String)
    (migrations : List Migration)
    (hE : env.ensureTable = none)
    (hD : Discover fs dir = .ok migrations)
    (hA : migrations ≠ [] → ∃ applied, Tracker.Applied env (Tracker.EnsureTable env db).1 = .ok applied)
    (hP : allApplied env (Tracker.EnsureTable env db).1 (pendingOf db.versions migrations) = true) :
    (Run env fs db dir).err = none ∧
    (∃ r, (Run env fs db dir).result = some r ∧
      r.Applied = (migrations.filter (fun m => decide (m.Version ∉ db.versions))).map
        Migration.Filename) ∧
    (migrations.filter (fun m => decide (m.Version ∉ db.versions))).Sorted versionLE ∧
    (Run env fs db dir).db.versions =
      db.versions ++ (migrations.filter (fun m => decide (m.Version ∉ db.versions))).map
        Migration.Version ∧
    (pendingOf db.versions migrations = [] →
      ∃ r, (Run env fs db dir).result = some r ∧ r.Applied = []) := by
  obtain ⟨hrun, _⟩ := run_ok_eq env fs db dir migrations hE hD hA hP
  rw [hrun]
  refine ⟨rfl, ⟨_, rfl, rfl⟩,
    (discover_sorted fs dir migrations hD).sublist (List.filter_sublist _), ?_, ?_⟩
  · simp [MigrationDB.versions, pendingOf, rowOf, Function.comp_def]
  · intro hp
    exact ⟨_, rfl, by simp [hp]⟩

/-- C1 witness: `001_create.sql` and `002_index.sql` on an empty ledger. -/
theorem run_success_witness :
    (Run noFaults (fsOf ["001_create.sql", "002_index.sql"]) emptyDB "migrations").err = none ∧
    (Run noFaults (fsOf ["001_create.sql", "002_index.sql"]) emptyDB "migrations").result
      = some (Result.mk ["001_create.sql", "002_index.sql"] 0) ∧
    (Run noFaults (fsOf ["001_create.sql", "002_index.sql"]) emptyDB "migrations").db.versions
      = [1, 2] :=
  have h := run_success noFaults (fsOf ["001_create.sql", "002_index.sql"]) emptyDB "migrations"
    [Migration.mk 1 "create" "001_create.sql" "migrations/001_create.sql" "-- test",
     Migration.mk 2 "index" "002_index.sql" "migrations/002_index.sql" "-- test"]
    (by decide) (by decide) (fun _ => ⟨[], by decide⟩) (by decide)
  ⟨h.1, by decide, by decide⟩

/-! ## Runner.Run halts at the first failure (C4) -/

/-- The outcome of `Run` when the loop fails at `m` after `pre` succeeded. -/
theorem run_fail_eq (env : Faults) (fs : FileSystem) (db db1 : MigrationDB)
    (dir : String) (migrations pre post : List Migration) (m : Migration) (cause : GoError)
    (hE : env.ensureTable = none)
    (hD : Discover fs dir = .ok migrations)
    (hA : ∃ applied, Tracker.Applied env (Tracker.EnsureTable env db).1 = .ok applied)
    (hS : pendingOf db.versions migrations = pre ++ m :: post)
    (hP : allApplied env (Tracker.EnsureTable env db).1 pre = true)
    (hF : applyMigration env (applyAll env (Tracker.EnsureTable env db).1 pre) m
      = (db1, some cause)) :
    Run env fs db dir = RunOutcome.mk db1
        (some (Result.mk (pre.map Migration.Filename) 0))
        (some (.wrap ("migration " ++ m.Filename ++ " failed: ") cause)) ∧
    db1.schema = db.schema ++ pre.map Migration.Content ∧
    (db1.migrations = some (db.migrations.getD [] ++ pre.map rowOf) ∨
      (env.commit m ≠ none ∧
        db1.migrations = some (db.migrations.getD [] ++ pre.map rowOf ++ [rowOf m]))) := by
  have hE0 := ensureTable_ok env db hE
  rw [hE0] at hA hP hF
  obtain ⟨applied, happ⟩ := hA
  have hav2 : applied = db.versions := by rw [applied_ok env _ _ applied happ]; rfl
  have hmne : migrations.length ≠ 0 := by
    intro h0
    have hnil : migrations = [] := List.length_eq_zero.1 h0
    rw [hnil] at hS
    simp [pendingOf] at hS
  have hplen : (pendingOf db.versions migrations).length ≠ 0 := by rw [hS]; simp
  have hloop := applyLoop_fail env migrations.length (pendingOf db.versions migrations).length
    m post pre _ db1 (Result.mk [] 0) cause hP hF
  have hrun : Run env fs db dir = RunOutcome.mk db1
      (some (Result.mk (pre.map Migration.Filename) 0))
      (some (.wrap ("migration " ++ m.Filename ++ " failed: ") cause)) := by
    rw [← List.nil_append (pre.map Migration.Filename), ← hloop, ← hS]
    simp [Run, hE0, hD, hmne, happ, hav2, hplen]
  obtain ⟨e1, _, _⟩ := applyAll_ok env pre
    (MigrationDB.mk (some (db.migrations.getD [])) db.schema) (db.migrations.getD []) rfl hP
  rw [e1] at hF
  obtain ⟨hs, hl⟩ := applyMigration_fail env _ db1 m cause hF
  refine ⟨hrun, hs, ?_⟩
  rcases hl with hl | ⟨hc, rows, hr, _, hl⟩
  · exact Or.inl hl
  · simp only [Option.some.injEq] at hr
    exact Or.inr ⟨hc, by rw [hl, ← hr]⟩

/-- C4: when the pending migrations are `pre ++ m :: post`, every application in `pre`
succeeds and applying `m` fails with `cause`, `Run` returns the error
`migration <m.Filename> failed: <cause>` wrapping `cause`, together with a non-nil result
whose `Applied` is the filenames of `pre`; the store is the one the failed application
left: no body after `pre` is committed and no ledger row is written for `post`. -/
theorem run_halts_at_first_failure (env : Faults) (fs : FileSystem) (db db1 : MigrationDB)
    (dir : String) (migrations pre post : List Migration) (m : Migration) (cause : GoError)
    (hE : env.ensureTable = none)
    (hD : Discover fs dir = .ok migrations)
    (hA : ∃ applied, Tracker.Applied env (Tracker.EnsureTable env db).1 = .ok applied)
    (hS : pendingOf db.versions migrations = pre ++ m :: post)
    (hP : allApplied env (Tracker.EnsureTable env db).1 pre = true)
    (hF : applyMigration env (applyAll env (Tracker.EnsureTable env db).1 pre) m
      = (db1, some cause)) :
    (∃ e r, (Run env fs db dir).err = some e ∧
      e.Error = "migration " ++ m.Filename ++ " failed: " ++ cause.Error ∧
      e.Unwrap = some cause ∧
      (Run env fs db dir).result = some r ∧
      r.Applied = pre.map Migration.Filename) ∧
    (Run env fs db dir).db = db1 ∧
    db1.schema = db.schema ++ pre.map Migration.Content ∧
    (∃ extra, extra.Sublist [rowOf m] ∧
      db1.migrations = some (db.migrations.getD [] ++ pre.map rowOf ++ extra)) := by
  obtain ⟨hrun, hs, hl⟩ :=
    run_fail_eq env fs db db1 dir migrations pre post m cause hE hD hA hS hP hF
  rw [hrun]
  refine ⟨⟨_, _, rfl, ?_, rfl, rfl, rfl⟩, rfl, hs, ?_⟩
  · simp [GoError.Error, String.append_assoc]
  · rcases hl with hl | ⟨_, hl⟩
    · exact ⟨[], List.nil_sublist _, by rw [hl]; simp⟩
    · exact ⟨[rowOf m], List.Sublist.refl _, hl⟩

/-- C4 witness: `001_create.sql` applies, the body of `002_index.sql` is invalid, and
`003_data.sql` is never reached. -/
theorem run_halts_at_first_failure_witness :
    (Run execFaultsAt2 (fsOf ["001_create.sql", "002_index.sql", "003_data.sql"]) emptyDB
        "migrations").result = some (Result.mk ["001_create.sql"] 0) ∧
    (Run execFaultsAt2 (fsOf ["001_create.sql", "002_index.sql", "003_data.sql"]) emptyDB
        "migrations").db = MigrationDB.mk (some [LedgerRow.mk 1 "001_create.sql"]) ["-- test"] :=
  have h := run_halts_at_first_failure execFaultsAt2
    (fsOf ["001_create.sql", "002_index.sql", "003_data.sql"]) emptyDB
    (MigrationDB.mk (some [LedgerRow.mk 1 "001_create.sql"]) ["-- test"]) "migrations"
    [migrationOf 1 "create" "001_create.sql", migrationOf 2 "index" "002_index.sql",
     migrationOf 3 "data" "003_data.sql"]
    [migrationOf 1 "create" "001_create.sql"] [migrationOf 3 "data" "003_data.sql"]
    (migrationOf 2 "index" "002_index.sql")
    (.wrap "executing SQL: " (.leaf "pq: syntax error at or near \"THIS\""))
    (by decide) (by decide) ⟨[], by decide⟩ (by decide) (by decide) (by decide)
  ⟨by decide, h.2.1⟩

/-! ## Atomicity of applyMigration (C2) and the ledger after a failure (C3) -/

/-- C2 at the failing input: the body of `001_create.sql` executes, `Tracker.Record`
succeeds and `tx.Commit` fails.  `applyMigration` returns an error, the body is not
persisted, and the ledger row for version 1 is persisted. -/
theorem applyMigration_commit_failure_keeps_ledger_row :
    (applyMigration commitFaults (MigrationDB.mk (some []) [])
        (migrationOf 1 "create" "001_create.sql")).2
      = some (.wrap "committing transaction: " (.leaf "driver: bad connection")) ∧
    (applyMigration commitFaults (MigrationDB.mk (some []) [])
        (migrationOf 1 "create" "001_create.sql")).1.schema = [] ∧
    (applyMigration commitFaults (MigrationDB.mk (some []) [])
        (migrationOf 1 "create" "001_create.sql")).1.migrations
      = some [LedgerRow.mk 1 "001_create.sql"] := by
  decide

/-- The body and the ledger row of a new version part ways in exactly one outcome: the
body executed, the row was recorded and the commit failed.  In that outcome the row is
persisted without the body; the body is never persisted without the row. -/
theorem applyMigration_divergence (env : Faults) (db : MigrationDB) (m : Migration)
    (rows : List LedgerRow) (hm : db.migrations = some rows)
    (hv : m.Version ∉ rows.map LedgerRow.version) :
    ((applyMigration env db m).1.schema = db.schema ++ [m.Content] →
      (applyMigration env db m).1.migrations = some (rows ++ [rowOf m])) ∧
    (((applyMigration env db m).1.schema = db.schema ∧
        (applyMigration env db m).1.migrations = some (rows ++ [rowOf m])) ↔
      (env.begin m = none ∧ env.exec m = none ∧ env.record m.Version m.Filename = none ∧
        env.commit m ≠ none)) := by
  have hne : rows ≠ rows ++ [rowOf m] := by
    intro h
    have := congrArg List.length h
    simp at this
  cases hb : env.begin m with
  | some e => simp [applyMigration, hb, hm, hne]
  | none =>
  cases he : env.exec m with
  | some e => simp [applyMigration, hb, he, hm, hne]
  | none =>
  cases hr : env.record m.Version m.Filename with
  | some e => simp [applyMigration, Tracker.Record, hb, he, hr, hm, hne]
  | none =>
  cases hc : env.commit m with
  | some e =>
    rw [applyMigration, hb, he]
    simp only [Tracker.Record, hr, hm, hv, if_false, hc]
    simp [rowOf]
  | none =>
    rw [applyMigration, hb, he]
    simp only [Tracker.Record, hr, hm, hv, if_false, hc]
    simp [rowOf]

/-- C3 at the failing input: `001_create.sql` on an empty ledger, with a failing commit.
`Run` fails while applying version 1, and version 1 is recorded in the ledger although
its body was rolled back. -/
theorem run_commit_failure_records_failed_version :
    (Run commitFaults (fsOf ["001_create.sql"]) emptyDB "migrations").err
      = some (.wrap "migration 001_create.sql failed: "
          (.wrap "committing transaction: " (.leaf "driver: bad connection"))) ∧
    (1 : Int) ∈ (Run commitFaults (fsOf ["001_create.sql"]) emptyDB "migrations").db.versions ∧
    (Run commitFaults (fsOf ["001_create.sql"]) emptyDB "migrations").db.schema = [] := by
  decide

/-- When the failing step of version `k` is not the commit, the ledger after `Run` holds
every change-set version below `k` and neither `k` nor any pending version above `k`. -/
theorem run_failure_ledger_when_commit_holds (env : Faults) (fs : FileSystem)
    (db db1 : MigrationDB) (dir : String) (migrations pre post : List Migration)
    (m : Migration) (cause : GoError)
    (hE : env.ensureTable = none)
    (hD : Discover fs dir = .ok migrations)
    (hA : ∃ applied, Tracker.Applied env (Tracker.EnsureTable env db).1 = .ok applied)
    (hS : pendingOf db.versions migrations = pre ++ m :: post)
    (hP : allApplied env (Tracker.EnsureTable env db).1 pre = true)
    (hF : applyMigration env (applyAll env (Tracker.EnsureTable env db).1 pre) m
      = (db1, some cause))
    (hN : (migrations.map Migration.Version).Nodup)
    (hC : env.commit m = none) :
    (Run env fs db dir).db = db1 ∧
    (∀ x ∈ migrations, x.Version < m.Version → x.Version ∈ db1.versions) ∧
    m.Version ∉ db1.versions ∧
    (∀ x ∈ pendingOf db.versions migrations, m.Version < x.Version →
      x.Version ∉ db1.versions) := by
  obtain ⟨hrun, _, hl⟩ :=
    run_fail_eq env fs db db1 dir migrations pre post m cause hE hD hA hS hP hF
  have hdb : (Run env fs db dir).db = db1 := by rw [hrun]
  have hmig : db1.migrations = some (db.migrations.getD [] ++ pre.map rowOf) := by
    rcases hl with hl | ⟨hc, _⟩
    · exact hl
    · exact absurd hC hc
  have hvers : db1.versions = db.versions ++ pre.map Migration.Version := by
    simp [MigrationDB.versions, hmig, rowOf, Function.comp_def]
  have hpsorted : (pre ++ m :: post).Sorted versionLE := by
    rw [← hS]
    exact (discover_sorted fs dir migrations hD).sublist (List.filter_sublist _)
  have hpnodup : ((pre ++ m :: post).map Migration.Version).Nodup := by
    rw [← hS]
    exact hN.sublist ((List.filter_sublist _).map _)
  have hpend : ∀ x ∈ pre ++ m :: post, x.Version ∉ db.versions := by
    intro x hx
    rw [← hS] at hx
    simpa [pendingOf] using (List.mem_filter.1 hx).2
  have hpre_le : ∀ y ∈ pre, y.Version < m.Version := by
    intro y hy
    have h1 : versionLE y m := (List.pairwise_append.1 hpsorted).2.2 y hy m (List.mem_cons_self _ _)
    have h2 : y.Version ≠ m.Version := by
      intro heq
      rw [List.map_append, List.map_cons] at hpnodup
      have := (List.nodup_append.1 hpnodup).2.2
      exact this (List.mem_map_of_mem _ hy) (by rw [heq]; exact List.mem_cons_self _ _)
    exact lt_of_le_of_ne h1 h2
  have hpost_ge : ∀ y ∈ post, m.Version ≤ y.Version := by
    intro y hy
    have h1 := (List.pairwise_append.1 hpsorted).2.1
    exact (List.pairwise_cons.1 h1).1 y hy
  refine ⟨hdb, ?_, ?_, ?_⟩
  · intro x hx hlt
    rw [hvers, List.mem_append]
    by_cases hin : x.Version ∈ db.versions
    · exact Or.inl hin
    · right
      have hxp : x ∈ pendingOf db.versions migrations :=
        List.mem_filter.2 ⟨hx, by simpa using hin⟩
      rw [hS, List.mem_append, List.mem_cons] at hxp
      rcases hxp with hxp | hxp | hxp
      · exact List.mem_map_of_mem _ hxp
      · rw [hxp] at hlt; exact absurd hlt (lt_irrefl _)
      · exact absurd hlt (not_lt.2 (hpost_ge x hxp))
  · rw [hvers, List.mem_append]
    rintro (h | h)
    · exact hpend m (by simp) h
    · obtain ⟨y, hy, hyv⟩ := List.mem_map.1 h
      exact absurd hyv (ne_of_lt (hpre_le y hy))
  · intro x hx hlt
    rw [hvers, List.mem_append]
    rintro (h | h)
    · rw [hS] at hx; exact hpend x hx h
    · obtain ⟨y, hy, hyv⟩ := List.mem_map.1 h
      have := hpre_le y hy
      rw [hyv] at this
      exact absurd hlt (not_lt.2 (le_of_lt this))

/-! ## Idempotence of Runner.Run (C5) -/

/-- After a successful run nothing is pending any more. -/
theorem pendingOf_after_run (versions : List Int) (migrations : List Migration) :
    pendingOf (versions ++ (pendingOf versions migrations).map Migration.Version) migrations
      = [] := by
  unfold pendingOf
  rw [List.filter_eq_nil_iff]
  intro m hm
  by_cases hin : m.Version ∈ versions
  · simp [hin]
  · have : m ∈ migrations.filter (fun m => decide (m.Version ∉ versions)) :=
      List.mem_filter.2 ⟨hm, by simpa using hin⟩
    simp only [decide_not, Bool.not_eq_true', decide_eq_false_iff_not, not_not,
      List.mem_append]
    exact Or.inr (List.mem_map_of_mem _ (by simpa using this))

/-- The second of two runs, when it passes provisioning and the ledger read. -/
theorem second_run_eq (env env2 : Faults) (fs : FileSystem) (db : MigrationDB) (dir : String)
    (migrations : List Migration)
    (h1 : (Run env fs db dir).err = none)
    (hD : Discover fs dir = .ok migrations)
    (hE2 : env2.ensureTable = none)
    (hA2 : migrations ≠ [] → ∃ applied,
      Tracker.Applied env2 (Tracker.EnsureTable env2 (Run env fs db dir).db).1 = .ok applied) :
    Run env2 fs (Run env fs db dir).db dir =
      RunOutcome.mk (Run env fs db dir).db (some (Result.mk [] (migrations.length : Int))) none := by
  obtain ⟨hE, ms, hD1, hA, hP⟩ := run_ok_inv env fs db dir h1
  rw [hD] at hD1
  cases hD1
  obtain ⟨hrun, _⟩ := run_ok_eq env fs db dir migrations hE hD hA hP
  have hvers : (Run env fs db dir).db.versions
      = db.versions ++ (pendingOf db.versions migrations).map Migration.Version := by
    rw [hrun]
    simp [MigrationDB.versions, rowOf, Function.comp_def]
  have hpend : pendingOf (Run env fs db dir).db.versions migrations = [] := by
    rw [hvers]; exact pendingOf_after_run _ _
  have hP2 : allApplied env2 (Tracker.EnsureTable env2 (Run env fs db dir).db).1
      (pendingOf (Run env fs db dir).db.versions migrations) = true := by
    rw [hpend]; rfl
  obtain ⟨hrun2, _⟩ := run_ok_eq env2 fs (Run env fs db dir).db dir migrations hE2 hD hA2 hP2
  rw [hrun2, hpend, hrun]
  simp

/-- C5: if `Run` succeeds, a second `Run` on the unchanged directory that reaches the
ledger (provisioning and ledger read succeed), or that returns no error, returns no
error and an empty `Applied` and leaves the store exactly as the first run left it; the
versions recorded by the first run are pairwise distinct and distinct from those that
were there, so each version is recorded once. -/
theorem run_idempotent (env env2 : Faults) (fs : FileSystem) (db : MigrationDB) (dir : String)
    (h1 : (Run env fs db dir).err = none) :
    ((env2.ensureTable = none ∧ env2.applied = none) ∨
        (Run env2 fs (Run env fs db dir).db dir).err = none →
      (Run env2 fs (Run env fs db dir).db dir).err = none ∧
      (∃ r, (Run env2 fs (Run env fs db dir).db dir).result = some r ∧ r.Applied = []) ∧
      (Run env2 fs (Run env fs db dir).db dir).db = (Run env fs db dir).db) ∧
    (db.versions.Nodup → (Run env fs db dir).db.versions.Nodup) := by
  obtain ⟨hE, migrations, hD, hA, hP⟩ := run_ok_inv env fs db dir h1
  obtain ⟨hrun, hnd⟩ := run_ok_eq env fs db dir migrations hE hD hA hP
  constructor
  · intro h2
    have key : env2.ensureTable = none ∧ (migrations ≠ [] → ∃ applied,
        Tracker.Applied env2 (Tracker.EnsureTable env2 (Run env fs db dir).db).1
          = .ok applied) := by
      rcases h2 with ⟨hE2, hA2⟩ | h2
      · refine ⟨hE2, fun _ => ?_⟩
        rw [ensureTable_ok env2 _ hE2]
        exact ⟨_, by simp [Tracker.Applied, hA2]; rfl⟩
      · obtain ⟨hE2, ms, hD2, hA2, _⟩ := run_ok_inv env2 fs _ dir h2
        rw [hD] at hD2
        cases hD2
        exact ⟨hE2, hA2⟩
    rw [second_run_eq env env2 fs db dir migrations h1 hD key.1 key.2]
    exact ⟨rfl, ⟨_, rfl, rfl⟩, rfl⟩
  · intro hn
    have hvers : (Run env fs db dir).db.versions
        = db.versions ++ (pendingOf db.versions migrations).map Migration.Version := by
      rw [hrun]
      simp [MigrationDB.versions, rowOf, Function.comp_def]
    rw [hvers]
    refine List.Nodup.append hn hnd ?_
    intro v hv1 hv2
    obtain ⟨m, hm, hmv⟩ := List.mem_map.1 hv2
    have := (List.mem_filter.1 hm).2
    rw [← hmv] at hv1
    simp at this
    exact this hv1

/-- C5 witness: two runs over `001_create.sql` and `002_index.sql` from an empty ledger. -/
theorem run_idempotent_witness :
    (Run noFaults (fsOf ["001_create.sql", "002_index.sql"]) emptyDB "migrations").err = none ∧
    (Run noFaults (fsOf ["001_create.sql", "002_index.sql"])
        (Run noFaults (fsOf ["001_create.sql", "002_index.sql"]) emptyDB "migrations").db
        "migrations").err = none ∧
    (Run noFaults (fsOf ["001_create.sql", "002_index.sql"])
        (Run noFaults (fsOf ["001_create.sql", "002_index.sql"]) emptyDB "migrations").db
        "migrations").db =
      MigrationDB.mk (some [LedgerRow.mk 1 "001_create.sql", LedgerRow.mk 2 "002_index.sql"])
        ["-- test", "-- test"] :=
  have h := run_idempotent noFaults noFaults (fsOf ["001_create.sql", "002_index.sql"])
    emptyDB "migrations" (by decide)
  have h2 := h.1 (Or.inl ⟨rfl, rfl⟩)
  ⟨by decide, h2.1, by rw [h2.2.2]; decide⟩

/-! ## Result.Skipped (C6) -/

/-- C6 at the failing input: the ledger holds version 1, the directory holds
`001_create.sql` and `002_index.sql`, and the body of `002_index.sql` fails.  One
discovered migration was already recorded, `Run` returns a non-nil result with an error,
and the result carries `Skipped = 0`. -/
theorem run_partial_result_skipped_zero :
    Discover (fsOf ["001_create.sql", "002_index.sql"]) "migrations"
      = .ok [migrationOf 1 "create" "001_create.sql", migrationOf 2 "index" "002_index.sql"] ∧
    ([migrationOf 1 "create" "001_create.sql", migrationOf 2 "index" "002_index.sql"].filter
      (fun m => decide (m.Version ∈ ledgerWith1.versions))).length = 1 ∧
    (Run execFaults (fsOf ["001_create.sql", "002_index.sql"]) ledgerWith1 "migrations").err
      ≠ none ∧
    (Run execFaults (fsOf ["001_create.sql", "002_index.sql"]) ledgerWith1 "migrations").result
      = some (Result.mk [] 0) := by
  decide

theorem length_filter_split (p : Migration → Bool) (l : List Migration) :
    ((l.filter p).length : Int) = (l.length : Int) - ((l.filter (fun m => !p m)).length : Int) := by
  induction l with
  | nil => simp
  | cons a t ih =>
    cases hp : p a <;> simp [List.filter_cons, hp] <;> omega

/-- On full success `Skipped` is the number of discovered migrations whose version was
recorded in the ledger when the run started. -/
theorem run_skipped_on_success (env : Faults) (fs : FileSystem) (db : MigrationDB)
    (dir : String) (migrations : List Migration)
    (hD : Discover fs dir = .ok migrations)
    (h : (Run env fs db dir).err = none) :
    ∃ r, (Run env fs db dir).result = some r ∧
      r.Skipped = ((migrations.filter (fun m => decide (m.Version ∈ db.versions))).length : Int) := by
  obtain ⟨hE, ms, hD1, hA, hP⟩ := run_ok_inv env fs db dir h
  rw [hD] at hD1
  cases hD1
  obtain ⟨hrun, _⟩ := run_ok_eq env fs db dir migrations hE hD hA hP
  rw [hrun]
  refine ⟨_, rfl, ?_⟩
  rw [length_filter_split]
  simp [pendingOf]

/-! ## The loop of InsertRecords -/

/-- A loop that returns a nil error met no failing `Exec` or `RowsAffected`. -/
theorem insertLoop_err_none (env : StoreFaults) :
    ∀ (records : List WeatherRecord) (i : Nat) (rows : List WeatherRecord) (result : InsertResult),
      (insertLoop env i records rows result).err = none → noInsertFault env i records = true := by
  intro records
  induction records with
  | nil => intro i rows result _; rfl
  | cons a rest ih =>
    intro i rows result h
    rw [insertLoop] at h
    rw [noInsertFault]
    cases he : env.exec i a with
    | some e => simp [he] at h
    | none =>
      cases hr : env.rowsAffected i with
      | some e => simp [he, hr] at h
      | none =>
        simp only [he, hr] at h
        by_cases hc : recordKey a ∈ rows.map recordKey
        · simp only [hc, decide_True, if_true, gt_iff_lt, lt_self_iff_false, if_false] at h
          simp [ih _ _ _ h]
        · simp only [hc, decide_False, Bool.false_eq_true, if_false, gt_iff_lt, Nat.lt_one_iff,
            if_true] at h
          simp [ih _ _ _ h]

/-- One step of the loop on a record whose key is in the table: nothing is written and
`Skipped` grows by one. -/
theorem insertLoop_cons_present (env : StoreFaults) (i : Nat) (a : WeatherRecord)
    (rest rows : List WeatherRecord) (result : InsertResult)
    (he : env.exec i a = none) (hr : env.rowsAffected i = none)
    (hc : recordKey a ∈ rows.map recordKey) :
    insertLoop env i (a :: rest) rows result =
      insertLoop env (i + 1) rest rows
        (InsertResult.mk result.Inserted (result.Skipped + 1) result.Total) := by
  rw [insertLoop]
  simp only [he, hr, hc, decide_True, if_true, gt_iff_lt, lt_self_iff_false, if_false]

/-- One step of the loop on a record whose key is not in the table: the row is added and
`Inserted` grows by one. -/
theorem insertLoop_cons_absent (env : StoreFaults) (i : Nat) (a : WeatherRecord)
    (rest rows : List WeatherRecord) (result : InsertResult)
    (he : env.exec i a = none) (hr : env.rowsAffected i = none)
    (hc : recordKey a ∉ rows.map recordKey) :
    insertLoop env i (a :: rest) rows result =
      insertLoop env (i + 1) rest (rows ++ [a])
        (InsertResult.mk (result.Inserted + 1) result.Skipped result.Total) := by
  rw [insertLoop]
  simp only [he, hr, hc, decide_False, Bool.false_eq_true, if_false, gt_iff_lt, Nat.lt_one_iff,
    if_true]

theorem noInsertFault_cons (env : StoreFaults) (i : Nat) (a : WeatherRecord)
    (rest : List WeatherRecord) (h : noInsertFault env i (a :: rest) = true) :
    env.exec i a = none ∧ env.rowsAffected i = none ∧ noInsertFault env (i + 1) rest = true := by
  rw [noInsertFault, Bool.and_eq_true, Bool.and_eq_true] at h
  exact ⟨Option.isNone_iff_eq_none.1 h.1.1, Option.isNone_iff_eq_none.1 h.1.2, h.2⟩

/-- When every key of the batch is in the table the loop skips every record. -/
theorem insertLoop_all_present (env : StoreFaults) :
    ∀ (records : List WeatherRecord) (i : Nat) (rows : List WeatherRecord) (result : InsertResult),
      noInsertFault env i records = true →
      (∀ r ∈ records, recordKey r ∈ rows.map recordKey) →
      insertLoop env i records rows result =
        InsertOutcome.mk (some rows)
          (some (InsertResult.mk result.Inserted (result.Skipped + records.length) result.Total))
          none := by
  intro records
  induction records with
  | nil => intro i rows result _ _; simp [insertLoop]
  | cons a rest ih =>
    intro i rows result hf hk
    obtain ⟨he, hr, hrest⟩ := noInsertFault_cons env i a rest hf
    rw [insertLoop_cons_present env i a rest rows result he hr (hk a (List.mem_cons_self _ _))]
    rw [ih (i + 1) rows _ hrest (fun r hr => hk r (List.mem_cons_of_mem _ hr))]
    simp [Nat.add_assoc, Nat.add_comm 1]

/-- After a loop without failure the table holds the old rows and every key of the
batch; the counters add up. -/
theorem insertLoop_ok (env : StoreFaults) :
    ∀ (records : List WeatherRecord) (i : Nat) (rows : List WeatherRecord) (result : InsertResult),
      noInsertFault env i records = true →
      ∃ added res, insertLoop env i records rows result =
          InsertOutcome.mk (some (rows ++ added)) (some res) none ∧
        added.Sublist records ∧
        (∀ r ∈ records, recordKey r ∈ (rows ++ added).map recordKey) ∧
        res.Inserted = result.Inserted + added.length ∧
        res.Inserted + res.Skipped = result.Inserted + result.Skipped + records.length ∧
        res.Total = result.Total := by
  intro records
  induction records with
  | nil =>
    intro i rows result _
    exact ⟨[], result, by simp [insertLoop], List.Sublist.refl _, by simp, by simp, by simp, rfl⟩
  | cons a rest ih =>
    intro i rows result hf
    obtain ⟨he, hr, hrest⟩ := noInsertFault_cons env i a rest hf
    by_cases hc : recordKey a ∈ rows.map recordKey
    · rw [insertLoop_cons_present env i a rest rows result he hr hc]
      obtain ⟨added, res, e1, e2, e3, e4, e5, e6⟩ := ih (i + 1) rows
        (InsertResult.mk result.Inserted (result.Skipped + 1) result.Total) hrest
      refine ⟨added, res, e1, e2.trans (List.sublist_cons_self _ _), ?_, e4, ?_, e6⟩
      · intro r hr
        rcases List.mem_cons.1 hr with hr | hr
        · rw [hr, List.map_append, List.mem_append]; exact Or.inl hc
        · exact e3 r hr
      · simp only at e5; simp only [List.length_cons]; omega
    · rw [insertLoop_cons_absent env i a rest rows result he hr hc]
      obtain ⟨added, res, e1, e2, e3, e4, e5, e6⟩ := ih (i + 1) (rows ++ [a])
        (InsertResult.mk (result.Inserted + 1) result.Skipped result.Total) hrest
      refine ⟨a :: added, res, by rw [e1]; simp, e2.cons₂ a, ?_, ?_, ?_, e6⟩
      · intro r hr
        rcases List.mem_cons.1 hr with hr | hr
        · rw [hr]; simp
        · have := e3 r hr
          simpa using this
      · simp only at e4; simp only [List.length_cons]; omega
      · simp only at e5; simp only [List.length_cons]; omega

/-- A loop that fails at the record after `pre` has counted exactly `pre`. -/
theorem insertLoop_fail (env : StoreFaults) (a : WeatherRecord) (post : List WeatherRecord) :
    ∀ (pre : List WeatherRecord) (i : Nat) (rows : List WeatherRecord) (result : InsertResult),
      noInsertFault env i pre = true →
      (env.exec (i + pre.length) a ≠ none ∨ env.rowsAffected (i + pre.length) ≠ none) →
      (insertLoop env i (pre ++ a :: post) rows result).err ≠ none ∧
      ∃ res, (insertLoop env i (pre ++ a :: post) rows result).result = some res ∧
        res.Inserted + res.Skipped = result.Inserted + result.Skipped + pre.length ∧
        res.Total = result.Total := by
  intro pre
  induction pre with
  | nil =>
    intro i rows result _ hfail
    simp only [List.length_nil, Nat.add_zero] at hfail
    rw [List.nil_append, insertLoop]
    cases he : env.exec i a with
    | some e => exact ⟨by simp, result, rfl, by simp, rfl⟩
    | none =>
      cases hr : env.rowsAffected i with
      | some e => exact ⟨by simp, result, rfl, by simp, rfl⟩
      | none => rcases hfail with h | h <;> [exact absurd he h; exact absurd hr h]
  | cons b rest ih =>
    intro i rows result hf hfail
    obtain ⟨he, hr, hrest⟩ := noInsertFault_cons env i b rest hf
    have hidx : i + (b :: rest).length = (i + 1) + rest.length := by
      simp only [List.length_cons]; omega
    rw [hidx] at hfail
    rw [List.cons_append]
    by_cases hc : recordKey b ∈ rows.map recordKey
    · rw [insertLoop_cons_present env i b _ rows result he hr hc]
      obtain ⟨h1, res, h2, h3, h4⟩ := ih (i + 1) rows
        (InsertResult.mk result.Inserted (result.Skipped + 1) result.Total) hrest hfail
      refine ⟨h1, res, h2, ?_, h4⟩
      simp only at h3; simp only [List.length_cons]; omega
    · rw [insertLoop_cons_absent env i b _ rows result he hr hc]
      obtain ⟨h1, res, h2, h3, h4⟩ := ih (i + 1) (rows ++ [b])
        (InsertResult.mk (result.Inserted + 1) result.Skipped result.Total) hrest hfail
      refine ⟨h1, res, h2, ?_, h4⟩
      simp only at h3; simp only [List.length_cons]; omega

/-- The loop never changes `Total`. -/
theorem insertLoop_total (env : StoreFaults) :
    ∀ (records : List WeatherRecord) (i : Nat) (rows : List WeatherRecord)
      (result res : InsertResult),
      (insertLoop env i records rows result).result = some res → res.Total = result.Total := by
  intro records
  induction records with
  | nil =>
    intro i rows result res h
    simp only [insertLoop, Option.some.injEq] at h
    rw [← h]
  | cons a rest ih =>
    intro i rows result res h
    rw [insertLoop] at h
    cases he : env.exec i a with
    | some e => simp only [he, Option.some.injEq] at h; rw [← h]
    | none =>
      cases hr : env.rowsAffected i with
      | some e => simp only [he, hr, Option.some.injEq] at h; rw [← h]
      | none =>
        by_cases hc : recordKey a ∈ rows.map recordKey
        · rw [← insertLoop, insertLoop_cons_present env i a rest rows result he hr hc] at h
          have key := ih _ _ _ res h
          exact key
        · rw [← insertLoop, insertLoop_cons_absent env i a rest rows result he hr hc] at h
          have key := ih _ _ _ res h
          exact key

/-- In a loop without failure every record whose key was in the table at the start is
counted as skipped. -/
theorem insertLoop_skipped_ge (env : StoreFaults) :
    ∀ (records : List WeatherRecord) (i : Nat) (rows : List WeatherRecord) (result : InsertResult),
      noInsertFault env i records = true →
      ∃ res, (insertLoop env i records rows result).result = some res ∧
        result.Skipped +
          (records.filter (fun r => decide (recordKey r ∈ rows.map recordKey))).length
            ≤ res.Skipped := by
  intro records
  induction records with
  | nil =>
    intro i rows result _
    exact ⟨result, by simp [insertLoop], by simp⟩
  | cons a rest ih =>
    intro i rows result hf
    obtain ⟨he, hr, hrest⟩ := noInsertFault_cons env i a rest hf
    by_cases hc : recordKey a ∈ rows.map recordKey
    · rw [insertLoop_cons_present env i a rest rows result he hr hc]
      obtain ⟨res, e1, e2⟩ := ih (i + 1) rows
        (InsertResult.mk result.Inserted (result.Skipped + 1) result.Total) hrest
      refine ⟨res, e1, ?_⟩
      have hfil : ((a :: rest).filter (fun r => decide (recordKey r ∈ rows.map recordKey))).length
          = (rest.filter (fun r => decide (recordKey r ∈ rows.map recordKey))).length + 1 := by
        rw [List.filter_cons]; simp [hc]
      rw [hfil]
      simp only at e2
      omega
    · rw [insertLoop_cons_absent env i a rest rows result he hr hc]
      obtain ⟨res, e1, e2⟩ := ih (i + 1) (rows ++ [a])
        (InsertResult.mk (result.Inserted + 1) result.Skipped result.Total) hrest
      refine ⟨res, e1, ?_⟩
      have hfil : (a :: rest).filter (fun r => decide (recordKey r ∈ rows.map recordKey))
          = rest.filter (fun r => decide (recordKey r ∈ rows.map recordKey)) := by
        rw [List.filter_cons]; simp [hc]
      have hmono : (rest.filter (fun r => decide (recordKey r ∈ rows.map recordKey))).length
          ≤ (rest.filter (fun r => decide (recordKey r ∈ (rows ++ [a]).map recordKey))).length := by
        apply List.Sublist.length_le
        apply List.monotone_filter_right
        intro x hx
        simp only [decide_eq_true_eq] at hx ⊢
        rw [List.map_append, List.mem_append]
        exact Or.inl hx
      rw [hfil]
      simp only at e2
      omega

/-- A call of `InsertRecords` that returns a nil error had an empty batch, or prepared its
statement on an existing table and met no failing insert. -/
theorem insertRecords_ok_inv (env : StoreFaults) (store : WeatherStore)
    (batch : List WeatherRecord) (h : (InsertRecords env store batch).err = none) :
    batch = [] ∨
      (env.prepare = none ∧ noInsertFault env 0 batch = true ∧ ∃ rows, store = some rows) := by
  by_cases hb : batch = []
  · exact Or.inl hb
  · right
    have hlen : batch.length ≠ 0 := fun h0 => hb (List.length_eq_zero.1 h0)
    cases hp : env.prepare with
    | some e => simp [InsertRecords, hlen, hp] at h
    | none =>
      cases store with
      | none => simp [InsertRecords, hlen, hp] at h
      | some rows =>
        simp only [InsertRecords, hlen, hp, if_false] at h
        exact ⟨rfl, insertLoop_err_none env batch 0 rows _ h, rows, rfl⟩

/-- The outcome of `InsertRecords` on a non-empty batch, once the statement is prepared. -/
theorem insertRecords_eq_loop (env : StoreFaults) (rows : List WeatherRecord)
    (batch : List WeatherRecord) (hb : batch ≠ []) (hp : env.prepare = none) :
    InsertRecords env (some rows) batch =
      insertLoop env 0 batch rows (InsertResult.mk 0 0 batch.length) := by
  have hlen : batch.length ≠ 0 := fun h0 => hb (List.length_eq_zero.1 h0)
  simp [InsertRecords, hlen, hp]

/-- Writing a batch whose keys are all in the store writes nothing and skips everything. -/
theorem insertRecords_all_present (env : StoreFaults) (store : WeatherStore)
    (batch : List WeatherRecord)
    (h : batch = [] ∨
      (env.prepare = none ∧ noInsertFault env 0 batch = true ∧ ∃ rows, store = some rows))
    (hk : ∀ r ∈ batch, recordKey r ∈ storeKeys store) :
    InsertRecords env store batch =
      InsertOutcome.mk store (some (InsertResult.mk 0 batch.length batch.length)) none := by
  by_cases hb : batch = []
  · subst hb; simp [InsertRecords]
  · rcases h with h | ⟨hp, hf, rows, hs⟩
    · exact absurd h hb
    · subst hs
      rw [insertRecords_eq_loop env rows batch hb hp,
        insertLoop_all_present env batch 0 rows _ hf hk]
      simp

/-! ## Idempotence of InsertRecords (C7) -/

/-- C7: if `InsertRecords(batch)` succeeds, a second `InsertRecords(batch)` under the same
external conditions returns `Inserted = 0`, `Skipped = Total = len(batch)` and no error and
leaves the store unchanged, and so does every second call that returns no error.  The
batch may repeat keys. -/
theorem insertRecords_idempotent (env env2 : StoreFaults) (store : WeatherStore)
    (batch : List WeatherRecord) (h1 : (InsertRecords env store batch).err = none) :
    InsertRecords env (InsertRecords env store batch).store batch =
      InsertOutcome.mk (InsertRecords env store batch).store
        (some (InsertResult.mk 0 batch.length batch.length)) none ∧
    ((InsertRecords env2 (InsertRecords env store batch).store batch).err = none →
      InsertRecords env2 (InsertRecords env store batch).store batch =
        InsertOutcome.mk (InsertRecords env store batch).store
          (some (InsertResult.mk 0 batch.length batch.length)) none) := by
  have hinv := insertRecords_ok_inv env store batch h1
  have hkeys : ∀ r ∈ batch, recordKey r ∈ storeKeys (InsertRecords env store batch).store := by
    rcases hinv with hb | ⟨hp, hf, rows, hs⟩
    · subst hb; intro r hr; simp at hr
    · subst hs
      by_cases hb : batch = []
      · subst hb; intro r hr; simp at hr
      · obtain ⟨added, res, e1, _, e3, _⟩ :=
          insertLoop_ok env batch 0 rows (InsertResult.mk 0 0 batch.length) hf
        rw [insertRecords_eq_loop env rows batch hb hp, e1]
        exact e3
  have hstore : batch = [] ∨ ∃ rows, (InsertRecords env store batch).store = some rows := by
    rcases hinv with hb | ⟨hp, hf, rows, hs⟩
    · exact Or.inl hb
    · subst hs
      by_cases hb : batch = []
      · exact Or.inl hb
      · obtain ⟨added, res, e1, _⟩ :=
          insertLoop_ok env batch 0 rows (InsertResult.mk 0 0 batch.length) hf
        rw [insertRecords_eq_loop env rows batch hb hp, e1]
        exact Or.inr ⟨_, rfl⟩
  constructor
  · refine insertRecords_all_present env _ batch ?_ hkeys
    rcases hinv with hb | ⟨hp, hf, _⟩
    · exact Or.inl hb
    · rcases hstore with hb | hr
      · exact Or.inl hb
      · exact Or.inr ⟨hp, hf, hr⟩
  · intro h2
    exact insertRecords_all_present env2 _ batch (insertRecords_ok_inv env2 _ batch h2) hkeys

/-- C7 witness: three records with distinct keys into an empty store, twice. -/
theorem insertRecords_idempotent_witness :
    InsertRecords noStoreFaults (some []) batch3 =
      InsertOutcome.mk (some batch3) (some (InsertResult.mk 3 0 3)) none ∧
    InsertRecords noStoreFaults (InsertRecords noStoreFaults (some []) batch3).store batch3 =
      InsertOutcome.mk (InsertRecords noStoreFaults (some []) batch3).store
        (some (InsertResult.mk 0 3 3)) none :=
  ⟨by decide,
   (insertRecords_idempotent noStoreFaults noStoreFaults (some []) batch3 (by decide)).1⟩

/-! ## FilterNewRecords (C8, C9) -/

/-- C9: `FilterNewRecords` leaves the store as it was; whenever it returns records they
are exactly the records of the batch, in the batch order, whose `(station_id, date)` key
is absent from the store; and it does return them when the table exists and the read
meets no failure. -/
theorem filterNewRecords_spec (env : StoreFaults) (store : WeatherStore)
    (batch : List WeatherRecord) :
    (FilterNewRecords env store batch).1 = store ∧
    (∀ new, (FilterNewRecords env store batch).2 = .ok new →
      new = batch.filter (fun r => decide (recordKey r ∉ storeKeys store)) ∧
      new.Sublist batch) ∧
    (∀ rows, store = some rows → env.query = none → env.scan = none → env.rows = none →
      (FilterNewRecords env store batch).2 =
        .ok (batch.filter (fun r => decide (recordKey r ∉ storeKeys store)))) := by
  have hval : ∀ rows, store = some rows → env.query = none →
      (if rows = [] then none else env.scan) = none → env.rows = none →
      (FilterNewRecords env store batch).2 =
        .ok (batch.filter (fun r => decide (recordKey r ∉ storeKeys store))) := by
    intro rows hs hq hsc hr
    subst hs
    by_cases hb : batch = []
    · subst hb; simp [FilterNewRecords]
    · have hlen : batch.length ≠ 0 := fun h0 => hb (List.length_eq_zero.1 h0)
      simp only [FilterNewRecords, hlen, hq, hsc, hr, if_false]
      rfl
  refine ⟨?_, ?_, ?_⟩
  · unfold FilterNewRecords
    split
    · rfl
    · split
      · rfl
      · split
        · rfl
        · split
          · rfl
          · split <;> rfl
  · intro new hnew
    have heq : new = batch.filter (fun r => decide (recordKey r ∉ storeKeys store)) := by
      by_cases hb : batch = []
      · subst hb
        simp only [FilterNewRecords, List.length_nil, if_true, Except.ok.injEq] at hnew
        rw [← hnew]; rfl
      · have hlen : batch.length ≠ 0 := fun h0 => hb (List.length_eq_zero.1 h0)
        cases store with
        | none => simp [FilterNewRecords, hlen] at hnew
        | some rows =>
          cases hq : env.query with
          | some e => simp [FilterNewRecords, hlen, hq] at hnew
          | none =>
            cases hsc : (if rows = [] then none else env.scan) with
            | some e => simp only [FilterNewRecords, hlen, hq, hsc, if_false] at hnew; cases hnew
            | none =>
              cases hr : env.rows with
              | some e =>
                simp only [FilterNewRecords, hlen, hq, hsc, hr, if_false] at hnew; cases hnew
              | none =>
                have := hval rows rfl hq hsc hr
                rw [this] at hnew
                cases hnew
                rfl
    exact ⟨heq, by rw [heq]; exact List.filter_sublist _⟩
  · intro rows hs hq hsc hr
    exact hval rows hs hq (by rw [hsc]; simp) hr

/-- C9 witness: the store holds 1 January 2024; of the three records of the batch the
second and the third are new. -/
theorem filterNewRecords_spec_witness :
    (FilterNewRecords noStoreFaults (some [observation (Date.mk 2024 1 1) 85]) batch3).2 =
      .ok [observation (Date.mk 2024 1 2) 90, observation (Date.mk 2024 1 3) 88] :=
  ((filterNewRecords_spec noStoreFaults (some [observation (Date.mk 2024 1 1) 85]) batch3).2.2
    [observation (Date.mk 2024 1 1) 85] rfl rfl rfl rfl).trans (by decide)

/-- When the records of the batch whose key is absent from the table have pairwise
distinct keys, a loop without failure adds exactly those records, in order. -/
theorem insertLoop_distinct (env : StoreFaults) :
    ∀ (records : List WeatherRecord) (i : Nat) (rows : List WeatherRecord) (result : InsertResult),
      noInsertFault env i records = true →
      ((records.filter (fun r => decide (recordKey r ∉ rows.map recordKey))).map recordKey).Nodup →
      ∃ res, insertLoop env i records rows result =
          InsertOutcome.mk
            (some (rows ++ records.filter (fun r => decide (recordKey r ∉ rows.map recordKey))))
            (some res) none ∧
        res.Inserted = result.Inserted +
          (records.filter (fun r => decide (recordKey r ∉ rows.map recordKey))).length := by
  intro records
  induction records with
  | nil =>
    intro i rows result _ _
    exact ⟨result, by simp [insertLoop], by simp⟩
  | cons a rest ih =>
    intro i rows result hf hn
    obtain ⟨he, hr, hrest⟩ := noInsertFault_cons env i a rest hf
    by_cases hc : recordKey a ∈ rows.map recordKey
    · rw [insertLoop_cons_present env i a rest rows result he hr hc]
      have hfil : (a :: rest).filter (fun r => decide (recordKey r ∉ rows.map recordKey))
          = rest.filter (fun r => decide (recordKey r ∉ rows.map recordKey)) := by
        rw [List.filter_cons]; simp [hc]
      rw [hfil] at hn ⊢
      obtain ⟨res, e1, e2⟩ := ih (i + 1) rows
        (InsertResult.mk result.Inserted (result.Skipped + 1) result.Total) hrest hn
      exact ⟨res, e1, e2⟩
    · rw [insertLoop_cons_absent env i a rest rows result he hr hc]
      have hfil : (a :: rest).filter (fun r => decide (recordKey r ∉ rows.map recordKey))
          = a :: rest.filter (fun r => decide (recordKey r ∉ rows.map recordKey)) := by
        rw [List.filter_cons]; simp [hc]
      rw [hfil, List.map_cons, List.nodup_cons] at hn
      obtain ⟨hna, hnrest⟩ := hn
      have hsame : rest.filter (fun r => decide (recordKey r ∉ (rows ++ [a]).map recordKey))
          = rest.filter (fun r => decide (recordKey r ∉ rows.map recordKey)) := by
        apply List.filter_congr
        intro x hx
        by_cases hxr : recordKey x ∈ rows.map recordKey
        · simp [hxr]
        · have hxa : recordKey x ≠ recordKey a := by
            intro heq
            apply hna
            rw [← heq]
            exact List.mem_map_of_mem _ (List.mem_filter.2 ⟨hx, by simpa using hxr⟩)
          have hxr2 : ¬ ∃ y ∈ rows, recordKey y = recordKey x := by
            intro ⟨y, hy, hyk⟩
            exact hxr (List.mem_map.2 ⟨y, hy, hyk⟩)
          simp [hxr2, hxa]
      obtain ⟨res, e1, e2⟩ := ih (i + 1) (rows ++ [a])
        (InsertResult.mk (result.Inserted + 1) result.Skipped result.Total) hrest
        (by rw [hsame]; exact hnrest)
      rw [hsame] at e1 e2
      rw [hfil]
      refine ⟨res, by rw [e1]; simp, ?_⟩
      simp only at e2; simp only [List.length_cons]; omega

/-- C8, as stated, fails on a batch that repeats a key: on an empty table
`FilterNewRecords` returns both records of `repeatedKeyBatch`, while the following
`InsertRecords` adds a row for the first record only and reports `Inserted = 1`. -/
theorem filterNew_disagrees_on_repeated_key :
    (FilterNewRecords noStoreFaults (some []) repeatedKeyBatch).2 = .ok repeatedKeyBatch ∧
    repeatedKeyBatch.length = 2 ∧
    InsertRecords noStoreFaults (some []) repeatedKeyBatch =
      InsertOutcome.mk (some [observation (Date.mk 2024 1 1) 85])
        (some (InsertResult.mk 1 1 2)) none := by
  decide

/-- C8 (amended): when the records `FilterNewRecords(batch)` returns have pairwise
distinct keys, they are exactly the records for which the following successful
`InsertRecords(batch)` adds a row, in the same order, and their number is `Inserted`. -/
theorem filterNew_agrees_with_insert (env : StoreFaults) (store : WeatherStore)
    (batch new : List WeatherRecord)
    (hF : (FilterNewRecords env store batch).2 = .ok new)
    (hI : (InsertRecords env store batch).err = none)
    (hN : (new.map recordKey).Nodup) :
    (InsertRecords env store batch).store.getD [] = store.getD [] ++ new ∧
    ∃ res, (InsertRecords env store batch).result = some res ∧
      res.Inserted = new.length ∧ res.Skipped = batch.length - new.length := by
  by_cases hb : batch = []
  · subst hb
    simp only [FilterNewRecords, List.length_nil, if_true, Except.ok.injEq] at hF
    subst hF
    simp [InsertRecords]
  · have hlen : batch.length ≠ 0 := fun h0 => hb (List.length_eq_zero.1 h0)
    rcases insertRecords_ok_inv env store batch hI with h | ⟨hp, hf, rows, hs⟩
    · exact absurd h hb
    · subst hs
      have hnew : new = batch.filter (fun r => decide (recordKey r ∉ rows.map recordKey)) := by
        cases hq : env.query with
        | some e => simp [FilterNewRecords, hlen, hq] at hF
        | none =>
          cases hsc : (if rows = [] then none else env.scan) with
          | some e => simp only [FilterNewRecords, hlen, hq, hsc, if_false] at hF; cases hF
          | none =>
            cases hr : env.rows with
            | some e => simp only [FilterNewRecords, hlen, hq, hsc, hr, if_false] at hF; cases hF
            | none =>
              simp only [FilterNewRecords, hlen, hq, hsc, hr, if_false, Except.ok.injEq] at hF
              exact hF.symm
      rw [hnew] at hN
      obtain ⟨res, e1, e2⟩ :=
        insertLoop_distinct env batch 0 rows (InsertResult.mk 0 0 batch.length) hf hN
      obtain ⟨added, res2, e3, _, _, _, e5, _⟩ :=
        insertLoop_ok env batch 0 rows (InsertResult.mk 0 0 batch.length) hf
      rw [e1] at e3
      have hres : res = res2 := by
        have := congrArg InsertOutcome.result e3
        simpa using this
      rw [insertRecords_eq_loop env rows batch hb hp, e1, hnew]
      refine ⟨rfl, res, rfl, by simpa using e2, ?_⟩
      rw [← hres] at e5
      simp only at e2 e5
      omega

/-- C8 witness: the store holds 1 January 2024 and the batch is `batch3`. -/
theorem filterNew_agrees_with_insert_witness :
    (InsertRecords noStoreFaults (some [observation (Date.mk 2024 1 1) 85]) batch3).store.getD []
      = [observation (Date.mk 2024 1 1) 85] ++
        [observation (Date.mk 2024 1 2) 90, observation (Date.mk 2024 1 3) 88] ∧
    ∃ res, (InsertRecords noStoreFaults (some [observation (Date.mk 2024 1 1) 85]) batch3).result
        = some res ∧
      res.Inserted = [observation (Date.mk 2024 1 2) 90, observation (Date.mk 2024 1 3) 88].length ∧
      res.Skipped = batch3.length -
        [observation (Date.mk 2024 1 2) 90, observation (Date.mk 2024 1 3) 88].length :=
  filterNew_agrees_with_insert noStoreFaults (some [observation (Date.mk 2024 1 1) 85]) batch3
    [observation (Date.mk 2024 1 2) 90, observation (Date.mk 2024 1 3) 88]
    (by decide) (by decide) (by decide)

/-! ## The counters of InsertResult (C10) -/

/-- C10: every non-nil result has `Total = len(batch)`; a call that succeeds has
`Inserted + Skipped = Total`; the empty batch gives `0, 0, 0`; a call that fails on the
record at position `len(pre)` (the inserts of `pre` met no failure, the insert of the next
record or its `RowsAffected` failed) returns an error and a result with
`Inserted + Skipped = len(pre)`; and existing keys never fail a call: when no insert meets
an outside failure the call succeeds and `Skipped` counts at least every record whose key
was in the store, and all of them when every key was. -/
theorem insertRecords_counts (env : StoreFaults) (store : WeatherStore)
    (batch : List WeatherRecord) :
    (∀ res, (InsertRecords env store batch).result = some res → res.Total = batch.length) ∧
    ((InsertRecords env store batch).err = none →
      ∃ res, (InsertRecords env store batch).result = some res ∧
        res.Inserted + res.Skipped = res.Total) ∧
    (batch = [] → InsertRecords env store batch =
      InsertOutcome.mk store (some (InsertResult.mk 0 0 0)) none) ∧
    (∀ pre a post rows, batch = pre ++ a :: post → store = some rows → env.prepare = none →
      noInsertFault env 0 pre = true →
      (env.exec pre.length a ≠ none ∨ env.rowsAffected pre.length ≠ none) →
      (InsertRecords env store batch).err ≠ none ∧
      ∃ res, (InsertRecords env store batch).result = some res ∧
        res.Inserted + res.Skipped = pre.length) ∧
    (∀ rows, store = some rows → env.prepare = none → noInsertFault env 0 batch = true →
      (InsertRecords env store batch).err = none ∧
      ∃ res, (InsertRecords env store batch).result = some res ∧
        (batch.filter (fun r => decide (recordKey r ∈ rows.map recordKey))).length ≤ res.Skipped ∧
        ((∀ r ∈ batch, recordKey r ∈ rows.map recordKey) →
          res = InsertResult.mk 0 batch.length batch.length)) := by
  refine ⟨?_, ?_, ?_, ?_, ?_⟩
  · intro res hres
    by_cases hb : batch = []
    · subst hb
      simp only [InsertRecords, List.length_nil, if_true, Option.some.injEq] at hres
      rw [← hres]; rfl
    · have hlen : batch.length ≠ 0 := fun h0 => hb (List.length_eq_zero.1 h0)
      cases hp : env.prepare with
      | some e => simp [InsertRecords, hlen, hp] at hres
      | none =>
        cases store with
        | none => simp [InsertRecords, hlen, hp] at hres
        | some rows =>
          rw [insertRecords_eq_loop env rows batch hb hp] at hres
          exact insertLoop_total env batch 0 rows _ res hres
  · intro herr
    by_cases hb : batch = []
    · subst hb
      exact ⟨InsertResult.mk 0 0 0, by simp [InsertRecords], rfl⟩
    · rcases insertRecords_ok_inv env store batch herr with h | ⟨hp, hf, rows, hs⟩
      · exact absurd h hb
      · subst hs
        obtain ⟨added, res, e1, _, _, _, e5, e6⟩ :=
          insertLoop_ok env batch 0 rows (InsertResult.mk 0 0 batch.length) hf
        rw [insertRecords_eq_loop env rows batch hb hp, e1]
        refine ⟨res, rfl, ?_⟩
        simp only at e5 e6
        omega
  · intro hb
    subst hb
    simp [InsertRecords]
  · intro pre a post rows hbatch hs hp hf hfail
    subst hs
    have hb : batch ≠ [] := by rw [hbatch]; simp
    have hfail2 : env.exec (0 + pre.length) a ≠ none ∨ env.rowsAffected (0 + pre.length) ≠ none := by
      rw [Nat.zero_add]; exact hfail
    rw [insertRecords_eq_loop env rows batch hb hp, hbatch]
    obtain ⟨h1, res, h2, h3, _⟩ := insertLoop_fail env a post pre 0 rows
      (InsertResult.mk 0 0 (pre ++ a :: post).length) hf hfail2
    exact ⟨h1, res, h2, by simp only at h3; omega⟩
  · intro rows hs hp hf
    subst hs
    by_cases hb : batch = []
    · subst hb
      exact ⟨by simp [InsertRecords], InsertResult.mk 0 0 0, by simp [InsertRecords],
        by simp, fun _ => rfl⟩
    · obtain ⟨res, e1, e2⟩ :=
        insertLoop_skipped_ge env batch 0 rows (InsertResult.mk 0 0 batch.length) hf
      obtain ⟨added, res2, e3, _⟩ :=
        insertLoop_ok env batch 0 rows (InsertResult.mk 0 0 batch.length) hf
      rw [insertRecords_eq_loop env rows batch hb hp]
      refine ⟨by rw [e3], res, e1, by simpa using e2, ?_⟩
      intro hk
      rw [insertLoop_all_present env batch 0 rows _ hf hk] at e1
      simp only [Option.some.injEq] at e1
      rw [← e1]
      simp

/-- C10 witness: position 1 of `batch3` fails; one record was counted before it. -/
theorem insertRecords_counts_witness :
    (InsertRecords (execFaultAt 1) (some []) batch3).err ≠ none ∧
    ∃ res, (InsertRecords (execFaultAt 1) (some []) batch3).result = some res ∧
      res.Inserted + res.Skipped = [observation (Date.mk 2024 1 1) 85].length :=
  (insertRecords_counts (execFaultAt 1) (some []) batch3).2.2.2.1
    [observation (Date.mk 2024 1 1) 85] (observation (Date.mk 2024 1 2) 90)
    [observation (Date.mk 2024 1 3) 88] [] rfl rfl rfl (by decide) (Or.inl (by decide))

/-! ## InsertRecords never overwrites (C11) -/

/-- Whatever the outcome of the loop, the table afterwards is the table before followed
by rows taken from the batch whose keys were not in the table. -/
theorem insertLoop_store (env : StoreFaults) :
    ∀ (records : List WeatherRecord) (i : Nat) (rows : List WeatherRecord) (result : InsertResult),
      ∃ added, (insertLoop env i records rows result).store = some (rows ++ added) ∧
        added.Sublist records ∧ ∀ a ∈ added, recordKey a ∉ rows.map recordKey := by
  intro records
  induction records with
  | nil =>
    intro i rows result
    exact ⟨[], by simp [insertLoop], List.Sublist.refl _, by simp⟩
  | cons a rest ih =>
    intro i rows result
    cases he : env.exec i a with
    | some e =>
      exact ⟨[], by rw [insertLoop]; simp [he], List.nil_sublist _, by simp⟩
    | none =>
      by_cases hc : recordKey a ∈ rows.map recordKey
      · cases hr : env.rowsAffected i with
        | some e =>
          exact ⟨[], by rw [insertLoop]; simp only [he, hr, hc, decide_True, if_true]; simp,
            List.nil_sublist _, by simp⟩
        | none =>
          rw [insertLoop_cons_present env i a rest rows result he hr hc]
          obtain ⟨added, e1, e2, e3⟩ := ih (i + 1) rows
            (InsertResult.mk result.Inserted (result.Skipped + 1) result.Total)
          exact ⟨added, e1, e2.trans (List.sublist_cons_self _ _), e3⟩
      · cases hr : env.rowsAffected i with
        | some e =>
          refine ⟨[a], ?_, ?_, ?_⟩
          · rw [insertLoop]
            simp only [he, hr, hc, decide_False, Bool.false_eq_true, if_false]
          · exact (List.nil_sublist rest).cons₂ a
          · intro x hx
            rw [List.mem_singleton] at hx
            rw [hx]; exact hc
        | none =>
          rw [insertLoop_cons_absent env i a rest rows result he hr hc]
          obtain ⟨added, e1, e2, e3⟩ := ih (i + 1) (rows ++ [a])
            (InsertResult.mk (result.Inserted + 1) result.Skipped result.Total)
          refine ⟨a :: added, by rw [e1]; simp, e2.cons₂ a, ?_⟩
          intro x hx
          rcases List.mem_cons.1 hx with hx | hx
          · rw [hx]; exact hc
          · intro hmem
            exact e3 x hx (by rw [List.map_append, List.mem_append]; exact Or.inl hmem)

/-- Whatever the outcome of `InsertRecords`, the rows afterwards are the rows before
followed by rows of the batch whose keys were not in the store. -/
theorem insertRecords_store (env : StoreFaults) (store : WeatherStore)
    (batch : List WeatherRecord) :
    ∃ added, (InsertRecords env store batch).store.getD [] = store.getD [] ++ added ∧
      added.Sublist batch ∧ ∀ a ∈ added, recordKey a ∉ storeKeys store := by
  by_cases hb : batch = []
  · subst hb
    exact ⟨[], by simp [InsertRecords], List.Sublist.refl _, by simp⟩
  · have hlen : batch.length ≠ 0 := fun h0 => hb (List.length_eq_zero.1 h0)
    cases hp : env.prepare with
    | some e => exact ⟨[], by simp [InsertRecords, hlen, hp], List.nil_sublist _, by simp⟩
    | none =>
      cases store with
      | none => exact ⟨[], by simp [InsertRecords, hlen, hp], List.nil_sublist _, by simp⟩
      | some rows =>
        obtain ⟨added, e1, e2, e3⟩ :=
          insertLoop_store env batch 0 rows (InsertResult.mk 0 0 batch.length)
        rw [insertRecords_eq_loop env rows batch hb hp, e1]
        exact ⟨added, by simp, e2, e3⟩

/-- C11: for every store, batch and outcome of `InsertRecords`, every row of the store
before the call is in the store afterwards, field by field the same record; the rows
stored under each key that was present are exactly the rows stored under it before, even
when the batch carries that key with other measurement values; the call only appends. -/
theorem insertRecords_never_overwrites (env : StoreFaults) (store : WeatherStore)
    (batch : List WeatherRecord) :
    (∀ r ∈ store.getD [], r ∈ (InsertRecords env store batch).store.getD []) ∧
    (∀ k ∈ storeKeys store,
      ((InsertRecords env store batch).store.getD []).filter (fun r => decide (recordKey r = k))
        = (store.getD []).filter (fun r => decide (recordKey r = k))) ∧
    (∃ added, (InsertRecords env store batch).store.getD [] = store.getD [] ++ added) := by
  obtain ⟨added, e1, _, e3⟩ := insertRecords_store env store batch
  rw [e1]
  refine ⟨fun r hr => List.mem_append.2 (Or.inl hr), ?_, ⟨added, rfl⟩⟩
  intro k hk
  rw [List.filter_append]
  have : added.filter (fun r => decide (recordKey r = k)) = [] := by
    rw [List.filter_eq_nil_iff]
    intro a ha hak
    simp only [decide_eq_true_eq] at hak
    exact e3 a ha (by rw [hak]; exact hk)
  rw [this, List.append_nil]

/-- C11 witness: the store holds 1 January 2024 with temperature 85 and the batch carries
the same key with temperature 90; the stored row keeps 85. -/
theorem insertRecords_never_overwrites_witness :
    ((InsertRecords noStoreFaults (some [observation (Date.mk 2024 1 1) 85])
        [observation (Date.mk 2024 1 1) 90]).store.getD []).filter
      (fun r => decide (recordKey r = (260, Date.mk 2024 1 1)))
      = [observation (Date.mk 2024 1 1) 85] :=
  ((insertRecords_never_overwrites noStoreFaults (some [observation (Date.mk 2024 1 1) 85])
    [observation (Date.mk 2024 1 1) 90]).2.1 (260, Date.mk 2024 1 1) (by decide)).trans
    (by decide)

/-! ## Keys in the output of FilterNewRecords (C12) -/

/-- Every list `FilterNewRecords` returns is the batch filtered by absence from the store. -/
theorem filterNewRecords_ok_eq (env : StoreFaults) (store : WeatherStore)
    (batch new : List WeatherRecord) (h : (FilterNewRecords env store batch).2 = .ok new) :
    new = batch.filter (fun r => decide (recordKey r ∉ storeKeys store)) := by
  by_cases hb : batch = []
  · subst hb
    simp only [FilterNewRecords, List.length_nil, if_true, Except.ok.injEq] at h
    rw [← h]; rfl
  · have hlen : batch.length ≠ 0 := fun h0 => hb (List.length_eq_zero.1 h0)
    cases store with
    | none => simp [FilterNewRecords, hlen] at h
    | some rows =>
      cases hq : env.query with
      | some e => simp [FilterNewRecords, hlen, hq] at h
      | none =>
        cases hsc : (if rows = [] then none else env.scan) with
        | some e => simp only [FilterNewRecords, hlen, hq, hsc, if_false] at h; cases h
        | none =>
          cases hr : env.rows with
          | some e => simp only [FilterNewRecords, hlen, hq, hsc, hr, if_false] at h; cases h
          | none =>
            simp only [FilterNewRecords, hlen, hq, hsc, hr, if_false, Except.ok.injEq] at h
            rw [← h]; rfl

/-- C12, as stated, fails: on an empty table `FilterNewRecords` returns both records of
`repeatedKeyBatch`, and they share the key (260, 1 January 2024). -/
theorem filterNew_output_repeats_key :
    (FilterNewRecords noStoreFaults (some []) repeatedKeyBatch).2
      = .ok [observation (Date.mk 2024 1 1) 85, observation (Date.mk 2024 1 1) 90] ∧
    recordKey (observation (Date.mk 2024 1 1) 85) = recordKey (observation (Date.mk 2024 1 1) 90) ∧
    ¬ ([observation (Date.mk 2024 1 1) 85, observation (Date.mk 2024 1 1) 90].map
      recordKey).Nodup := by
  decide

/-- C12 (amended): for every store state and every batch in which no two records share a
`(station_id, date)` key, no two records in the output of `FilterNewRecords` share a key,
and no record of the output has a key of the store. -/
theorem filterNew_output_distinct_keys (env : StoreFaults) (store : WeatherStore)
    (batch new : List WeatherRecord)
    (hB : (batch.map recordKey).Nodup)
    (hF : (FilterNewRecords env store batch).2 = .ok new) :
    (new.map recordKey).Nodup ∧ ∀ r ∈ new, recordKey r ∉ storeKeys store := by
  have hnew := filterNewRecords_ok_eq env store batch new hF
  rw [hnew]
  refine ⟨hB.sublist ((List.filter_sublist _).map _), ?_⟩
  intro r hr
  simpa using (List.mem_filter.1 hr).2

/-- C12 witness: `batch3` has three distinct keys; two of them are new. -/
theorem filterNew_output_distinct_keys_witness :
    ([observation (Date.mk 2024 1 2) 90, observation (Date.mk 2024 1 3) 88].map recordKey).Nodup ∧
    ∀ r ∈ [observation (Date.mk 2024 1 2) 90, observation (Date.mk 2024 1 3) 88],
      recordKey r ∉ storeKeys (some [observation (Date.mk 2024 1 1) 85]) :=
  filterNew_output_distinct_keys noStoreFaults (some [observation (Date.mk 2024 1 1) 85]) batch3
    [observation (Date.mk 2024 1 2) 90, observation (Date.mk 2024 1 3) 88]
    (by decide) (by decide)

/-! ## A missing table or an unreachable store (C13) -/

/-- C13, as stated, fails on the empty batch: with no `weather_records` table
`InsertRecords` returns a result `0, 0, 0` and a nil error, and `FilterNewRecords`
returns the empty batch and a nil error. -/
theorem empty_batch_succeeds_without_table :
    InsertRecords noStoreFaults none [] =
      InsertOutcome.mk none (some (InsertResult.mk 0 0 0)) none ∧
    (FilterNewRecords noStoreFaults none []).2 = .ok [] ∧
    InsertRecords unreachableStore none [] =
      InsertOutcome.mk none (some (InsertResult.mk 0 0 0)) none ∧
    (FilterNewRecords unreachableStore none []).2 = .ok [] := by
  decide

/-- C13 (amended): for every non-empty batch, when the `weather_records` table does not
exist or the statement cannot be prepared, `InsertRecords` returns an error and a nil
result and leaves the store as it was; when the table does not exist or the query fails,
`FilterNewRecords` returns an error and leaves the store as it was. -/
theorem missing_table_is_an_error (env : StoreFaults) (store : WeatherStore)
    (batch : List WeatherRecord) (hB : batch ≠ []) :
    ((store = none ∨ env.prepare ≠ none) →
      (InsertRecords env store batch).err ≠ none ∧
      (InsertRecords env store batch).result = none ∧
      (InsertRecords env store batch).store = store) ∧
    ((store = none ∨ env.query ≠ none) →
      (∃ e, (FilterNewRecords env store batch).2 = .error e) ∧
      (FilterNewRecords env store batch).1 = store) := by
  have hlen : batch.length ≠ 0 := fun h0 => hB (List.length_eq_zero.1 h0)
  constructor
  · intro h
    cases hp : env.prepare with
    | some e => simp [InsertRecords, hlen, hp]
    | none =>
      rcases h with h | h
      · subst h; simp [InsertRecords, hlen, hp]
      · exact absurd hp h
  · intro h
    cases store with
    | none => exact ⟨⟨_, by simp only [FilterNewRecords, hlen, if_false]; rfl⟩,
        by simp only [FilterNewRecords, hlen, if_false]⟩
    | some rows =>
      cases hq : env.query with
      | some e => exact ⟨⟨_, by simp only [FilterNewRecords, hlen, hq, if_false]; rfl⟩,
          by simp only [FilterNewRecords, hlen, hq, if_false]⟩
      | none =>
        rcases h with h | h
        · cases h
        · exact absurd hq h

/-- C13 witness: `batch3` against a store without the table. -/
theorem missing_table_is_an_error_witness :
    (InsertRecords noStoreFaults none batch3).err ≠ none ∧
    (InsertRecords noStoreFaults none batch3).result = none ∧
    (InsertRecords noStoreFaults none batch3).store = none :=
  (missing_table_is_an_error noStoreFaults none batch3 (by decide)).1 (Or.inl rfl)

/-! ## ParseVersion (C14, C15) -/

theorem takeWhile_dropWhile_run (p : Char → Bool) (x : Char) (t : List Char)
    (hx : p x = false) :
    ∀ ds : List Char, (∀ c ∈ ds, p c = true) →
      (ds ++ x :: t).takeWhile p = ds ∧ (ds ++ x :: t).dropWhile p = x :: t := by
  intro ds
  induction ds with
  | nil => intro _; simp [List.takeWhile, List.dropWhile, hx]
  | cons a r ih =>
    intro h
    have ha : p a = true := h a (List.mem_cons_self _ _)
    obtain ⟨h1, h2⟩ := ih (fun c hc => h c (List.mem_cons_of_mem _ hc))
    simp [List.takeWhile, List.dropWhile, ha, h1, h2]

/-- `strconv.Atoi` on a run of digits that fits in an `int`. -/
theorem atoi_digits (ds : List Char) (hne : ds ≠ []) (hd : ∀ c ∈ ds, c.isDigit = true)
    (hfit : digitsValue ds ≤ maxInt) : Atoi ds = .ok (digitsValue ds : Int) := by
  cases ds with
  | nil => exact absurd rfl hne
  | cons c t =>
    have hc : c.isDigit = true := hd c (List.mem_cons_self _ _)
    have h1 : c ≠ '+' := by intro h; rw [h] at hc; exact absurd hc (by decide)
    have h2 : c ≠ '-' := by intro h; rw [h] at hc; exact absurd hc (by decide)
    have hall : (c :: t).all Char.isDigit = true := List.all_eq_true.2 hd
    unfold Atoi
    simp [h1, h2, hall, hfit]

/-- The pattern matches a digit run, an underscore, a rest without newline and `.sql`,
and captures the digit run. -/
theorem versionRegex_of_form (digits rest : List Char) (hne : digits ≠ [])
    (hd : ∀ c ∈ digits, c.isDigit = true) (hnl : '\n' ∉ rest) :
    versionRegex (digits ++ '_' :: (rest ++ ".sql".data)) = some digits := by
  obtain ⟨h1, h2⟩ := takeWhile_dropWhile_run Char.isDigit '_' (rest ++ ".sql".data)
    (by decide) digits hd
  have hsuf : (".sql".data).isSuffixOf (rest ++ ".sql".data) = true := by
    rw [List.isSuffixOf_iff_suffix]
    exact List.suffix_append _ _
  have hnl2 : '\n' ∉ rest ++ ".sql".data := by
    rw [List.mem_append]
    rintro (h | h)
    · exact hnl h
    · exact absurd h (by decide)
  unfold versionRegex
  simp only [h1, h2]
  rw [if_pos ⟨hne, hsuf, hnl2⟩]

/-- Whenever the pattern matches, the name is a non-empty digit run followed by `_`. -/
theorem versionRegex_some (s digits : List Char) (h : versionRegex s = some digits) :
    digits ≠ [] ∧ (∀ c ∈ digits, c.isDigit = true) ∧ ∃ rest, s = digits ++ '_' :: rest := by
  unfold versionRegex at h
  have hsplit : s.takeWhile Char.isDigit ++ s.dropWhile Char.isDigit = s :=
    List.takeWhile_append_dropWhile _ _
  cases hdrop : s.dropWhile Char.isDigit with
  | nil => simp [hdrop] at h
  | cons c tail =>
    by_cases hc : c = '_'
    · subst hc
      simp only [hdrop] at h
      split at h
      · rename_i hcond
        simp only [Option.some.injEq] at h
        subst h
        refine ⟨hcond.1, ?_, tail, ?_⟩
        · intro c hc
          exact List.mem_takeWhile_imp hc
        · rw [← hdrop]; exact hsplit.symm
      · cases h
    · rw [hdrop] at h
      simp [hc] at h

/-- Leading zeros do not change the value of a digit run. -/
theorem digitsValue_leading_zeros (k : Nat) (ds : List Char) :
    digitsValue (List.replicate k '0' ++ ds) = digitsValue ds := by
  unfold digitsValue
  rw [List.foldl_append]
  have : (List.replicate k '0').foldl (fun acc c => acc * 10 + (c.toNat - 48)) 0 = 0 := by
    induction k with
    | zero => rfl
    | succ n ih =>
      rw [List.replicate_succ', List.foldl_append, ih]
      rfl
  rw [this]

/-- C14, as stated, fails: `1_a<newline>b.sql` is a digit run, an underscore, some
characters and `.sql`, and its digit run fits in an `int`, yet `ParseVersion` returns an
error, because `.` in the pattern does not match a newline. -/
theorem parseVersion_rejects_newline :
    "1_a\nb.sql".data = ['1'] ++ '_' :: (['a', '\n', 'b'] ++ ".sql".data) ∧
    digitsValue ['1'] ≤ maxInt ∧
    ParseVersion "1_a\nb.sql"
      = (0, some (.leaf ("invalid migration filename format: " ++ "1_a\nb.sql"))) := by
  decide

/-- C14 (amended): for every filename made of one or more ASCII digits, an underscore,
any characters other than a newline, and `.sql`, whose digit run denotes a value that fits
in an `int`, `ParseVersion` succeeds and returns the base-10 value of the digit run;
leading zeros do not affect that value. -/
theorem parseVersion_accepts (filename : String) (digits rest : List Char)
    (hform : filename.data = digits ++ '_' :: (rest ++ ".sql".data))
    (hne : digits ≠ [])
    (hd : ∀ c ∈ digits, c.isDigit = true)
    (hnl : '\n' ∉ rest)
    (hfit : digitsValue digits ≤ maxInt) :
    ParseVersion filename = ((digitsValue digits : Int), none) ∧
    ∀ k, digitsValue (List.replicate k '0' ++ digits) = digitsValue digits := by
  refine ⟨?_, fun k => digitsValue_leading_zeros k digits⟩
  have hnonempty : filename ≠ "" := by
    intro h
    rw [h] at hform
    have := congrArg List.length hform
    simp at this
    omega
  unfold ParseVersion
  rw [if_neg hnonempty, hform, versionRegex_of_form digits rest hne hd hnl]
  simp only [atoi_digits digits hne hd hfit]

/-- C14 witness: the three filenames of the unit test. -/
theorem parseVersion_accepts_witness :
    ParseVersion "001_create_tables.sql" = (1, none) ∧
    ParseVersion "010_something.sql" = (10, none) ∧
    ParseVersion "100_big_migration.sql" = (100, none) :=
  ⟨(parseVersion_accepts "001_create_tables.sql" ['0', '0', '1'] "create_tables".data
      (by decide) (by decide) (by decide) (by decide) (by decide)).1.trans (by decide),
   (parseVersion_accepts "010_something.sql" ['0', '1', '0'] "something".data
      (by decide) (by decide) (by decide) (by decide) (by decide)).1.trans (by decide),
   (parseVersion_accepts "100_big_migration.sql" ['1', '0', '0'] "big_migration".data
      (by decide) (by decide) (by decide) (by decide) (by decide)).1.trans (by decide)⟩

/-- C15: for every filename that is empty, or that does not begin with one or more ASCII
digits immediately followed by `_`, `ParseVersion` returns an error together with
version 0. -/
theorem parseVersion_rejects (filename : String)
    (h : filename = "" ∨
      ¬ ∃ digits rest, digits ≠ [] ∧ (∀ c ∈ digits, c.isDigit = true) ∧
        filename.data = digits ++ '_' :: rest) :
    (ParseVersion filename).1 = 0 ∧ (ParseVersion filename).2 ≠ none := by
  unfold ParseVersion
  by_cases he : filename = ""
  · rw [if_pos he]; simp
  · rw [if_neg he]
    cases hre : versionRegex filename.data with
    | none => simp
    | some digits =>
      obtain ⟨h1, h2, rest, h3⟩ := versionRegex_some filename.data digits hre
      rcases h with h | h
      · exact absurd h he
      · exact absurd ⟨digits, rest, h1, h2, h3⟩ h

/-- A name whose first character is not a digit has no leading digit run. -/
theorem no_digit_run_of_head (filename : String) (c : Char) (t : List Char)
    (hdata : filename.data = c :: t) (hc : c.isDigit = false) :
    ¬ ∃ digits rest, digits ≠ [] ∧ (∀ c ∈ digits, c.isDigit = true) ∧
      filename.data = digits ++ '_' :: rest := by
  rintro ⟨digits, rest, hne, hd, hform⟩
  cases digits with
  | nil => exact hne rfl
  | cons d ds =>
    rw [hdata, List.cons_append] at hform
    have hcd : c = d := List.head_eq_of_cons_eq hform
    have := hd d (List.mem_cons_self _ _)
    rw [← hcd, hc] at this
    cases this

/-- C15 witness: the three failing filenames of the unit test. -/
theorem parseVersion_rejects_witness :
    ((ParseVersion "").1 = 0 ∧ (ParseVersion "").2 ≠ none) ∧
    ((ParseVersion "invalid.sql").1 = 0 ∧ (ParseVersion "invalid.sql").2 ≠ none) ∧
    ((ParseVersion "abc_not_a_number.sql").1 = 0 ∧
      (ParseVersion "abc_not_a_number.sql").2 ≠ none) :=
  ⟨parseVersion_rejects "" (Or.inl rfl),
   parseVersion_rejects "invalid.sql"
     (Or.inr (no_digit_run_of_head "invalid.sql" 'i' "nvalid.sql".data (by decide) (by decide))),
   parseVersion_rejects "abc_not_a_number.sql"
     (Or.inr (no_digit_run_of_head "abc_not_a_number.sql" 'a' "bc_not_a_number.sql".data
       (by decide) (by decide)))⟩

/-! ## The loop of Discover -/

theorem discoverLoop_cons_skip (fs : FileSystem) (dir : String) (e : DirEntry)
    (es : List DirEntry) (acc : List Migration) (h : isMigrationFile e = false) :
    discoverLoop fs dir (e :: es) acc = discoverLoop fs dir es acc := by
  rw [discoverLoop]
  cases hd : e.IsDir with
  | true => simp
  | false =>
    cases hs : HasSuffix e.Name ".sql" with
    | false => simp
    | true =>
      cases hpv : ParseVersion e.Name with
      | mk v err =>
        cases err with
        | some x => simp
        | none => simp [isMigrationFile, hd, hs, hpv] at h

theorem isMigrationFile_true (e : DirEntry) (h : isMigrationFile e = true) :
    e.IsDir = false ∧ HasSuffix e.Name ".sql" = true ∧
      ParseVersion e.Name = ((ParseVersion e.Name).1, none) := by
  unfold isMigrationFile at h
  simp only [Bool.and_eq_true, Bool.not_eq_true', Option.isNone_iff_eq_none] at h
  refine ⟨h.1.1, h.1.2, ?_⟩
  cases hpv : ParseVersion e.Name with
  | mk v err =>
    rw [hpv] at h
    simp only at h
    rw [h.2]

theorem discoverLoop_cons_ok (fs : FileSystem) (dir : String) (e : DirEntry)
    (es : List DirEntry) (acc : List Migration) (content : String)
    (h : isMigrationFile e = true) (hr : fs.ReadFile (fs.Join dir e.Name) = .ok content) :
    discoverLoop fs dir (e :: es) acc =
      discoverLoop fs dir es (acc ++ [migrationOfEntry fs dir e]) := by
  obtain ⟨hd, hs, hpv⟩ := isMigrationFile_true e h
  rw [discoverLoop]
  simp only [hd, hs, Bool.false_eq_true, if_false, Bool.not_true]
  rw [hpv]
  simp only [hr, migrationOfEntry, readContent]

theorem discoverLoop_cons_err (fs : FileSystem) (dir : String) (e : DirEntry)
    (es : List DirEntry) (acc : List Migration) (err : GoError)
    (h : isMigrationFile e = true) (hr : fs.ReadFile (fs.Join dir e.Name) = .error err) :
    discoverLoop fs dir (e :: es) acc =
      .error (.wrap ("reading migration file " ++ e.Name ++ ": ") err) := by
  obtain ⟨hd, hs, hpv⟩ := isMigrationFile_true e h
  rw [discoverLoop]
  simp only [hd, hs, Bool.false_eq_true, if_false, Bool.not_true]
  rw [hpv]
  simp only [hr]

/-- Every list the loop returns is the accumulator followed by one migration per
migration file, in listing order, and every migration file was readable. -/
theorem discoverLoop_ok_inv (fs : FileSystem) (dir : String) :
    ∀ (es : List DirEntry) (acc ms : List Migration),
      discoverLoop fs dir es acc = .ok ms →
      ms = acc ++ (es.filter isMigrationFile).map (migrationOfEntry fs dir) ∧
      ∀ e ∈ es, isMigrationFile e = true →
        ∃ content, fs.ReadFile (fs.Join dir e.Name) = .ok content := by
  intro es
  induction es with
  | nil =>
    intro acc ms h
    simp only [discoverLoop, Except.ok.injEq] at h
    exact ⟨by simp [h], by simp⟩
  | cons e rest ih =>
    intro acc ms h
    cases hm : isMigrationFile e with
    | false =>
      rw [discoverLoop_cons_skip fs dir e rest acc hm] at h
      obtain ⟨h1, h2⟩ := ih acc ms h
      refine ⟨by rw [h1, List.filter_cons]; simp [hm], ?_⟩
      intro x hx hxm
      rcases List.mem_cons.1 hx with hx | hx
      · rw [hx, hm] at hxm; cases hxm
      · exact h2 x hx hxm
    | true =>
      cases hr : fs.ReadFile (fs.Join dir e.Name) with
      | error err =>
        rw [discoverLoop_cons_err fs dir e rest acc err hm hr] at h
        cases h
      | ok content =>
        rw [discoverLoop_cons_ok fs dir e rest acc content hm hr] at h
        obtain ⟨h1, h2⟩ := ih _ ms h
        refine ⟨by rw [h1, List.filter_cons]; simp [hm], ?_⟩
        intro x hx _
        rcases List.mem_cons.1 hx with hx | hx
        · rw [hx]; exact ⟨content, hr⟩
        · exact h2 x hx (by assumption)

/-- When every migration file is readable the loop returns one migration per migration
file, in listing order. -/
theorem discoverLoop_readable (fs : FileSystem) (dir : String) :
    ∀ (es : List DirEntry) (acc : List Migration),
      (∀ e ∈ es, isMigrationFile e = true →
        ∃ content, fs.ReadFile (fs.Join dir e.Name) = .ok content) →
      discoverLoop fs dir es acc =
        .ok (acc ++ (es.filter isMigrationFile).map (migrationOfEntry fs dir)) := by
  intro es
  induction es with
  | nil => intro acc _; simp [discoverLoop]
  | cons e rest ih =>
    intro acc h
    have hrest : ∀ x ∈ rest, isMigrationFile x = true →
        ∃ content, fs.ReadFile (fs.Join dir x.Name) = .ok content :=
      fun x hx => h x (List.mem_cons_of_mem _ hx)
    cases hm : isMigrationFile e with
    | false =>
      rw [discoverLoop_cons_skip fs dir e rest acc hm, ih acc hrest, List.filter_cons]
      simp [hm]
    | true =>
      obtain ⟨content, hr⟩ := h e (List.mem_cons_self _ _) hm
      rw [discoverLoop_cons_ok fs dir e rest acc content hm hr, ih _ hrest, List.filter_cons]
      simp [hm]

/-- The loop stops with a read error at the first migration file that cannot be read. -/
theorem discoverLoop_unreadable (fs : FileSystem) (dir : String) (entry : DirEntry)
    (post : List DirEntry) (err : GoError)
    (hm : isMigrationFile entry = true)
    (hr : fs.ReadFile (fs.Join dir entry.Name) = .error err) :
    ∀ (pre : List DirEntry) (acc : List Migration),
      (∀ e ∈ pre, isMigrationFile e = true →
        ∃ content, fs.ReadFile (fs.Join dir e.Name) = .ok content) →
      discoverLoop fs dir (pre ++ entry :: post) acc =
        .error (.wrap ("reading migration file " ++ entry.Name ++ ": ") err) := by
  intro pre
  induction pre with
  | nil =>
    intro acc _
    rw [List.nil_append, discoverLoop_cons_err fs dir entry post acc err hm hr]
  | cons e rest ih =>
    intro acc h
    have hrest : ∀ x ∈ rest, isMigrationFile x = true →
        ∃ content, fs.ReadFile (fs.Join dir x.Name) = .ok content :=
      fun x hx => h x (List.mem_cons_of_mem _ hx)
    rw [List.cons_append]
    cases hme : isMigrationFile e with
    | false => rw [discoverLoop_cons_skip fs dir e _ acc hme, ih acc hrest]
    | true =>
      obtain ⟨content, hrc⟩ := h e (List.mem_cons_self _ _) hme
      rw [discoverLoop_cons_ok fs dir e _ acc content hme hrc, ih _ hrest]

/-- Every list `Discover` returns is the sorted list of the migrations of the migration
files of the directory. -/
theorem discover_ok_inv (fs : FileSystem) (dir : String) (ms : List Migration)
    (h : Discover fs dir = .ok ms) :
    ∃ es, fs.ReadDir dir = .entries es ∧
      ms = ((es.filter isMigrationFile).map (migrationOfEntry fs dir)).insertionSort versionLE := by
  unfold Discover at h
  cases hrd : fs.ReadDir dir with
  | notExist e => simp [hrd] at h
  | failed e => simp [hrd] at h
  | entries es =>
    simp only [hrd] at h
    cases hl : discoverLoop fs dir es [] with
    | error e => simp [hl] at h
    | ok acc =>
      simp only [hl, Except.ok.injEq] at h
      obtain ⟨h1, _⟩ := discoverLoop_ok_inv fs dir es [] acc hl
      rw [List.nil_append] at h1
      exact ⟨es, rfl, by rw [← h, h1]⟩

/-- On a readable directory `Discover` returns the sorted list of the migrations of its
migration files. -/
theorem discover_readable (fs : FileSystem) (dir : String) (es : List DirEntry)
    (hrd : fs.ReadDir dir = .entries es)
    (hfiles : ∀ e ∈ es, isMigrationFile e = true →
      ∃ content, fs.ReadFile (fs.Join dir e.Name) = .ok content) :
    Discover fs dir =
      .ok (((es.filter isMigrationFile).map (migrationOfEntry fs dir)).insertionSort versionLE) := by
  unfold Discover
  simp only [hrd, discoverLoop_readable fs dir es [] hfiles, List.nil_append]

/-! ## The identifier `01abc_x.sql` (C16) -/

/-- C16, as stated, fails: `ParseVersion("01abc_x.sql")` returns version 0 and an error,
and `Discover` on a directory holding only that file returns no migration. -/
theorem parseVersion_01abc_is_rejected :
    ParseVersion "01abc_x.sql"
      = (0, some (.leaf "invalid migration filename format: 01abc_x.sql")) ∧
    Discover (fsOf ["01abc_x.sql"]) "migrations" = .ok [] := by
  decide

/-- C16 (amended): the identifier `01abc_x.sql` yields no version, because its digit run
`01` is not immediately followed by `_`: `ParseVersion("01abc_x.sql")` fails with version
0, and no list `Discover` returns holds a migration for that file; the identifier
`01_abc_x.sql` yields version 1. -/
theorem discover_omits_01abc (fs : FileSystem) (dir : String) (ms : List Migration)
    (h : Discover fs dir = .ok ms) :
    (ParseVersion "01abc_x.sql").1 = 0 ∧ (ParseVersion "01abc_x.sql").2 ≠ none ∧
    (∀ m ∈ ms, m.Filename ≠ "01abc_x.sql") ∧
    ParseVersion "01_abc_x.sql" = (1, none) := by
  refine ⟨by decide, by decide, ?_, by decide⟩
  obtain ⟨es, _, hms⟩ := discover_ok_inv fs dir ms h
  intro m hm hname
  rw [hms, List.mem_insertionSort, List.mem_map] at hm
  obtain ⟨e, he, hme⟩ := hm
  have hfile := (List.mem_filter.1 he).2
  obtain ⟨_, _, hpv⟩ := isMigrationFile_true e hfile
  have hen : e.Name = "01abc_x.sql" := by
    rw [← hname, ← hme]; rfl
  rw [hen] at hpv
  have hbad : (ParseVersion "01abc_x.sql").2 ≠ none := by decide
  rw [hpv] at hbad
  exact hbad rfl

/-- C16 witness: a directory with `01abc_x.sql` and `01_abc_x.sql`; only the second is a
migration. -/
theorem discover_omits_01abc_witness :
    Discover (fsOf ["01abc_x.sql", "01_abc_x.sql"]) "migrations"
      = .ok [migrationOf 1 "abc_x" "01_abc_x.sql"] ∧
    ∀ m ∈ [migrationOf 1 "abc_x" "01_abc_x.sql"], m.Filename ≠ "01abc_x.sql" :=
  ⟨by decide,
   (discover_omits_01abc (fsOf ["01abc_x.sql", "01_abc_x.sql"]) "migrations"
     [migrationOf 1 "abc_x" "01_abc_x.sql"] (by decide)).2.2.1⟩

/-! ## The result of Discover (C17, C18) -/

/-- C17: for every readable directory, whatever the order of its entries, `Discover`
returns a sequence sorted ascending by `Version`: for all positions `i < j`,
`result[i].Version <= result[j].Version`. -/
theorem discover_sorted_ascending (fs : FileSystem) (dir : String) (es : List DirEntry)
    (hrd : fs.ReadDir dir = .entries es)
    (hfiles : ∀ e ∈ es, isMigrationFile e = true →
      ∃ content, fs.ReadFile (fs.Join dir e.Name) = .ok content) :
    ∃ ms, Discover fs dir = .ok ms ∧
      ∀ (i j : Nat) (a b : Migration), i < j → ms[i]? = some a → ms[j]? = some b →
        a.Version ≤ b.Version := by
  refine ⟨_, discover_readable fs dir es hrd hfiles, ?_⟩
  intro i j a b hij ha hb
  have hsorted := List.sorted_insertionSort versionLE
    ((es.filter isMigrationFile).map (migrationOfEntry fs dir))
  obtain ⟨hi, hai⟩ := List.getElem?_eq_some_iff.1 ha
  obtain ⟨hj, hbj⟩ := List.getElem?_eq_some_iff.1 hb
  have := List.pairwise_iff_getElem.1 hsorted i j hi hj hij
  rw [hai, hbj] at this
  exact this

/-- C17 witness: `003_third.sql`, `001_first.sql`, `002_second.sql` give versions 1, 2, 3. -/
theorem discover_sorted_ascending_witness :
    (∃ ms, Discover (fsOf ["003_third.sql", "001_first.sql", "002_second.sql"]) "migrations"
        = .ok ms ∧
      ∀ (i j : Nat) (a b : Migration), i < j → ms[i]? = some a → ms[j]? = some b →
        a.Version ≤ b.Version) ∧
    Discover (fsOf ["003_third.sql", "001_first.sql", "002_second.sql"]) "migrations"
      = .ok [migrationOf 1 "first" "001_first.sql", migrationOf 2 "second" "002_second.sql",
          migrationOf 3 "third" "003_third.sql"] :=
  ⟨discover_sorted_ascending (fsOf ["003_third.sql", "001_first.sql", "002_second.sql"])
      "migrations"
      [DirEntry.mk "003_third.sql" false, DirEntry.mk "001_first.sql" false,
       DirEntry.mk "002_second.sql" false]
      rfl (fun _ _ _ => ⟨"-- test", rfl⟩),
   by decide⟩

/-- C18: for every readable directory, `Discover` returns, up to the order the sort gives
them, exactly one migration per entry that is not a directory, has a name ending in
`.sql` and has a name `ParseVersion` accepts, and nothing else; the migration carries
the entry name and the parsed version; entries sharing a version are all kept, so the
length of the result is the number of such entries. -/
theorem discover_exact (fs : FileSystem) (dir : String) (es : List DirEntry)
    (hrd : fs.ReadDir dir = .entries es)
    (hfiles : ∀ e ∈ es, isMigrationFile e = true →
      ∃ content, fs.ReadFile (fs.Join dir e.Name) = .ok content) :
    ∃ ms, Discover fs dir = .ok ms ∧
      ms.Perm ((es.filter (fun e => !e.IsDir && HasSuffix e.Name ".sql" &&
          (ParseVersion e.Name).2.isNone)).map
        (fun e => Migration.mk (ParseVersion e.Name).1 (migrationName e.Name) e.Name
          (fs.Join dir e.Name) (readContent fs (fs.Join dir e.Name)))) ∧
      ms.length = (es.filter (fun e => !e.IsDir && HasSuffix e.Name ".sql" &&
          (ParseVersion e.Name).2.isNone)).length ∧
      (ms.map Migration.Filename).Perm ((es.filter (fun e => !e.IsDir &&
          HasSuffix e.Name ".sql" && (ParseVersion e.Name).2.isNone)).map DirEntry.Name) := by
  refine ⟨_, discover_readable fs dir es hrd hfiles, ?_, ?_, ?_⟩
  · exact List.perm_insertionSort versionLE _
  · rw [(List.perm_insertionSort versionLE _).length_eq, List.length_map]
    rfl
  · have hp := (List.perm_insertionSort versionLE
      ((es.filter isMigrationFile).map (migrationOfEntry fs dir))).map Migration.Filename
    refine hp.trans ?_
    rw [List.map_map]
    exact List.Perm.refl _

/-- C18 witness: of the seven entries of `mixedDir` the sub-directory, `README.md`,
`readme.sql` and `abc_x.sql` are omitted and the three migration files are kept, two of
them with version 1. -/
theorem discover_exact_witness :
    (∃ ms, Discover mixedDir "migrations" = .ok ms ∧
      ms.Perm [migrationOf 2 "index" "002_index.sql", migrationOf 1 "create" "001_create.sql",
        migrationOf 1 "again" "1_again.sql"] ∧
      ms.length = 3) :=
  have h := discover_exact mixedDir "migrations"
    [DirEntry.mk "003_archive.sql" true, DirEntry.mk "README.md" false,
     DirEntry.mk "readme.sql" false, DirEntry.mk "abc_x.sql" false,
     DirEntry.mk "002_index.sql" false, DirEntry.mk "001_create.sql" false,
     DirEntry.mk "1_again.sql" false]
    rfl (fun _ _ _ => ⟨"-- test", rfl⟩)
  match h with
  | ⟨ms, h1, h2, h3, _⟩ => ⟨ms, h1, h2.trans (by decide), h3.trans (by decide)⟩

/-! ## Failures of Discover (C19) -/

/-- What `Run` does when `Discover` fails: nothing is applied or recorded. -/
theorem run_discover_error (env : Faults) (fs : FileSystem) (db : MigrationDB) (dir : String)
    (e : GoError) (h : Discover fs dir = .error e) :
    (Run env fs db dir).result = none ∧ (Run env fs db dir).err ≠ none ∧
    (env.ensureTable = none → (Run env fs db dir).err = some e) ∧
    (Run env fs db dir).db.schema = db.schema ∧
    (Run env fs db dir).db.versions = db.versions := by
  cases hE : env.ensureTable with
  | some x => simp [Run, Tracker.EnsureTable, hE]
  | none =>
    have hE0 := ensureTable_ok env db hE
    simp [Run, hE0, h, MigrationDB.versions]

/-- C19: `Discover` fails with `migrations directory not found: <dir>` when the directory
does not exist, with `reading migrations directory: ...` when it cannot be listed for
another reason, and with `reading migration file <name>: ...` at the first migration file
that cannot be read; the not-found message differs from both read-failure messages; a
failure carries no migrations; and when `Discover` fails `Run` returns a nil result and
an error, which is the error of `Discover` once ledger provisioning has succeeded, and
commits no body and records no version. -/
theorem discover_failures (env : Faults) (fs : FileSystem) (db : MigrationDB) (dir : String) :
    (∀ e0, fs.ReadDir dir = .notExist e0 →
      Discover fs dir = .error (.leaf ("migrations directory not found: " ++ dir))) ∧
    (∀ e0, fs.ReadDir dir = .failed e0 →
      Discover fs dir = .error (.wrap "reading migrations directory: " e0)) ∧
    (∀ pre entry post e0, fs.ReadDir dir = .entries (pre ++ entry :: post) →
      (∀ e ∈ pre, isMigrationFile e = true →
        ∃ content, fs.ReadFile (fs.Join dir e.Name) = .ok content) →
      isMigrationFile entry = true →
      fs.ReadFile (fs.Join dir entry.Name) = .error e0 →
      Discover fs dir = .error (.wrap ("reading migration file " ++ entry.Name ++ ": ") e0)) ∧
    (∀ (e0 e1 : GoError) (name : String),
      (GoError.leaf ("migrations directory not found: " ++ dir)).Error
        ≠ (GoError.wrap "reading migrations directory: " e0).Error ∧
      (GoError.leaf ("migrations directory not found: " ++ dir)).Error
        ≠ (GoError.wrap ("reading migration file " ++ name ++ ": ") e1).Error) ∧
    (∀ e, Discover fs dir = .error e →
      (Discover fs dir).toOption = none ∧
      (Run env fs db dir).result = none ∧ (Run env fs db dir).err ≠ none ∧
      (env.ensureTable = none → (Run env fs db dir).err = some e) ∧
      (Run env fs db dir).db.schema = db.schema ∧
      (Run env fs db dir).db.versions = db.versions) := by
  refine ⟨?_, ?_, ?_, ?_, ?_⟩
  · intro e0 h
    simp [Discover, h]
  · intro e0 h
    simp [Discover, h]
  · intro pre entry post e0 hrd hpre hm hr
    unfold Discover
    simp only [hrd, discoverLoop_unreadable fs dir entry post e0 hm hr pre [] hpre]
  · intro e0 e1 name
    constructor
    · intro h
      have := congrArg String.data h
      simp [GoError.Error, String.data_append] at this
    · intro h
      have := congrArg String.data h
      simp [GoError.Error, String.data_append] at this
  · intro e h
    exact ⟨by rw [h]; rfl, run_discover_error env fs db dir e h⟩

/-- C19 witness: a missing directory, a directory that cannot be listed and a directory
with an unreadable migration file; `Run` on the missing directory reports not-found and
leaves the ledger with version 1 as it was. -/
theorem discover_failures_witness :
    Discover missingDir "/nonexistent/path"
      = .error (.leaf "migrations directory not found: /nonexistent/path") ∧
    Discover forbiddenDir "migrations"
      = .error (.wrap "reading migrations directory: "
          (.leaf "open migrations: permission denied")) ∧
    Discover unreadableFileDir "migrations"
      = .error (.wrap "reading migration file 002_index.sql: "
          (.leaf "open migrations/002_index.sql: permission denied")) ∧
    (Run noFaults missingDir ledgerWith1 "/nonexistent/path").err
      = some (.leaf "migrations directory not found: /nonexistent/path") ∧
    (Run noFaults missingDir ledgerWith1 "/nonexistent/path").db = ledgerWith1 :=
  ⟨(discover_failures noFaults missingDir ledgerWith1 "/nonexistent/path").1 _ rfl,
   (discover_failures noFaults forbiddenDir ledgerWith1 "migrations").2.1 _ rfl,
   ((discover_failures noFaults unreadableFileDir ledgerWith1 "migrations").2.2.1
     [DirEntry.mk "001_create.sql" false] (DirEntry.mk "002_index.sql" false) []
     (.leaf "open migrations/002_index.sql: permission denied") rfl
     (fun e he _ => ⟨"-- test", by rw [List.mem_singleton.1 he]; decide⟩)
     (by decide) (by decide)).trans (by decide),
   ((discover_failures noFaults missingDir ledgerWith1 "/nonexistent/path").2.2.2.2 _
     (by decide)).2.2.2.1 rfl,
   by decide⟩

/-! ## Tracker.Record (C20) -/

/-- C20: on a ledger that already contains the version `Tracker.Record` fails with an
error and leaves the store unchanged; on a ledger that does not contain it, and with no
failure from outside, `Record` succeeds and appends exactly one entry carrying the version
and the label, after which every successful `Applied()` contains the version, and
`Applied()` is successful when its read does not fail. -/
theorem trackerRecord_spec (env : Faults) (db : MigrationDB) (rows : List LedgerRow)
    (version : Int) (label : String) (hm : db.migrations = some rows) :
    (version ∈ rows.map LedgerRow.version →
      (Tracker.Record env db version label).2 ≠ none ∧
      (Tracker.Record env db version label).1 = db) ∧
    (version ∉ rows.map LedgerRow.version → env.record version label = none →
      (Tracker.Record env db version label).2 = none ∧
      (Tracker.Record env db version label).1
        = MigrationDB.mk (some (rows ++ [LedgerRow.mk version label])) db.schema ∧
      (∀ env2 applied, Tracker.Applied env2 (Tracker.Record env db version label).1
          = .ok applied → version ∈ applied) ∧
      (∀ env2, env2.applied = none →
        Tracker.Applied env2 (Tracker.Record env db version label).1
          = .ok (rows.map LedgerRow.version ++ [version]))) := by
  constructor
  · intro hv
    cases hr : env.record version label with
    | some e => simp [Tracker.Record, hr]
    | none =>
      simp only [Tracker.Record, hr, hm]
      rw [if_pos hv]
      simp
  · intro hv hr
    have hrec : Tracker.Record env db version label
        = (MigrationDB.mk (some (rows ++ [LedgerRow.mk version label])) db.schema, none) := by
      simp only [Tracker.Record, hr, hm]
      rw [if_neg hv]
    rw [hrec]
    refine ⟨rfl, rfl, ?_, ?_⟩
    · intro env2 applied happ
      rw [applied_ok env2 _ _ applied happ]
      simp
    · intro env2 h2
      simp [Tracker.Applied, h2]

/-- C20 witness: recording version 2 on a ledger that holds version 1 appends one entry;
recording version 1 again fails and changes nothing. -/
theorem trackerRecord_spec_witness :
    ((Tracker.Record noFaults ledgerWith1 1 "001_create.sql").2 ≠ none ∧
      (Tracker.Record noFaults ledgerWith1 1 "001_create.sql").1 = ledgerWith1) ∧
    (Tracker.Record noFaults ledgerWith1 2 "002_index.sql").1 =
      MigrationDB.mk (some ([LedgerRow.mk 1 "001_create.sql"] ++
        [LedgerRow.mk 2 "002_index.sql"])) ledgerWith1.schema :=
  ⟨(trackerRecord_spec noFaults ledgerWith1 [LedgerRow.mk 1 "001_create.sql"] 1
      "001_create.sql" rfl).1 (by decide),
   ((trackerRecord_spec noFaults ledgerWith1 [LedgerRow.mk 1 "001_create.sql"] 2
      "002_index.sql" rfl).2 (by decide) rfl).2.1⟩

/-! ## The ledger only grows (C21) -/

/-- One application leaves the ledger rows in place and appends at most the row of the
migration, whose version is new. -/
theorem applyMigration_ledger (env : Faults) (db : MigrationDB) (m : Migration)
    (rows : List LedgerRow) (hm : db.migrations = some rows) :
    ∃ extra, (applyMigration env db m).1.migrations = some (rows ++ extra) ∧
      ((rows.map LedgerRow.version).Nodup → ((rows ++ extra).map LedgerRow.version).Nodup) := by
  have hgrow : m.Version ∉ rows.map LedgerRow.version →
      (rows.map LedgerRow.version).Nodup →
      ((rows ++ [rowOf m]).map LedgerRow.version).Nodup := by
    intro hv hn
    rw [List.map_append]
    refine List.Nodup.append hn (by simp) ?_
    intro v hv1 hv2
    simp only [List.map_cons, List.map_nil, List.mem_singleton] at hv2
    rw [hv2] at hv1
    exact hv hv1
  cases hres : applyMigration env db m with
  | mk db1 e =>
    cases e with
    | none =>
      obtain ⟨rows0, hr0, hv, hdb1⟩ := applyMigration_ok env db db1 m hres
      rw [hm] at hr0
      cases hr0
      exact ⟨[rowOf m], by rw [hdb1], hgrow hv⟩
    | some cause =>
      obtain ⟨_, hl⟩ := applyMigration_fail env db db1 m cause hres
      rcases hl with hl | ⟨_, rows0, hr0, hv, hl⟩
      · exact ⟨[], by simp [hl, hm], by simp⟩
      · rw [hm] at hr0
        cases hr0
        exact ⟨[rowOf m], hl, hgrow hv⟩

/-- The loop of `Run`, whatever its outcome, leaves the ledger rows in place and appends
rows with new, pairwise distinct versions. -/
theorem applyLoop_ledger (env : Faults) (n p : Nat) :
    ∀ (pending : List Migration) (db : MigrationDB) (rows : List LedgerRow) (result : Result),
      db.migrations = some rows →
      ∃ added, (applyLoop env n p pending db result).db.migrations = some (rows ++ added) ∧
        ((rows.map LedgerRow.version).Nodup →
          ((rows ++ added).map LedgerRow.version).Nodup) := by
  intro pending
  induction pending with
  | nil =>
    intro db rows result hm
    exact ⟨[], by simp [applyLoop, hm], by simp⟩
  | cons m rest ih =>
    intro db rows result hm
    obtain ⟨extra, he1, he2⟩ := applyMigration_ledger env db m rows hm
    rw [applyLoop]
    cases hres : applyMigration env db m with
    | mk db1 e =>
      rw [hres] at he1
      cases e with
      | some cause => exact ⟨extra, he1, he2⟩
      | none =>
        obtain ⟨added, ha1, ha2⟩ := ih db1 (rows ++ extra)
          (Result.mk (result.Applied ++ [m.Filename]) result.Skipped) he1
        refine ⟨extra ++ added, ?_, ?_⟩
        · simp only
          rw [ha1, List.append_assoc]
        · intro hn
          rw [← List.append_assoc]
          exact ha2 (he2 hn)

/-- `Run`, whatever its outcome, leaves the ledger rows in place and appends rows with
new, pairwise distinct versions. -/
theorem run_ledger (env : Faults) (fs : FileSystem) (db : MigrationDB) (dir : String) :
    ∃ added, (Run env fs db dir).db.migrations.getD [] = db.migrations.getD [] ++ added ∧
      (db.versions.Nodup → (Run env fs db dir).db.versions.Nodup) := by
  cases hE : env.ensureTable with
  | some x => exact ⟨[], by simp [Run, Tracker.EnsureTable, hE], by
      simp [Run, Tracker.EnsureTable, hE]⟩
  | none =>
    have hE0 := ensureTable_ok env db hE
    have hstay : ∀ (r : Option Result) (e : Option GoError),
        ∃ added, (RunOutcome.mk (MigrationDB.mk (some (db.migrations.getD [])) db.schema)
            r e).db.migrations.getD [] = db.migrations.getD [] ++ added ∧
          (db.versions.Nodup →
            (RunOutcome.mk (MigrationDB.mk (some (db.migrations.getD [])) db.schema)
              r e).db.versions.Nodup) := by
      intro r e
      exact ⟨[], by simp, by simp [MigrationDB.versions]⟩
    cases hD : Discover fs dir with
    | error e =>
      have : Run env fs db dir = RunOutcome.mk
          (MigrationDB.mk (some (db.migrations.getD [])) db.schema) none (some e) := by
        simp [Run, hE0, hD]
      rw [this]; exact hstay _ _
    | ok migrations =>
      by_cases hlen : migrations.length = 0
      · have : Run env fs db dir = RunOutcome.mk
            (MigrationDB.mk (some (db.migrations.getD [])) db.schema)
            (some (Result.mk [] 0)) none := by
          simp [Run, hE0, hD, hlen]
        rw [this]; exact hstay _ _
      · cases hA : Tracker.Applied env
            (MigrationDB.mk (some (db.migrations.getD [])) db.schema) with
        | error e =>
          have : Run env fs db dir = RunOutcome.mk
              (MigrationDB.mk (some (db.migrations.getD [])) db.schema) none
              (some (.wrap "getting applied migrations: " e)) := by
            simp [Run, hE0, hD, hlen, hA]
          rw [this]; exact hstay _ _
        | ok applied =>
          by_cases hp : (pendingOf applied migrations).length = 0
          · have : Run env fs db dir = RunOutcome.mk
                (MigrationDB.mk (some (db.migrations.getD [])) db.schema)
                (some (Result.mk [] (migrations.length : Int))) none := by
              simp [Run, hE0, hD, hlen, hA, hp]
            rw [this]; exact hstay _ _
          · have : Run env fs db dir = applyLoop env migrations.length
                (pendingOf applied migrations).length (pendingOf applied migrations)
                (MigrationDB.mk (some (db.migrations.getD [])) db.schema) (Result.mk [] 0) := by
              simp [Run, hE0, hD, hlen, hA, hp]
            rw [this]
            obtain ⟨added, h1, h2⟩ := applyLoop_ledger env migrations.length
              (pendingOf applied migrations).length (pendingOf applied migrations)
              (MigrationDB.mk (some (db.migrations.getD [])) db.schema)
              (db.migrations.getD []) (Result.mk [] 0) rfl
            refine ⟨added, by rw [h1]; rfl, ?_⟩
            intro hn
            have := h2 hn
            simpa [MigrationDB.versions, h1] using this

/-- C21: for every directory and starting ledger, and whether `Run` succeeds or fails,
every entry `(version, label)` present before `Run` is present unchanged afterwards (the
ledger afterwards is the ledger before followed by appended entries), and versions that
were pairwise distinct remain pairwise distinct; `EnsureTable` on an existing ledger
leaves its entries unchanged, whether it succeeds or fails. -/
theorem ledger_only_grows (env : Faults) (fs : FileSystem) (db : MigrationDB) (dir : String) :
    (∀ row ∈ db.migrations.getD [], row ∈ (Run env fs db dir).db.migrations.getD []) ∧
    (∃ added, (Run env fs db dir).db.migrations.getD [] = db.migrations.getD [] ++ added) ∧
    (db.versions.Nodup → (Run env fs db dir).db.versions.Nodup) ∧
    (∀ rows, db.migrations = some rows →
      (Tracker.EnsureTable env db).1.migrations = some rows) := by
  obtain ⟨added, h1, h2⟩ := run_ledger env fs db dir
  refine ⟨?_, ⟨added, h1⟩, h2, ?_⟩
  · intro row hrow
    rw [h1]
    exact List.mem_append.2 (Or.inl hrow)
  · intro rows hr
    cases hE : env.ensureTable with
    | some x => simp [Tracker.EnsureTable, hE, hr]
    | none => simp [Tracker.EnsureTable, hE, hr]

/-- C21 witness: a ledger holding version 1, a directory with `001_create.sql` and
`002_index.sql`; after a successful run and after a run whose commit fails the entry of
version 1 is still the first entry. -/
theorem ledger_only_grows_witness :
    LedgerRow.mk 1 "001_create.sql" ∈
      (Run noFaults (fsOf ["001_create.sql", "002_index.sql"]) ledgerWith1
        "migrations").db.migrations.getD [] ∧
    LedgerRow.mk 1 "001_create.sql" ∈
      (Run commitFaults (fsOf ["001_create.sql", "002_index.sql"]) ledgerWith1
        "migrations").db.migrations.getD [] :=
  ⟨(ledger_only_grows noFaults (fsOf ["001_create.sql", "002_index.sql"]) ledgerWith1
      "migrations").1 _ (by decide),
   (ledger_only_grows commitFaults (fsOf ["001_create.sql", "002_index.sql"]) ledgerWith1
      "migrations").1 _ (by decide)⟩

/-! ## Versions are not negative (C22) -/

/-- `strconv.Atoi` on a run of digits returns the value of the run or fails. -/
theorem atoi_digits_ok (ds : List Char) (v : Int) (hne : ds ≠ [])
    (hd : ∀ c ∈ ds, c.isDigit = true) (h : Atoi ds = .ok v) : v = (digitsValue ds : Int) := by
  by_cases hfit : digitsValue ds ≤ maxInt
  · rw [atoi_digits ds hne hd hfit] at h
    cases h
    rfl
  · cases ds with
    | nil => exact absurd rfl hne
    | cons c t =>
      have hc : c.isDigit = true := hd c (List.mem_cons_self _ _)
      have h1 : c ≠ '+' := by intro h; rw [h] at hc; exact absurd hc (by decide)
      have h2 : c ≠ '-' := by intro h; rw [h] at hc; exact absurd hc (by decide)
      have hall : (c :: t).all Char.isDigit = true := List.all_eq_true.2 hd
      unfold Atoi at h
      simp [h1, h2, hall, hfit] at h

/-- A successful `ParseVersion` returns the value of the leading digit run. -/
theorem parseVersion_ok (filename : String) (v : Int) (h : ParseVersion filename = (v, none)) :
    ∃ digits rest, digits ≠ [] ∧ (∀ c ∈ digits, c.isDigit = true) ∧
      filename.data = digits ++ '_' :: rest ∧ v = (digitsValue digits : Int) := by
  unfold ParseVersion at h
  by_cases he : filename = ""
  · rw [if_pos he] at h; cases h
  · rw [if_neg he] at h
    cases hre : versionRegex filename.data with
    | none => rw [hre] at h; cases h
    | some digits =>
      rw [hre] at h
      simp only at h
      obtain ⟨h1, h2, rest, h3⟩ := versionRegex_some filename.data digits hre
      cases ha : Atoi digits with
      | error e => rw [ha] at h; cases h
      | ok w =>
        rw [ha] at h
        simp only [Prod.mk.injEq, and_true] at h
        exact ⟨digits, rest, h1, h2, h3, by rw [← h]; exact atoi_digits_ok digits w h1 h2 ha⟩

theorem digitsValue_snoc (ds : List Char) (c : Char) :
    digitsValue (ds ++ [c]) = digitsValue ds * 10 + (c.toNat - 48) := by
  simp [digitsValue, List.foldl_append]

/-- A digit run of value zero consists of zeros. -/
theorem digitsValue_eq_zero (ds : List Char) (hd : ∀ c ∈ ds, c.isDigit = true)
    (h : digitsValue ds = 0) : ∀ c ∈ ds, c = '0' := by
  induction ds using List.reverseRecOn with
  | nil => intro c hc; cases hc
  | append_singleton t x ih =>
    rw [digitsValue_snoc] at h
    have ht : digitsValue t = 0 := by omega
    have hx : x.toNat - 48 = 0 := by omega
    intro c hc
    rcases List.mem_append.1 hc with hc | hc
    · exact ih (fun c hc => hd c (List.mem_append.2 (Or.inl hc))) ht c hc
    · rw [List.mem_singleton] at hc
      subst hc
      have hdig := hd c (List.mem_append.2 (Or.inr (List.mem_singleton.2 rfl)))
      have h48 : 48 ≤ c.toNat := by
        simp only [Char.isDigit, Bool.and_eq_true, decide_eq_true_eq] at hdig
        exact hdig.1
      have : c.toNat = 48 := by omega
      apply Char.ext
      apply UInt32.ext
      exact this

/-- C22, as stated, fails: `ParseVersion("000_x.sql")` succeeds with version 0, and
`Discover` on a directory holding that file returns a migration with `Version` 0. -/
theorem parseVersion_zero_version :
    ParseVersion "000_x.sql" = (0, none) ∧
    Discover (fsOf ["000_x.sql"]) "migrations" = .ok [migrationOf 0 "x" "000_x.sql"] ∧
    ¬ (1 ≤ (migrationOf 0 "x" "000_x.sql").Version) := by
  decide

/-- C22 (amended): every version is a non-negative integer: for every filename on which
`ParseVersion` succeeds the returned version is >= 0, and it is 0 only when the leading
digit run consists of zeros; therefore every `Migration` returned by `Discover` has
`Version` >= 0. -/
theorem versions_nonnegative (fs : FileSystem) (dir : String) (ms : List Migration)
    (h : Discover fs dir = .ok ms) :
    (∀ filename v, ParseVersion filename = (v, none) →
      0 ≤ v ∧ (v = 0 → ∀ c ∈ filename.data.takeWhile Char.isDigit, c = '0')) ∧
    (∀ m ∈ ms, 0 ≤ m.Version) := by
  have hpv : ∀ filename v, ParseVersion filename = (v, none) →
      0 ≤ v ∧ (v = 0 → ∀ c ∈ filename.data.takeWhile Char.isDigit, c = '0') := by
    intro filename v hv
    obtain ⟨digits, rest, _, hd, hform, hval⟩ := parseVersion_ok filename v hv
    refine ⟨by rw [hval]; exact Int.ofNat_nonneg _, ?_⟩
    intro h0
    rw [hform, (takeWhile_dropWhile_run Char.isDigit '_' rest (by decide) digits hd).1]
    apply digitsValue_eq_zero digits hd
    rw [hval] at h0
    exact_mod_cast h0
  refine ⟨hpv, ?_⟩
  obtain ⟨es, _, hms⟩ := discover_ok_inv fs dir ms h
  intro m hm
  rw [hms, List.mem_insertionSort, List.mem_map] at hm
  obtain ⟨e, he, hme⟩ := hm
  obtain ⟨_, _, hparse⟩ := isMigrationFile_true e (List.mem_filter.1 he).2
  have := (hpv e.Name _ hparse).1
  rw [← hme]
  exact this

/-- C22 witness: `000_x.sql` and `002_index.sql` give versions 0 and 2. -/
theorem versions_nonnegative_witness :
    Discover (fsOf ["002_index.sql", "000_x.sql"]) "migrations" =
      .ok [migrationOf 0 "x" "000_x.sql", migrationOf 2 "index" "002_index.sql"] ∧
    0 ≤ (migrationOf 0 "x" "000_x.sql").Version ∧
    0 ≤ (migrationOf 2 "index" "002_index.sql").Version :=
  have h := (versions_nonnegative (fsOf ["002_index.sql", "000_x.sql"]) "migrations"
    [migrationOf 0 "x" "000_x.sql", migrationOf 2 "index" "002_index.sql"] (by decide)).2
  ⟨by decide, h _ (List.mem_cons_self _ _),
   h _ (List.mem_cons_of_mem _ (List.mem_cons_self _ _))⟩

/-! ## Two files with the same version (C26) -/

theorem allApplied_append (env : Faults) :
    ∀ (xs ys : List Migration) (db : MigrationDB),
      allApplied env db (xs ++ ys) =
        (allApplied env db xs && allApplied env (applyAll env db xs) ys) := by
  intro xs
  induction xs with
  | nil => intro ys db; simp [allApplied, applyAll]
  | cons a rest ih =>
    intro ys db
    rw [List.cons_append, allApplied, allApplied, applyAll_cons, ih, Bool.and_assoc]

/-- An application that meets no outside failure on a ledger without the version
succeeds: one row is recorded and the body is committed. -/
theorem applyMigration_fresh (env : Faults) (db : MigrationDB) (m : Migration)
    (rows : List LedgerRow) (hm : db.migrations = some rows)
    (hv : m.Version ∉ rows.map LedgerRow.version)
    (hb : env.begin m = none) (he : env.exec m = none)
    (hr : env.record m.Version m.Filename = none) (hc : env.commit m = none) :
    applyMigration env db m =
      (MigrationDB.mk (some (rows ++ [rowOf m])) (db.schema ++ [m.Content]), none) := by
  rw [applyMigration, hb, he]
  simp only [Tracker.Record, hr, hm, hv, if_false, hc]
  rfl

/-- An application that reaches the ledger write on a ledger that holds the version fails
at the uniqueness constraint and changes nothing. -/
theorem applyMigration_duplicate (env : Faults) (db : MigrationDB) (m : Migration)
    (rows : List LedgerRow) (hm : db.migrations = some rows)
    (hv : m.Version ∈ rows.map LedgerRow.version)
    (hb : env.begin m = none) (he : env.exec m = none)
    (hr : env.record m.Version m.Filename = none) :
    applyMigration env db m =
      (db, some (.wrap "recording migration: " (.wrap "recording migration: "
        (.leaf "pq: duplicate key value violates unique constraint \"migrations_version_key\"")))) := by
  rw [applyMigration, hb, he]
  simp only [Tracker.Record, hr, hm, hv, if_true]

/-- C26: the pending migrations are `pre ++ a :: b :: post`, where `a` and `b` carry the
same version, `a` is the first migration with it, `pre` applies, and no failure from
outside strikes `a` or the steps of `b` up to its ledger write.  `Run` applies and records
`a`, then fails on `b` at the uniqueness conflict: `Applied` ends with the filename of
`a`, the error names `b` and wraps the duplicate-key error, the body of `b` is not
committed, and the ledger holds exactly one entry for the version. -/
theorem run_duplicate_version (env : Faults) (fs : FileSystem) (db : MigrationDB)
    (dir : String) (migrations pre post : List Migration) (a b : Migration)
    (hE : env.ensureTable = none)
    (hD : Discover fs dir = .ok migrations)
    (hA : ∃ applied, Tracker.Applied env (Tracker.EnsureTable env db).1 = .ok applied)
    (hS : pendingOf db.versions migrations = pre ++ a :: b :: post)
    (hV : a.Version = b.Version)
    (hfirst : a.Version ∉ pre.map Migration.Version)
    (hP : allApplied env (Tracker.EnsureTable env db).1 pre = true)
    (ha : env.begin a = none ∧ env.exec a = none ∧ env.record a.Version a.Filename = none ∧
      env.commit a = none)
    (hb : env.begin b = none ∧ env.exec b = none ∧ env.record b.Version b.Filename = none) :
    Run env fs db dir = RunOutcome.mk
      (MigrationDB.mk (some (db.migrations.getD [] ++ (pre ++ [a]).map rowOf))
        (db.schema ++ (pre ++ [a]).map Migration.Content))
      (some (Result.mk ((pre ++ [a]).map Migration.Filename) 0))
      (some (.wrap ("migration " ++ b.Filename ++ " failed: ")
        (.wrap "recording migration: " (.wrap "recording migration: "
          (.leaf "pq: duplicate key value violates unique constraint \"migrations_version_key\""))))) ∧
    (Run env fs db dir).db.versions.count b.Version = 1 := by
  have hE0 := ensureTable_ok env db hE
  have hP0 := hP
  rw [hE0] at hP0
  obtain ⟨e1, e2, _⟩ := applyAll_ok env pre
    (MigrationDB.mk (some (db.migrations.getD [])) db.schema) (db.migrations.getD []) rfl hP0
  have hapend : a.Version ∉ db.versions := by
    have hmem : a ∈ pendingOf db.versions migrations := by rw [hS]; simp
    simpa [pendingOf] using (List.mem_filter.1 hmem).2
  have hafresh : a.Version ∉ (db.migrations.getD [] ++ pre.map rowOf).map LedgerRow.version := by
    rw [List.map_append, List.mem_append]
    rintro (h | h)
    · exact hapend h
    · apply hfirst
      simpa [rowOf, Function.comp_def] using h
  have e1 : applyAll env (MigrationDB.mk (some (db.migrations.getD [])) db.schema) pre =
      MigrationDB.mk (some (db.migrations.getD [] ++ pre.map rowOf))
        (db.schema ++ pre.map Migration.Content) := e1
  have hstepa := applyMigration_fresh env
    (MigrationDB.mk (some (db.migrations.getD [] ++ pre.map rowOf))
      (db.schema ++ pre.map Migration.Content)) a _ rfl hafresh ha.1 ha.2.1 ha.2.2.1 ha.2.2.2
  have hall : allApplied env (Tracker.EnsureTable env db).1 (pre ++ [a]) = true := by
    rw [allApplied_append, hP, Bool.true_and, hE0, e1]
    simp [allApplied, hstepa]
  have hstate : applyAll env (Tracker.EnsureTable env db).1 (pre ++ [a]) =
      MigrationDB.mk (some (db.migrations.getD [] ++ (pre ++ [a]).map rowOf))
        (db.schema ++ (pre ++ [a]).map Migration.Content) := by
    rw [applyAll_append, hE0, e1]
    simp [applyAll, hstepa]
  have hbdup : b.Version ∈ (db.migrations.getD [] ++ (pre ++ [a]).map rowOf).map
      LedgerRow.version := by
    rw [← hV]
    simp [rowOf]
  have hstepb := applyMigration_duplicate env
    (MigrationDB.mk (some (db.migrations.getD [] ++ (pre ++ [a]).map rowOf))
      (db.schema ++ (pre ++ [a]).map Migration.Content)) b _ rfl hbdup hb.1 hb.2.1 hb.2.2
  rw [← hstate] at hstepb
  have hS2 : pendingOf db.versions migrations = (pre ++ [a]) ++ b :: post := by
    rw [hS]; simp
  obtain ⟨hrun, _, _⟩ := run_fail_eq env fs db _ dir migrations (pre ++ [a]) post b _
    hE hD hA hS2 hall hstepb
  rw [hstate] at hrun
  refine ⟨hrun, ?_⟩
  rw [hrun, ← hV]
  have hpre0 : List.count a.Version (List.map Migration.Version pre) = 0 :=
    List.count_eq_zero.2 hfirst
  have hdb0 : List.count a.Version db.versions = 0 := List.count_eq_zero.2 hapend
  simp only [MigrationDB.versions] at hdb0
  simp [MigrationDB.versions, rowOf, Function.comp_def, List.count_append, hpre0, hdb0]

/-- C26 witness: `001_create.sql` and `1_again.sql` both carry version 1; the first is
applied and recorded, the second fails at the ledger write. -/
theorem run_duplicate_version_witness :
    Run noFaults (fsOf ["001_create.sql", "1_again.sql"]) emptyDB "migrations" =
      RunOutcome.mk
        (MigrationDB.mk (some [LedgerRow.mk 1 "001_create.sql"]) ["-- test"])
        (some (Result.mk ["001_create.sql"] 0))
        (some (.wrap "migration 1_again.sql failed: "
          (.wrap "recording migration: " (.wrap "recording migration: "
            (.leaf "pq: duplicate key value violates unique constraint \"migrations_version_key\""))))) :=
  (run_duplicate_version noFaults (fsOf ["001_create.sql", "1_again.sql"]) emptyDB "migrations"
    [migrationOf 1 "create" "001_create.sql", migrationOf 1 "again" "1_again.sql"] [] []
    (migrationOf 1 "create" "001_create.sql") (migrationOf 1 "again" "1_again.sql")
    rfl (by decide) ⟨[], by decide⟩ (by decide) rfl (by decide) rfl
    ⟨rfl, rfl, rfl, rfl⟩ ⟨rfl, rfl, rfl⟩).1.trans (by decide)

/-! ## What a successful InsertRecords writes (C27) -/

/-- A loop without failure appends, for every key of the batch that is not in the table,
the first record of the batch carrying that key, and nothing else. -/
theorem insertLoop_first (env : StoreFaults) :
    ∀ (records : List WeatherRecord) (i : Nat) (rows : List WeatherRecord) (result : InsertResult),
      noInsertFault env i records = true →
      ∃ added res, insertLoop env i records rows result =
          InsertOutcome.mk (some (rows ++ added)) (some res) none ∧
        res.Inserted = result.Inserted + added.length ∧
        (added.map recordKey).Nodup ∧
        (∀ a ∈ added, recordKey a ∉ rows.map recordKey) ∧
        (∀ a ∈ added, records.find? (fun r => decide (recordKey r = recordKey a)) = some a) ∧
        (∀ r ∈ records, recordKey r ∈ rows.map recordKey ∨ recordKey r ∈ added.map recordKey) := by
  intro records
  induction records with
  | nil =>
    intro i rows result _
    exact ⟨[], result, by simp [insertLoop], by simp, by simp, by simp, by simp, by simp⟩
  | cons x rest ih =>
    intro i rows result hf
    obtain ⟨he, hr, hrest⟩ := noInsertFault_cons env i x rest hf
    by_cases hc : recordKey x ∈ rows.map recordKey
    · rw [insertLoop_cons_present env i x rest rows result he hr hc]
      obtain ⟨added, res, e1, e2, e3, e4, e5, e6⟩ := ih (i + 1) rows
        (InsertResult.mk result.Inserted (result.Skipped + 1) result.Total) hrest
      refine ⟨added, res, e1, e2, e3, e4, ?_, ?_⟩
      · intro a ha
        have hne : recordKey x ≠ recordKey a := by
          intro heq
          exact e4 a ha (by rw [← heq]; exact hc)
        rw [List.find?_cons]
        simp only [hne, decide_False]
        exact e5 a ha
      · intro r hr
        rcases List.mem_cons.1 hr with hr | hr
        · rw [hr]; exact Or.inl hc
        · exact e6 r hr
    · rw [insertLoop_cons_absent env i x rest rows result he hr hc]
      obtain ⟨added, res, e1, e2, e3, e4, e5, e6⟩ := ih (i + 1) (rows ++ [x])
        (InsertResult.mk (result.Inserted + 1) result.Skipped result.Total) hrest
      have hxadded : recordKey x ∉ added.map recordKey := by
        intro hmem
        obtain ⟨a, ha, hak⟩ := List.mem_map.1 hmem
        exact e4 a ha (by rw [hak]; simp)
      refine ⟨x :: added, res, by rw [e1]; simp, ?_, ?_, ?_, ?_, ?_⟩
      · simp only at e2; simp only [List.length_cons]; omega
      · rw [List.map_cons, List.nodup_cons]
        exact ⟨hxadded, e3⟩
      · intro a ha
        rcases List.mem_cons.1 ha with ha | ha
        · rw [ha]; exact hc
        · intro hmem
          exact e4 a ha (by rw [List.map_append, List.mem_append]; exact Or.inl hmem)
      · intro a ha
        rcases List.mem_cons.1 ha with ha | ha
        · rw [ha, List.find?_cons]
          simp
        · have hne : recordKey x ≠ recordKey a := by
            intro heq
            exact e4 a ha (by rw [← heq]; simp)
          rw [List.find?_cons]
          simp only [hne, decide_False]
          exact e5 a ha
      · intro r hr
        rcases List.mem_cons.1 hr with hr | hr
        · rw [hr]; right; simp
        · rcases e6 r hr with h | h
          · rw [List.map_append, List.mem_append] at h
            rcases h with h | h
            · exact Or.inl h
            · right
              simp only [List.map_cons, List.map_nil, List.mem_singleton] at h
              rw [h]; simp
          · right
            rw [List.map_cons]
            exact List.mem_cons_of_mem _ h

/-- C27: for every store state and every batch on which `InsertRecords` succeeds,
`Inserted` is the number of distinct keys of the batch that were absent from the store,
the keys of the store afterwards are its previous keys together with the keys of the
batch, the rows added are, for each new key, the first record of the batch carrying that
key (the old rows stay), and keys that were pairwise distinct remain pairwise distinct. -/
theorem insertRecords_success (env : StoreFaults) (store : WeatherStore)
    (batch : List WeatherRecord) (h : (InsertRecords env store batch).err = none) :
    ∃ added res, (InsertRecords env store batch).result = some res ∧
      (InsertRecords env store batch).store.getD [] = store.getD [] ++ added ∧
      res.Inserted =
        (((batch.map recordKey).filter (fun k => decide (k ∉ storeKeys store))).dedup).length ∧
      (∀ k, k ∈ storeKeys (InsertRecords env store batch).store ↔
        (k ∈ storeKeys store ∨ k ∈ batch.map recordKey)) ∧
      (∀ a ∈ added, recordKey a ∉ storeKeys store ∧
        batch.find? (fun r => decide (recordKey r = recordKey a)) = some a) ∧
      ((storeKeys store).Nodup → (storeKeys (InsertRecords env store batch).store).Nodup) := by
  by_cases hb : batch = []
  · subst hb
    refine ⟨[], InsertResult.mk 0 0 0, by simp [InsertRecords], by simp [InsertRecords],
      by simp, ?_, by simp, ?_⟩
    · intro k; simp [InsertRecords]
    · intro hn; simpa [InsertRecords] using hn
  · rcases insertRecords_ok_inv env store batch h with h0 | ⟨hp, hf, rows, hs⟩
    · exact absurd h0 hb
    · subst hs
      obtain ⟨added, res, e1, e2, e3, e4, e5, e6⟩ :=
        insertLoop_first env batch 0 rows (InsertResult.mk 0 0 batch.length) hf
      have hmemadded : ∀ k, k ∈ added.map recordKey ↔
          k ∈ ((batch.map recordKey).filter (fun k => decide (k ∉ rows.map recordKey))).dedup := by
        intro k
        rw [List.mem_dedup, List.mem_filter]
        constructor
        · intro hk
          obtain ⟨a, ha, hak⟩ := List.mem_map.1 hk
          have hfind := e5 a ha
          have hmem := List.mem_of_find?_eq_some hfind
          refine ⟨by rw [← hak]; exact List.mem_map_of_mem _ hmem, ?_⟩
          simp only [decide_eq_true_eq]
          rw [← hak]
          exact e4 a ha
        · rintro ⟨hk1, hk2⟩
          simp only [decide_eq_true_eq] at hk2
          obtain ⟨r, hr, hrk⟩ := List.mem_map.1 hk1
          rcases e6 r hr with h1 | h1
          · rw [hrk] at h1; exact absurd h1 hk2
          · rw [hrk] at h1; exact h1
      have hperm : (added.map recordKey).Perm
          ((batch.map recordKey).filter (fun k => decide (k ∉ rows.map recordKey))).dedup :=
        (List.perm_ext_iff_of_nodup e3 (List.nodup_dedup _)).2 hmemadded
      rw [insertRecords_eq_loop env rows batch hb hp, e1]
      refine ⟨added, res, rfl, rfl, ?_, ?_, ?_, ?_⟩
      · simp only at e2
        rw [e2, Nat.zero_add]
        have := hperm.length_eq
        rw [List.length_map] at this
        exact this
      · intro k
        simp only [storeKeys, Option.getD_some, List.map_append, List.mem_append]
        constructor
        · rintro (hk | hk)
          · exact Or.inl hk
          · obtain ⟨a, ha, hak⟩ := List.mem_map.1 hk
            have hmem := List.mem_of_find?_eq_some (e5 a ha)
            exact Or.inr (by rw [← hak]; exact List.mem_map_of_mem _ hmem)
        · rintro (hk | hk)
          · exact Or.inl hk
          · obtain ⟨r, hr, hrk⟩ := List.mem_map.1 hk
            rw [← hrk]
            exact e6 r hr
      · intro a ha
        exact ⟨e4 a ha, e5 a ha⟩
      · intro hn
        simp only [storeKeys, Option.getD_some, List.map_append] at hn ⊢
        refine List.Nodup.append hn e3 ?_
        intro k hk1 hk2
        obtain ⟨a, ha, hak⟩ := List.mem_map.1 hk2
        exact e4 a ha (by rw [hak]; exact hk1)

/-- C27 witness: a batch with the new key 1 January 2024 twice, into an empty table:
one row is inserted, the first record of the key. -/
theorem insertRecords_success_witness :
    ∃ added res, (InsertRecords noStoreFaults (some []) repeatedKeyBatch).result = some res ∧
      (InsertRecords noStoreFaults (some []) repeatedKeyBatch).store.getD []
        = (some []).getD [] ++ added ∧
      res.Inserted = (((repeatedKeyBatch.map recordKey).filter
        (fun k => decide (k ∉ storeKeys (some [])))).dedup).length ∧
      (∀ k, k ∈ storeKeys (InsertRecords noStoreFaults (some []) repeatedKeyBatch).store ↔
        (k ∈ storeKeys (some []) ∨ k ∈ repeatedKeyBatch.map recordKey)) ∧
      (∀ a ∈ added, recordKey a ∉ storeKeys (some []) ∧
        repeatedKeyBatch.find? (fun r => decide (recordKey r = recordKey a)) = some a) ∧
      ((storeKeys (some [])).Nodup →
        (storeKeys (InsertRecords noStoreFaults (some []) repeatedKeyBatch).store).Nodup) :=
  insertRecords_success noStoreFaults (some []) repeatedKeyBatch (by decide)

/-! ## A failing insert in the middle of a batch (C28) -/

/-- A loop without failure does the same to the table and to `Inserted` and `Skipped`
whatever `Total` it was started with. -/
theorem insertLoop_total_free (env : StoreFaults) (t1 t2 : Nat) :
    ∀ (records : List WeatherRecord) (i : Nat) (rows : List WeatherRecord) (x y : Nat),
      noInsertFault env i records = true →
      ∃ st r1 r2,
        insertLoop env i records rows (InsertResult.mk x y t1) = InsertOutcome.mk st (some r1) none ∧
        insertLoop env i records rows (InsertResult.mk x y t2) = InsertOutcome.mk st (some r2) none ∧
        r1.Inserted = r2.Inserted ∧ r1.Skipped = r2.Skipped ∧ r1.Total = t1 ∧ r2.Total = t2 ∧
        r1.Inserted + r1.Skipped = x + y + records.length := by
  intro records
  induction records with
  | nil =>
    intro i rows x y _
    exact ⟨some rows, InsertResult.mk x y t1, InsertResult.mk x y t2,
      by simp [insertLoop], by simp [insertLoop], rfl, rfl, rfl, rfl, by simp⟩
  | cons a rest ih =>
    intro i rows x y hf
    obtain ⟨he, hr, hrest⟩ := noInsertFault_cons env i a rest hf
    by_cases hc : recordKey a ∈ rows.map recordKey
    · rw [insertLoop_cons_present env i a rest rows _ he hr hc,
        insertLoop_cons_present env i a rest rows _ he hr hc]
      obtain ⟨st, r1, r2, h1, h2, h3, h4, h5, h6, h7⟩ := ih (i + 1) rows x (y + 1) hrest
      exact ⟨st, r1, r2, h1, h2, h3, h4, h5, h6, by simp only [List.length_cons]; omega⟩
    · rw [insertLoop_cons_absent env i a rest rows _ he hr hc,
        insertLoop_cons_absent env i a rest rows _ he hr hc]
      obtain ⟨st, r1, r2, h1, h2, h3, h4, h5, h6, h7⟩ := ih (i + 1) (rows ++ [a]) (x + 1) y hrest
      exact ⟨st, r1, r2, h1, h2, h3, h4, h5, h6, by simp only [List.length_cons]; omega⟩

/-- When the insert of the record after `pre` fails, the loop returns what the loop over
`pre` alone leaves: its table and its counters. -/
theorem insertLoop_exec_fail (env : StoreFaults) (a : WeatherRecord) (post : List WeatherRecord)
    (e : GoError) :
    ∀ (pre : List WeatherRecord) (i : Nat) (rows : List WeatherRecord) (result : InsertResult),
      noInsertFault env i pre = true →
      env.exec (i + pre.length) a = some e →
      insertLoop env i (pre ++ a :: post) rows result =
        InsertOutcome.mk (insertLoop env i pre rows result).store
          (insertLoop env i pre rows result).result
          (some (.wrap ("inserting record for date " ++ a.Date.Format ++ ": ") e)) := by
  intro pre
  induction pre with
  | nil =>
    intro i rows result _ hfail
    simp only [List.length_nil, Nat.add_zero] at hfail
    rw [List.nil_append, insertLoop]
    simp [hfail, insertLoop]
  | cons b rest ih =>
    intro i rows result hf hfail
    obtain ⟨he, hr, hrest⟩ := noInsertFault_cons env i b rest hf
    have hidx : i + (b :: rest).length = (i + 1) + rest.length := by
      simp only [List.length_cons]; omega
    rw [hidx] at hfail
    rw [List.cons_append]
    by_cases hc : recordKey b ∈ rows.map recordKey
    · rw [insertLoop_cons_present env i b _ rows result he hr hc,
        insertLoop_cons_present env i b rest rows result he hr hc]
      exact ih (i + 1) rows _ hrest hfail
    · rw [insertLoop_cons_absent env i b _ rows result he hr hc,
        insertLoop_cons_absent env i b rest rows result he hr hc]
      exact ih (i + 1) (rows ++ [b]) _ hrest hfail

/-- C28: when the inserts of the records before position `len(pre)` meet no failure and
the insert of the record at that position fails, `InsertRecords` returns the insert
error, the store is exactly the store that writing `pre` alone leaves (every row added
for the earlier records is kept; nothing is written for the failing record or for a later
one), and `Inserted` and `Skipped` are those of writing `pre` alone, so they add up to
`len(pre)`; `Total` is the length of the whole batch. -/
theorem insertRecords_atomic_per_record (env : StoreFaults) (rows : List WeatherRecord)
    (pre post : List WeatherRecord) (a : WeatherRecord) (e : GoError)
    (hP : env.prepare = none)
    (hpre : noInsertFault env 0 pre = true)
    (hfail : env.exec pre.length a = some e) :
    (InsertRecords env (some rows) pre).err = none ∧
    (InsertRecords env (some rows) (pre ++ a :: post)).store
      = (InsertRecords env (some rows) pre).store ∧
    (InsertRecords env (some rows) (pre ++ a :: post)).err
      = some (.wrap ("inserting record for date " ++ a.Date.Format ++ ": ") e) ∧
    ∃ res resPre, (InsertRecords env (some rows) (pre ++ a :: post)).result = some res ∧
      (InsertRecords env (some rows) pre).result = some resPre ∧
      res.Inserted = resPre.Inserted ∧ res.Skipped = resPre.Skipped ∧
      res.Inserted + res.Skipped = pre.length ∧
      res.Total = (pre ++ a :: post).length := by
  have hb : pre ++ a :: post ≠ [] := by simp
  have hfail0 : env.exec (0 + pre.length) a = some e := by rw [Nat.zero_add]; exact hfail
  obtain ⟨st, r1, r2, h1, h2, h3, h4, h5, h6, h7⟩ :=
    insertLoop_total_free env (pre ++ a :: post).length pre.length pre 0 rows 0 0 hpre
  have hbatch := insertLoop_exec_fail env a post e pre 0 rows
    (InsertResult.mk 0 0 (pre ++ a :: post).length) hpre hfail0
  rw [h1] at hbatch
  have hpreOut : InsertRecords env (some rows) pre = InsertOutcome.mk st (some r2) none := by
    by_cases hpe : pre = []
    · subst hpe
      simp only [insertLoop, InsertOutcome.mk.injEq, Option.some.injEq, and_true] at h2
      simp [InsertRecords, ← h2.1, ← h2.2]
    · rw [insertRecords_eq_loop env rows pre hpe hP, h2]
  rw [insertRecords_eq_loop env rows (pre ++ a :: post) hb hP, hbatch, hpreOut]
  exact ⟨rfl, rfl, rfl, r1, r2, rfl, rfl, h3, h4, by simpa using h7, h5⟩

/-- C28 witness: the insert at position 1 of `batch3` fails; the row of position 0 stays,
nothing else is written, and the counters are those of the first record. -/
theorem insertRecords_atomic_per_record_witness :
    (InsertRecords (execFaultAt 1) (some []) batch3).store
      = some [observation (Date.mk 2024 1 1) 85] ∧
    (InsertRecords (execFaultAt 1) (some []) batch3).result
      = some (InsertResult.mk 1 0 3) :=
  have h := insertRecords_atomic_per_record (execFaultAt 1) []
    [observation (Date.mk 2024 1 1) 85] [observation (Date.mk 2024 1 3) 88]
    (observation (Date.mk 2024 1 2) 90) (.leaf "driver: bad connection")
    rfl (by decide) (by decide)
  ⟨h.2.1.trans (by decide), by decide⟩

/-! ## Optional fields of the parser (C23) -/

theorem atoi_eval_plus (t : List Char) :
    Atoi ('+' :: t) =
      if t = [] ∨ ¬ t.all Char.isDigit = true then
        .error (.leaf ("strconv.Atoi: parsing " ++ String.mk ('+' :: t) ++ ": invalid syntax"))
      else if digitsValue t ≤ maxInt then .ok (digitsValue t : Int)
      else .error (.leaf ("strconv.Atoi: parsing " ++ String.mk ('+' :: t) ++
        ": value out of range")) := by
  rfl

theorem atoi_eval_minus (t : List Char) :
    Atoi ('-' :: t) =
      if t = [] ∨ ¬ t.all Char.isDigit = true then
        .error (.leaf ("strconv.Atoi: parsing " ++ String.mk ('-' :: t) ++ ": invalid syntax"))
      else if digitsValue t ≤ maxInt + 1 then .ok (-(digitsValue t : Int))
      else .error (.leaf ("strconv.Atoi: parsing " ++ String.mk ('-' :: t) ++
        ": value out of range")) := by
  rfl

theorem atoi_eval_other (s : List Char) (hp : s.head? ≠ some '+') (hm : s.head? ≠ some '-') :
    Atoi s =
      if s = [] ∨ ¬ s.all Char.isDigit = true then
        .error (.leaf ("strconv.Atoi: parsing " ++ String.mk s ++ ": invalid syntax"))
      else if digitsValue s ≤ maxInt then .ok (digitsValue s : Int)
      else .error (.leaf ("strconv.Atoi: parsing " ++ String.mk s ++ ": value out of range")) := by
  cases s with
  | nil => rfl
  | cons c t =>
    have h1 : c ≠ '+' := by intro h; apply hp; rw [h]; rfl
    have h2 : c ≠ '-' := by intro h; apply hm; rw [h]; rfl
    unfold Atoi
    simp [h1, h2]

/-- The three-way outcome shared by the branches of `strconv.Atoi`. -/
theorem atoi_branch (body : List Char) (bound : Nat) (w v : Int) (e1 e2 : GoError) :
    (if body = [] ∨ ¬ body.all Char.isDigit = true then (Except.error e1 : Except GoError Int)
      else if digitsValue body ≤ bound then .ok w else .error e2) = .ok v ↔
    (body ≠ [] ∧ (∀ c ∈ body, c.isDigit = true) ∧ digitsValue body ≤ bound ∧ v = w) := by
  by_cases h1 : body = [] ∨ ¬ body.all Char.isDigit = true
  · rw [if_pos h1]
    constructor
    · intro h; cases h
    · rintro ⟨hne, hd, _, _⟩
      rcases h1 with h1 | h1
      · exact absurd h1 hne
      · exact absurd (List.all_eq_true.2 hd) h1
  · rw [if_neg h1]
    simp only [not_or, not_not] at h1
    by_cases hfit : digitsValue body ≤ bound
    · rw [if_pos hfit]
      simp only [Except.ok.injEq]
      constructor
      · intro h; exact ⟨h1.1, List.all_eq_true.1 h1.2, hfit, h.symm⟩
      · rintro ⟨_, _, _, h⟩; exact h.symm
    · rw [if_neg hfit]
      constructor
      · intro h; cases h
      · rintro ⟨_, _, h, _⟩; exact absurd h hfit

/-- `strconv.Atoi` succeeds exactly on the valid integers, with their value. -/
theorem atoi_iff (s : List Char) (v : Int) : Atoi s = .ok v ↔ IsIntText s v := by
  have hdig : ∀ (c : Char) (t : List Char), (∀ x ∈ c :: t, x.isDigit = true) →
      c ≠ '+' ∧ c ≠ '-' := by
    intro c t h
    have hc := h c (List.mem_cons_self _ _)
    constructor
    · intro h; rw [h] at hc; exact absurd hc (by decide)
    · intro h; rw [h] at hc; exact absurd hc (by decide)
  have hshape : ∀ digits : List Char, digits ≠ [] → (∀ x ∈ digits, x.isDigit = true) →
      digits.head? ≠ some '+' ∧ digits.head? ≠ some '-' := by
    intro digits hne hd
    cases digits with
    | nil => exact absurd rfl hne
    | cons c t =>
      obtain ⟨h1, h2⟩ := hdig c t hd
      exact ⟨by simpa using h1, by simpa using h2⟩
  by_cases hp : s.head? = some '+'
  · obtain ⟨t, rfl⟩ : ∃ t, s = '+' :: t := by
      cases s with
      | nil => cases hp
      | cons c t => simp only [List.head?_cons, Option.some.injEq] at hp; exact ⟨t, by rw [hp]⟩
    rw [atoi_eval_plus, atoi_branch]
    constructor
    · rintro ⟨hne, hd, hfit, hv⟩
      exact ⟨t, hne, hd, Or.inl ⟨Or.inr rfl, hv, hfit⟩⟩
    · rintro ⟨digits, hne, hd, h | h⟩
      · obtain ⟨hs, hv, hfit⟩ := h
        rcases hs with hs | hs
        · exact absurd (by rw [← hs]; rfl) (hshape digits hne hd).1
        · cases hs; exact ⟨hne, hd, hfit, hv⟩
      · obtain ⟨hs, _, _⟩ := h
        simp only [List.cons.injEq] at hs
        exact absurd hs.1 (by decide)
  · by_cases hm : s.head? = some '-'
    · obtain ⟨t, rfl⟩ : ∃ t, s = '-' :: t := by
        cases s with
        | nil => cases hm
        | cons c t => simp only [List.head?_cons, Option.some.injEq] at hm; exact ⟨t, by rw [hm]⟩
      rw [atoi_eval_minus, atoi_branch]
      constructor
      · rintro ⟨hne, hd, hfit, hv⟩
        exact ⟨t, hne, hd, Or.inr ⟨rfl, hv, hfit⟩⟩
      · rintro ⟨digits, hne, hd, h | h⟩
        · obtain ⟨hs, _, _⟩ := h
          rcases hs with hs | hs
          · exact absurd (by rw [← hs]; rfl) (hshape digits hne hd).2
          · simp only [List.cons.injEq] at hs
            exact absurd hs.1 (by decide)
        · obtain ⟨hs, hv, hfit⟩ := h
          cases hs; exact ⟨hne, hd, hfit, hv⟩
    · rw [atoi_eval_other s hp hm, atoi_branch]
      constructor
      · rintro ⟨hne, hd, hfit, hv⟩
        exact ⟨s, hne, hd, Or.inl ⟨Or.inl rfl, hv, hfit⟩⟩
      · rintro ⟨digits, hne, hd, h | h⟩
        · obtain ⟨hs, hv, hfit⟩ := h
          rcases hs with hs | hs
          · subst hs; exact ⟨hne, hd, hfit, hv⟩
          · exact absurd (by rw [hs]; rfl) hp
        · obtain ⟨hs, _, _⟩ := h
          exact absurd (by rw [hs]; rfl) hm

/-- `parseOptionalInt` returns a value exactly when the trimmed column is a valid
integer, and then its value. -/
theorem parseOptionalInt_some (column : List Char) (v : Int) :
    parseOptionalInt column = some v ↔ IsIntText (TrimSpace column) v := by
  unfold parseOptionalInt
  simp only
  by_cases he : TrimSpace column = []
  · rw [if_pos he, he]
    constructor
    · intro h; cases h
    · intro h
      have := (atoi_iff [] v).2 h
      cases this
  · rw [if_neg he, ← atoi_iff]
    cases ha : Atoi (TrimSpace column) with
    | error e => simp
    | ok w => simp

/-- The 39 columns after the second, read by position, are the columns after the second. -/
theorem optional_columns (fields : List (List Char)) (p : List Char → Option Int)
    (h : fields.length = 41) :
    [p (fields.getD 2 []), p (fields.getD 3 []), p (fields.getD 4 []), p (fields.getD 5 []),
     p (fields.getD 6 []), p (fields.getD 7 []), p (fields.getD 8 []), p (fields.getD 9 []),
     p (fields.getD 10 []), p (fields.getD 11 []), p (fields.getD 12 []), p (fields.getD 13
     []), p (fields.getD 14 []), p (fields.getD 15 []), p (fields.getD 16 []), p
     (fields.getD 17 []), p (fields.getD 18 []), p (fields.getD 19 []), p (fields.getD 20
     []), p (fields.getD 21 []), p (fields.getD 22 []), p (fields.getD 23 []), p
     (fields.getD 24 []), p (fields.getD 25 []), p (fields.getD 26 []), p (fields.getD 27
     []), p (fields.getD 28 []), p (fields.getD 29 []), p (fields.getD 30 []), p
     (fields.getD 31 []), p (fields.getD 32 []), p (fields.getD 33 []), p (fields.getD 34
     []), p (fields.getD 35 []), p (fields.getD 36 []), p (fields.getD 37 []), p
     (fields.getD 38 []), p (fields.getD 39 []), p (fields.getD 40 [])]
      = (fields.drop 2).map p := by
  match fields, h with
  | f0 :: f1 :: f2 :: f3 :: f4 :: f5 :: f6 :: f7 :: f8 :: f9 :: f10 :: f11 :: f12 :: f13 ::
    f14 :: f15 :: f16 :: f17 :: f18 :: f19 :: f20 :: f21 :: f22 :: f23 :: f24 :: f25 :: f26
    :: f27 :: f28 :: f29 :: f30 :: f31 :: f32 :: f33 :: f34 :: f35 :: f36 :: f37 :: f38 ::
    f39 :: f40 :: [], _ => rfl

/-- What a successful `parseLine` returns. -/
theorem parseLine_ok (line : List Char) (lineNum : Nat) (record : WeatherRecord)
    (h : parseLine line lineNum = .ok record) :
    (splitOn ',' line).length = 41 ∧
    parseRequiredInt ((splitOn ',' line).getD 0 []) "station_id" lineNum = .ok record.StationID ∧
    parseDate ((splitOn ',' line).getD 1 []) lineNum = .ok record.Date ∧
    record.optionals = ((splitOn ',' line).drop 2).map parseOptionalInt := by
  unfold parseLine at h
  simp only at h
  by_cases hlen : (splitOn ',' line).length = 41
  · rw [if_neg (by simpa using hlen)] at h
    cases hs : parseRequiredInt ((splitOn ',' line).getD 0 []) "station_id" lineNum with
    | error e => rw [hs] at h; cases h
    | ok stationID =>
      cases hd : parseDate ((splitOn ',' line).getD 1 []) lineNum with
      | error e => rw [hs, hd] at h; cases h
      | ok date =>
        rw [hs, hd] at h
        simp only [Except.ok.injEq] at h
        rw [← h]
        exact ⟨hlen, rfl, rfl, optional_columns _ parseOptionalInt hlen⟩
  · rw [if_pos (by simpa using hlen)] at h
    cases h

/-- C23: for every optional column of a data line the parsed field is absent (nil)
exactly when the column, after trimming surrounding whitespace, is empty or is not a
valid integer, and otherwise it is present and holds the integer value of the column; a
column containing `0` yields the present value 0; and the 39 optional fields of a parsed
line are the results for its columns 3 to 41. -/
theorem optional_field_absent_iff (column : List Char) :
    (parseOptionalInt column = none ↔
      (TrimSpace column = [] ∨ ¬ ∃ v, IsIntText (TrimSpace column) v)) ∧
    (∀ v, parseOptionalInt column = some v ↔ IsIntText (TrimSpace column) v) ∧
    parseOptionalInt ['0'] = some 0 ∧
    (∀ line lineNum record, parseLine line lineNum = .ok record →
      record.optionals = ((splitOn ',' line).drop 2).map parseOptionalInt) := by
  refine ⟨?_, parseOptionalInt_some column, by decide, ?_⟩
  · constructor
    · intro h
      right
      rintro ⟨v, hv⟩
      rw [(parseOptionalInt_some column v).2 hv] at h
      cases h
    · intro h
      cases hp : parseOptionalInt column with
      | none => rfl
      | some v =>
        have hv := (parseOptionalInt_some column v).1 hp
        rcases h with h | h
        · rw [h] at hv
          obtain ⟨digits, hne, _, h1 | h1⟩ := hv
          · rcases h1.1 with h2 | h2
            · exact absurd h2.symm hne
            · cases h2
          · cases h1.1
        · exact absurd ⟨v, hv⟩ h
  · intro line lineNum record h
    exact (parseLine_ok line lineNum record h).2.2.2

/-- C23 witness: the columns ` 0 `, blank, `abc` and `-12`. -/
theorem optional_field_absent_iff_witness :
    parseOptionalInt [' ', '0', ' '] = some 0 ∧
    parseOptionalInt [' ', ' ', ' '] = none ∧
    parseOptionalInt ['a', 'b', 'c'] = none ∧
    parseOptionalInt ['-', '1', '2'] = some (-12) :=
  ⟨((optional_field_absent_iff [' ', '0', ' ']).2.1 0).2
      ⟨['0'], by decide, by decide, Or.inl ⟨Or.inl (by decide), by decide, by decide⟩⟩,
   (optional_field_absent_iff [' ', ' ', ' ']).1.2 (Or.inl (by decide)),
   by decide,
   ((optional_field_absent_iff ['-', '1', '2']).2.1 (-12)).2
      ⟨['1', '2'], by decide, by decide, Or.inr ⟨by decide, by decide, by decide⟩⟩⟩

/-! ## Dates and faults of a line -/

theorem digitsValue_pair (a b : Char) :
    digitsValue [a, b] = (a.toNat - 48) * 10 + (b.toNat - 48) := by
  simp [digitsValue]

theorem getnum2_some (s rest : List Char) (n : Nat) (h : getnum2 s = some (n, rest)) :
    ∃ a b, s = a :: b :: rest ∧ a.isDigit = true ∧ b.isDigit = true ∧ n = digitsValue [a, b] := by
  unfold getnum2 at h
  split at h
  · rename_i a b r
    split at h
    · rename_i hd
      simp only [Option.some.injEq, Prod.mk.injEq] at h
      simp only [Bool.and_eq_true] at hd
      exact ⟨a, b, by rw [h.2], hd.1, hd.2, by rw [digitsValue_pair]; exact h.1.symm⟩
    · cases h
  · cases h

theorem getnum2_digits (a b : Char) (rest : List Char) (ha : a.isDigit = true)
    (hb : b.isDigit = true) : getnum2 (a :: b :: rest) = some (digitsValue [a, b], rest) := by
  simp [getnum2, ha, hb, digitsValue_pair]

/-- Every day `time.Parse("20060102", s)` returns comes from a valid `YYYYMMDD` date. -/
theorem timeParse_ok (s : List Char) (d : Date) (h : timeParse s = .ok d) :
    isValidYYYYMMDD s = true ∧ d = dateOfYYYYMMDD s := by
  unfold timeParse at h
  split at h
  · rename_i y1 y2 y3 y4 rest
    split at h
    · rename_i hy
      split at h
      · cases h
      · rename_i month rest1 hm
        split at h
        · cases h
        · rename_i hmr
          split at h
          · cases h
          · rename_i day rest2 hd
            split at h
            · cases h
            · rename_i hrest
              split at h
              · cases h
              · rename_i hdr
                obtain ⟨m1, m2, e1, hm1, hm2, em⟩ := getnum2_some rest rest1 month hm
                obtain ⟨d1, d2, e2, hd1, hd2, ed⟩ := getnum2_some rest1 rest2 day hd
                simp only [ne_eq, not_not] at hrest
                subst hrest e2 e1
                simp only [Bool.and_eq_true] at hy
                simp only [Except.ok.injEq] at h
                have hval : isValidYYYYMMDD [y1, y2, y3, y4, m1, m2, d1, d2] = true := by
                  simp only [isValidYYYYMMDD, List.length_cons, List.length_nil, List.all_cons,
                    List.all_nil, List.drop_succ_cons, List.drop_zero, List.take_succ_cons,
                    List.take_zero, List.take_nil, hy.1.1.1, hy.1.1.2, hy.1.2, hy.2, hm1, hm2,
                    hd1, hd2, ← em, ← ed]
                  simp only [not_or, not_lt] at hmr hdr
                  have h1 : 1 ≤ month := Nat.one_le_iff_ne_zero.2 hmr.1
                  simp [h1, hmr.2, hdr.1, hdr.2]
                refine ⟨hval, ?_⟩
                rw [← h]
                simp [dateOfYYYYMMDD, em, ed]
    · cases h
  · cases h

/-- `time.Parse("20060102", s)` returns the day of every valid `YYYYMMDD` date. -/
theorem timeParse_valid (s : List Char) (h : isValidYYYYMMDD s = true) :
    timeParse s = .ok (dateOfYYYYMMDD s) := by
  have hlen : s.length = 8 := by
    simp only [isValidYYYYMMDD, Bool.and_eq_true, decide_eq_true_eq] at h
    exact h.1.1.1.1.1
  match s, hlen, h with
  | [y1, y2, y3, y4, m1, m2, d1, d2], _, h =>
    simp only [isValidYYYYMMDD, List.length_cons, List.length_nil, List.all_cons,
      List.all_nil, List.drop_succ_cons, List.drop_zero, List.take_succ_cons,
      List.take_zero, List.take_nil, Bool.and_eq_true, decide_eq_true_eq, Bool.and_true] at h
    obtain ⟨⟨⟨⟨⟨_, hdig⟩, hm1⟩, hm12⟩, hd1⟩, hdn⟩ := h
    obtain ⟨hy1, hy2, hy3, hy4, hm1d, hm2d, hd1d, hd2d⟩ := hdig
    have hmne : ¬ (digitsValue [m1, m2] = 0 ∨ 12 < digitsValue [m1, m2]) := by omega
    have hdne : ¬ (digitsValue [d1, d2] < 1 ∨
        daysIn (digitsValue [m1, m2]) (digitsValue [y1, y2, y3, y4]) < digitsValue [d1, d2]) := by
      omega
    unfold timeParse
    simp only [hy1, hy2, hy3, hy4, Bool.and_self, if_true,
      getnum2_digits m1 m2 _ hm1d hm2d, getnum2_digits d1 d2 _ hd1d hd2d]
    rw [if_neg hmne]
    simp only [ne_eq, not_true_eq_false, if_false]
    rw [if_neg hdne]
    rfl

theorem timeParse_iff (s : List Char) (d : Date) :
    timeParse s = .ok d ↔ (isValidYYYYMMDD s = true ∧ d = dateOfYYYYMMDD s) := by
  constructor
  · exact timeParse_ok s d
  · rintro ⟨h1, h2⟩
    rw [h2]
    exact timeParse_valid s h1

/-- `parseRequiredInt` returns a value exactly when the trimmed column is a valid integer. -/
theorem parseRequiredInt_ok_iff (s : List Char) (name : String) (n : Nat) (v : Int) :
    parseRequiredInt s name n = .ok v ↔ IsIntText (TrimSpace s) v := by
  unfold parseRequiredInt
  simp only
  by_cases he : TrimSpace s = []
  · rw [if_pos he, he]
    constructor
    · intro h; cases h
    · intro h
      have := (atoi_iff [] v).2 h
      cases this
  · rw [if_neg he, ← atoi_iff]
    cases ha : Atoi (TrimSpace s) with
    | error e => simp
    | ok w => simp

/-- The two errors of `parseRequiredInt` name the line and the field. -/
theorem parseRequiredInt_error (s : List Char) (name : String) (n : Nat) (e : GoError)
    (h : parseRequiredInt s name n = .error e) :
    e.Error = "line " ++ toString n ++ ": required field " ++ name ++ " is empty" ∨
    ∃ rest, e.Error = "line " ++ toString n ++ ": invalid " ++ name ++ " value " ++ rest := by
  unfold parseRequiredInt at h
  simp only at h
  by_cases he : TrimSpace s = []
  · rw [if_pos he] at h
    simp only [Except.error.injEq] at h
    left
    rw [← h]
    rfl
  · rw [if_neg he] at h
    cases ha : Atoi (TrimSpace s) with
    | ok w => rw [ha] at h; cases h
    | error err =>
      rw [ha] at h
      simp only [Except.error.injEq] at h
      right
      refine ⟨goQuote (TrimSpace s) ++ ": " ++ err.Error, ?_⟩
      rw [← h]
      simp only [GoError.Error, String.append_assoc]

/-- `parseDate` returns a day exactly when the trimmed column is a valid date. -/
theorem parseDate_ok_iff (s : List Char) (n : Nat) (d : Date) :
    parseDate s n = .ok d ↔
      (isValidYYYYMMDD (TrimSpace s) = true ∧ d = dateOfYYYYMMDD (TrimSpace s)) := by
  unfold parseDate
  simp only
  by_cases he : TrimSpace s = []
  · rw [if_pos he, he]
    constructor
    · intro h; cases h
    · rintro ⟨h, _⟩
      exact absurd h (by decide)
  · rw [if_neg he, ← timeParse_iff]
    cases ha : timeParse (TrimSpace s) with
    | error e => simp
    | ok w => simp

/-- The two errors of `parseDate` name the line and the date. -/
theorem parseDate_error (s : List Char) (n : Nat) (e : GoError)
    (h : parseDate s n = .error e) :
    e.Error = "line " ++ toString n ++ ": date is empty" ∨
    ∃ rest, e.Error = "line " ++ toString n ++ ": invalid date format " ++ rest := by
  unfold parseDate at h
  simp only at h
  by_cases he : TrimSpace s = []
  · rw [if_pos he] at h
    simp only [Except.error.injEq] at h
    left
    rw [← h]
    rfl
  · rw [if_neg he] at h
    cases ha : timeParse (TrimSpace s) with
    | ok w => rw [ha] at h; cases h
    | error err =>
      rw [ha] at h
      simp only [Except.error.injEq] at h
      right
      refine ⟨goQuote (TrimSpace s) ++ " (expected YYYYMMDD): " ++ err.Error, ?_⟩
      rw [← h]
      simp only [GoError.Error, String.append_assoc]

theorem badStation_iff (line : List Char) (n : Nat) :
    BadStation line ↔
      ∃ e, parseRequiredInt ((splitOn ',' line).getD 0 []) "station_id" n = .error e := by
  constructor
  · intro hb
    cases hp : parseRequiredInt ((splitOn ',' line).getD 0 []) "station_id" n with
    | error e => exact ⟨e, rfl⟩
    | ok v =>
      have hv := (parseRequiredInt_ok_iff _ _ _ v).1 hp
      rcases hb with hb | hb
      · rw [hb] at hv
        have := (atoi_iff [] v).2 hv
        cases this
      · exact absurd ⟨v, hv⟩ hb
  · rintro ⟨e, he⟩
    right
    rintro ⟨v, hv⟩
    rw [(parseRequiredInt_ok_iff _ "station_id" n v).2 hv] at he
    cases he

theorem badDate_iff (line : List Char) (n : Nat) :
    BadDate line ↔ ∃ e, parseDate ((splitOn ',' line).getD 1 []) n = .error e := by
  constructor
  · intro hb
    cases hp : parseDate ((splitOn ',' line).getD 1 []) n with
    | error e => exact ⟨e, rfl⟩
    | ok d =>
      have hv := ((parseDate_ok_iff _ _ d).1 hp).1
      rcases hb with hb | hb
      · rw [hb] at hv; exact absurd hv (by decide)
      · rw [hb] at hv; cases hv
  · rintro ⟨e, he⟩
    right
    cases hv : isValidYYYYMMDD (TrimSpace ((splitOn ',' line).getD 1 [])) with
    | false => rfl
    | true =>
      rw [(parseDate_ok_iff _ n _).2 ⟨hv, rfl⟩] at he
      cases he

/-- A malformed line makes `parseLine` fail with an error that names the line and the
first fault. -/
theorem parseLine_malformed (line : List Char) (n : Nat) (h : Malformed line) :
    ∃ e, parseLine line n = .error e ∧ NamesFault e n line := by
  unfold parseLine
  simp only
  by_cases hlen : (splitOn ',' line).length = 41
  · rw [if_neg (by simpa using hlen)]
    by_cases hs : BadStation line
    · obtain ⟨e, he⟩ := (badStation_iff line n).1 hs
      rw [he]
      refine ⟨e, rfl, Or.inr (Or.inl ⟨hlen, hs, ?_⟩)⟩
      rcases parseRequiredInt_error _ _ _ e he with hmsg | ⟨rest, hmsg⟩
      · left
        rw [hmsg]
        simp only [String.append_assoc]
        rfl
      · right
        refine ⟨rest, ?_⟩
        rw [hmsg]
        simp only [String.append_assoc]
        rfl
    · cases hp : parseRequiredInt ((splitOn ',' line).getD 0 []) "station_id" n with
      | error e => exact absurd ((badStation_iff line n).2 ⟨e, hp⟩) hs
      | ok v =>
        have hd : BadDate line := by
          rcases h with h | h | h
          · exact absurd hlen h
          · exact absurd h hs
          · exact h
        obtain ⟨e, he⟩ := (badDate_iff line n).1 hd
        simp only [he]
        exact ⟨e, rfl, Or.inr (Or.inr ⟨hlen, hs, hd, parseDate_error _ _ e he⟩)⟩
  · rw [if_pos (by simpa using hlen)]
    refine ⟨_, rfl, Or.inl ⟨hlen, ?_⟩⟩
    simp only [GoError.Error, String.append_assoc]
    rfl

/-- A line that is not malformed is parsed. -/
theorem parseLine_wellformed (line : List Char) (n : Nat) (h : ¬ Malformed line) :
    ∃ record, parseLine line n = .ok record := by
  simp only [Malformed, not_or, not_not] at h
  obtain ⟨hlen, hs, hd⟩ := h
  unfold parseLine
  simp only
  rw [if_neg (by simpa using hlen)]
  cases hp : parseRequiredInt ((splitOn ',' line).getD 0 []) "station_id" n with
  | error e => exact absurd ((badStation_iff line n).2 ⟨e, hp⟩) hs
  | ok v =>
    cases hq : parseDate ((splitOn ',' line).getD 1 []) n with
    | error e => exact absurd ((badDate_iff line n).2 ⟨e, hq⟩) hd
    | ok d => exact ⟨_, rfl⟩

/-- Every record `parseLine` returns is built from the line. -/
theorem parseLine_built (text : List Char) (n : Nat) (record : WeatherRecord)
    (h : parseLine (TrimSpace text) n = .ok record) : BuiltFrom text record := by
  obtain ⟨h1, h2, h3, h4⟩ := parseLine_ok (TrimSpace text) n record h
  obtain ⟨h5, h6⟩ := (parseDate_ok_iff _ _ _).1 h3
  exact ⟨h1, (parseRequiredInt_ok_iff _ _ _ _).1 h2, h5, h6, h4⟩

/-! ## The loop of ParseCSV -/

theorem parseLoop_cons_skip (n : Nat) (text : List Char) (rest : List (List Char))
    (acc : List WeatherRecord) (h : isDataLine text = false) :
    parseLoop n (text :: rest) acc = parseLoop (n + 1) rest acc := by
  rw [parseLoop]
  by_cases h1 : TrimSpace text = [] ∨ (TrimSpace text).head? = some '#'
  · rw [if_pos h1]
  · rw [if_neg h1]
    have h2 : (TrimSpace text).length = 0 ∨ ¬ ((TrimSpace text).head?.any Char.isDigit = true) := by
      right
      unfold isDataLine at h
      rw [h]
      simp
    rw [if_pos h2]

theorem parseLoop_cons_data (n : Nat) (text : List Char) (rest : List (List Char))
    (acc : List WeatherRecord) (h : isDataLine text = true) :
    parseLoop n (text :: rest) acc =
      match parseLine (TrimSpace text) (n + 1) with
      | .error err => .error err
      | .ok record => parseLoop (n + 1) rest (acc ++ [record]) := by
  unfold isDataLine at h
  cases hl : TrimSpace text with
  | nil => rw [hl] at h; cases h
  | cons c t =>
    rw [hl] at h
    simp only [List.head?_cons, Option.any_some] at h
    have hc : c ≠ '#' := by intro hc; rw [hc] at h; exact absurd h (by decide)
    rw [parseLoop]
    simp only [hl]
    rw [if_neg (by simp [hc])]
    rw [if_neg (by simp [h])]

/-- A blank line and a line starting with `#` are not data lines. -/
theorem not_data_line (text : List Char)
    (h : TrimSpace text = [] ∨ (TrimSpace text).head? = some '#') : isDataLine text = false := by
  unfold isDataLine
  rcases h with h | h
  · rw [h]; rfl
  · rw [h]; rfl

/-- When no data line is malformed the loop returns one record per data line, in order,
each built from its line. -/
theorem parseLoop_wellformed :
    ∀ (lines : List (List Char)) (n : Nat) (acc : List WeatherRecord),
      (∀ line ∈ lines, isDataLine line = true → ¬ Malformed (TrimSpace line)) →
      ∃ records, parseLoop n lines acc = .ok (acc ++ records) ∧
        List.Forall₂ BuiltFrom (lines.filter isDataLine) records := by
  intro lines
  induction lines with
  | nil =>
    intro n acc _
    exact ⟨[], by simp [parseLoop], List.Forall₂.nil⟩
  | cons text rest ih =>
    intro n acc h
    have hrest : ∀ line ∈ rest, isDataLine line = true → ¬ Malformed (TrimSpace line) :=
      fun line hl => h line (List.mem_cons_of_mem _ hl)
    cases hd : isDataLine text with
    | false =>
      obtain ⟨records, h1, h2⟩ := ih (n + 1) acc hrest
      refine ⟨records, by rw [parseLoop_cons_skip n text rest acc hd, h1], ?_⟩
      rw [List.filter_cons]
      simp only [hd, Bool.false_eq_true, if_false]
      exact h2
    | true =>
      obtain ⟨record, hr⟩ := parseLine_wellformed (TrimSpace text) (n + 1)
        (h text (List.mem_cons_self _ _) hd)
      obtain ⟨records, h1, h2⟩ := ih (n + 1) (acc ++ [record]) hrest
      refine ⟨record :: records, ?_, ?_⟩
      · rw [parseLoop_cons_data n text rest acc hd, hr]
        simp only
        rw [h1, List.append_assoc]
        rfl
      · rw [List.filter_cons]
        simp only [hd, if_true]
        exact List.Forall₂.cons (parseLine_built text (n + 1) record hr) h2

/-- At the first malformed data line the loop fails with an error that names the number
of that line and its fault. -/
theorem parseLoop_malformed (line : List Char) (post : List (List Char))
    (hd : isDataLine line = true) (hm : Malformed (TrimSpace line)) :
    ∀ (pre : List (List Char)) (n : Nat) (acc : List WeatherRecord),
      (∀ l ∈ pre, isDataLine l = true → ¬ Malformed (TrimSpace l)) →
      ∃ e, parseLoop n (pre ++ line :: post) acc = .error e ∧
        NamesFault e (n + pre.length + 1) (TrimSpace line) := by
  intro pre
  induction pre with
  | nil =>
    intro n acc _
    obtain ⟨e, he, hn⟩ := parseLine_malformed (TrimSpace line) (n + 1) hm
    refine ⟨e, ?_, by simpa using hn⟩
    rw [List.nil_append, parseLoop_cons_data n line post acc hd, he]
  | cons text rest ih =>
    intro n acc h
    have hrest : ∀ l ∈ rest, isDataLine l = true → ¬ Malformed (TrimSpace l) :=
      fun l hl => h l (List.mem_cons_of_mem _ hl)
    have hidx : n + (text :: rest).length + 1 = (n + 1) + rest.length + 1 := by
      simp only [List.length_cons]; omega
    rw [hidx, List.cons_append]
    cases hdt : isDataLine text with
    | false =>
      rw [parseLoop_cons_skip n text _ acc hdt]
      exact ih (n + 1) acc hrest
    | true =>
      obtain ⟨record, hr⟩ := parseLine_wellformed (TrimSpace text) (n + 1)
        (h text (List.mem_cons_self _ _) hdt)
      rw [parseLoop_cons_data n text _ acc hdt, hr]
      exact ih (n + 1) (acc ++ [record]) hrest

/-- A list of lines with a malformed data line has a first one. -/
theorem first_malformed :
    ∀ (lines : List (List Char)),
      (∃ line ∈ lines, isDataLine line = true ∧ Malformed (TrimSpace line)) →
      ∃ pre line post, lines = pre ++ line :: post ∧
        (∀ l ∈ pre, isDataLine l = true → ¬ Malformed (TrimSpace l)) ∧
        isDataLine line = true ∧ Malformed (TrimSpace line) := by
  intro lines
  induction lines with
  | nil => rintro ⟨line, hl, _⟩; cases hl
  | cons text rest ih =>
    rintro ⟨line, hl, hd, hm⟩
    by_cases hbad : isDataLine text = true ∧ Malformed (TrimSpace text)
    · exact ⟨[], text, rest, rfl, by simp, hbad.1, hbad.2⟩
    · have hin : line ∈ rest := by
        rcases List.mem_cons.1 hl with h | h
        · subst h; exact absurd ⟨hd, hm⟩ hbad
        · exact h
      obtain ⟨pre, l, post, e1, e2, e3, e4⟩ := ih ⟨line, hin, hd, hm⟩
      refine ⟨text :: pre, l, post, by rw [e1]; rfl, ?_, e3, e4⟩
      intro x hx hxd
      rcases List.mem_cons.1 hx with h | h
      · subst h; exact fun hxm => hbad ⟨hxd, hxm⟩
      · exact e2 x h hxd

/-- The loop succeeds exactly when no data line is malformed. -/
theorem parseLoop_ok_iff (lines : List (List Char)) (n : Nat) (acc : List WeatherRecord) :
    (∃ records, parseLoop n lines acc = .ok records) ↔
      ∀ line ∈ lines, isDataLine line = true → ¬ Malformed (TrimSpace line) := by
  constructor
  · rintro ⟨records, hr⟩ line hl hd hm
    obtain ⟨pre, l, post, e1, e2, e3, e4⟩ := first_malformed lines ⟨line, hl, hd, hm⟩
    obtain ⟨e, he, _⟩ := parseLoop_malformed l post e3 e4 pre n acc e2
    rw [e1, he] at hr
    cases hr
  · intro h
    obtain ⟨records, hr, _⟩ := parseLoop_wellformed lines n acc h
    exact ⟨_, hr⟩

/-! ## Scanning and ParseCSV -/

theorem splitOn_no_sep (sep : Char) : ∀ s : List Char, sep ∉ s → splitOn sep s = [s]
  | [], _ => rfl
  | c :: cs, h => by
    have hc : c ≠ sep := fun e => h (by rw [e]; exact List.mem_cons_self _ _)
    have hcs : sep ∉ cs := fun m => h (List.mem_cons_of_mem _ m)
    simp [splitOn, hc, splitOn_no_sep sep cs hcs]

theorem utf8Len_replicate_hash (n : Nat) : utf8Len (List.replicate n '#') = n := by
  induction n with
  | zero => rfl
  | succ k ih =>
    unfold utf8Len at ih ⊢
    rw [List.replicate_succ, List.map_cons, List.sum_cons, ih]
    have h1 : Char.utf8Size '#' = 1 := by decide
    omega

theorem takeWhile_length_lt_iff {α : Type} (p : α → Bool) (l : List α) :
    (l.takeWhile p).length < l.length ↔ ∃ x ∈ l, p x = false := by
  induction l with
  | nil => simp
  | cons a t ih =>
    by_cases ha : p a = true
    · rw [List.takeWhile_cons_of_pos ha]
      simp only [List.length_cons, Nat.add_lt_add_iff_right, ih, List.mem_cons]
      constructor
      · rintro ⟨x, hx, hp⟩; exact ⟨x, Or.inr hx, hp⟩
      · rintro ⟨x, hx | hx, hp⟩
        · subst hx; rw [ha] at hp; cases hp
        · exact ⟨x, hx, hp⟩
    · rw [List.takeWhile_cons_of_neg ha]
      simp only [List.length_nil, List.length_cons, Nat.zero_lt_succ, true_iff]
      exact ⟨a, List.mem_cons_self _ _, by simpa using ha⟩

/-- A line of `maxScanTokenSize` bytes or more ends the scan with `bufio.ErrTooLong`. -/
theorem scanLines_too_long (r : Reader)
    (h : ∃ l ∈ rawLines r.text, maxScanTokenSize ≤ utf8Len l) :
    (scanLines r).2 = some (.leaf "bufio.Scanner: token too long") := by
  have hlt : ((rawLines r.text).takeWhile
      (fun l => decide (utf8Len l < maxScanTokenSize))).length < (rawLines r.text).length := by
    rw [takeWhile_length_lt_iff]
    obtain ⟨l, hl, hlen⟩ := h
    exact ⟨l, hl, by simpa using hlen⟩
  unfold scanLines
  simp only
  rw [if_pos hlt]

/-- When every line fits the buffer the scanner delivers every line of the text and ends
with the error of the reader. -/
theorem scanLines_fit (r : Reader)
    (h : ∀ l ∈ rawLines r.text, utf8Len l < maxScanTokenSize) :
    (scanLines r).1 = (rawLines r.text).map dropCR ∧ (scanLines r).2 = r.err := by
  have htw : (rawLines r.text).takeWhile (fun l => decide (utf8Len l < maxScanTokenSize)) =
      rawLines r.text := by
    rw [List.takeWhile_eq_self_iff]
    intro l hl
    simpa using h l hl
  unfold scanLines
  simp only
  rw [htw, if_neg (Nat.lt_irrefl _)]
  exact ⟨rfl, rfl⟩

theorem scanLines_snd_ne_none (r : Reader) :
    (scanLines r).2 ≠ none ↔
      (r.err ≠ none ∨ ∃ l ∈ rawLines r.text, maxScanTokenSize ≤ utf8Len l) := by
  by_cases hlong : ∃ l ∈ rawLines r.text, maxScanTokenSize ≤ utf8Len l
  · rw [scanLines_too_long r hlong]
    exact ⟨fun _ => Or.inr hlong, fun _ => by simp⟩
  · have hfit : ∀ l ∈ rawLines r.text, utf8Len l < maxScanTokenSize := by
      intro l hl
      by_contra hc
      exact hlong ⟨l, hl, Nat.le_of_not_lt hc⟩
    rw [(scanLines_fit r hfit).2]
    exact ⟨fun h => Or.inl h, fun h => h.elim id (fun h2 => absurd h2 hlong)⟩

theorem parseCSV_loop_error (r : Reader) (e : GoError)
    (h : parseLoop 0 (scanLines r).1 [] = .error e) : ParseCSV r = .error e := by
  unfold ParseCSV
  rw [h]

theorem parseCSV_scan_error (r : Reader) (records : List WeatherRecord) (err : GoError)
    (h : parseLoop 0 (scanLines r).1 [] = .ok records) (hs : (scanLines r).2 = some err) :
    ParseCSV r = .error (.wrap "reading input: " err) := by
  unfold ParseCSV
  rw [h]
  simp only
  rw [hs]

theorem parseCSV_ok_inv (r : Reader) (records : List WeatherRecord)
    (h : ParseCSV r = .ok records) :
    parseLoop 0 (scanLines r).1 [] = .ok records ∧ (scanLines r).2 = none := by
  unfold ParseCSV at h
  cases hl : parseLoop 0 (scanLines r).1 [] with
  | error e => rw [hl] at h; cases h
  | ok recs =>
    rw [hl] at h
    simp only at h
    cases hs : (scanLines r).2 with
    | some err => rw [hs] at h; cases h
    | none =>
      rw [hs] at h
      simp only [Except.ok.injEq] at h
      exact ⟨by rw [h], rfl⟩

theorem parseCSV_scan_fails (r : Reader) (h : (scanLines r).2 ≠ none) :
    ∃ e, ParseCSV r = .error e := by
  cases hl : parseLoop 0 (scanLines r).1 [] with
  | error e => exact ⟨e, parseCSV_loop_error r e hl⟩
  | ok recs =>
    cases hs : (scanLines r).2 with
    | none => exact absurd hs h
    | some err => exact ⟨_, parseCSV_scan_error r recs err hl hs⟩

/-- A text that is one line of `#` characters, too long for the scanner. -/
theorem parseCSV_long_comment (n : Nat) (hn : 0 < n) (hlong : maxScanTokenSize ≤ n) :
    rawLines (List.replicate n '#') = [List.replicate n '#'] ∧
    isDataLine (List.replicate n '#') = false ∧
    ParseCSV (Reader.mk (List.replicate n '#') none) =
      .error (.wrap "reading input: " (.leaf "bufio.Scanner: token too long")) := by
  have hsplit : splitOn '\n' (List.replicate n '#') = [List.replicate n '#'] := by
    apply splitOn_no_sep
    intro hm
    exact absurd (List.eq_of_mem_replicate hm) (by decide)
  have hraw : rawLines (List.replicate n '#') = [List.replicate n '#'] := by
    unfold rawLines
    rw [hsplit]
    have hne : List.replicate n '#' ≠ [] := by
      intro e
      have := congrArg List.length e
      rw [List.length_replicate] at this
      exact absurd this (by simpa using Nat.pos_iff_ne_zero.1 hn)
    simp [hne]
  have htrim : TrimSpace (List.replicate n '#') = List.replicate n '#' := by
    obtain ⟨m, rfl⟩ : ∃ m, n = m + 1 := ⟨n - 1, by omega⟩
    have hd : (List.replicate (m + 1) '#').dropWhile isSpace = List.replicate (m + 1) '#' := by
      rw [List.replicate_succ]
      exact List.dropWhile_cons_of_neg (by decide)
    unfold TrimSpace
    rw [hd, List.reverse_replicate, hd, List.reverse_replicate]
  have hdata : isDataLine (List.replicate n '#') = false := by
    obtain ⟨m, rfl⟩ : ∃ m, n = m + 1 := ⟨n - 1, by omega⟩
    unfold isDataLine
    rw [htrim, List.replicate_succ]
    rfl
  have hscan : (scanLines (Reader.mk (List.replicate n '#') none)).2 =
      some (.leaf "bufio.Scanner: token too long") := by
    apply scanLines_too_long
    refine ⟨List.replicate n '#', ?_, ?_⟩
    · show List.replicate n '#' ∈ rawLines (List.replicate n '#')
      rw [hraw]
      exact List.mem_singleton_self _
    · rw [utf8Len_replicate_hash]
      exact hlong
  have hfst : (scanLines (Reader.mk (List.replicate n '#') none)).1 = [] := by
    unfold scanLines
    simp only [hraw]
    have hnot : ¬ (utf8Len (List.replicate n '#') < maxScanTokenSize) := by
      rw [utf8Len_replicate_hash]
      exact Nat.not_lt.2 hlong
    simp [List.takeWhile_cons, hnot]
  refine ⟨hraw, hdata, ?_⟩
  exact parseCSV_scan_error _ [] _ (by rw [hfst]; rfl) hscan

/-- C24 counterexample: a text that is one comment line of 70000 `#` characters has no
data line at all, yet `ParseCSV` fails on it, because the line does not fit the buffer of
the scanner (`bufio.ErrTooLong` from `scanner.Err()`). -/
theorem parseCSV_fails_without_bad_line :
    rawLines (List.replicate 70000 '#') = [List.replicate 70000 '#'] ∧
    isDataLine (List.replicate 70000 '#') = false ∧
    ParseCSV (Reader.mk (List.replicate 70000 '#') none) =
      .error (.wrap "reading input: " (.leaf "bufio.Scanner: token too long")) :=
  parseCSV_long_comment 70000 (by decide) (by decide)

/-- C24 (amended): `ParseCSV` fails if and only if some scanned data line is malformed
(not exactly 41 columns, an empty or non-integer station id, an empty or invalid
`YYYYMMDD` date), or the reader ends with an error, or some line is `maxScanTokenSize`
bytes or longer.  A failure returns an error and no records.  When a data line is
malformed the error names the 1-based number of the first such line and its fault; when
no scanned data line is malformed the error is `reading input: ` followed by the error of
the scanner. -/
theorem parseCSV_fails_iff (r : Reader) :
    ((∃ e, ParseCSV r = .error e) ↔
      ((∃ line ∈ (scanLines r).1, isDataLine line = true ∧ Malformed (TrimSpace line)) ∨
        r.err ≠ none ∨ ∃ l ∈ rawLines r.text, maxScanTokenSize ≤ utf8Len l)) ∧
    (∀ pre line post, (scanLines r).1 = pre ++ line :: post →
      (∀ l ∈ pre, isDataLine l = true → ¬ Malformed (TrimSpace l)) →
      isDataLine line = true → Malformed (TrimSpace line) →
      ∃ e, ParseCSV r = .error e ∧ NamesFault e (pre.length + 1) (TrimSpace line)) ∧
    ((∀ line ∈ (scanLines r).1, isDataLine line = true → ¬ Malformed (TrimSpace line)) →
      ∀ err, (scanLines r).2 = some err →
        ParseCSV r = .error (.wrap "reading input: " err)) := by
  refine ⟨⟨?_, ?_⟩, ?_, ?_⟩
  · rintro ⟨e, he⟩
    by_cases hm : ∃ line ∈ (scanLines r).1, isDataLine line = true ∧ Malformed (TrimSpace line)
    · exact Or.inl hm
    · right
      rw [← scanLines_snd_ne_none]
      have hall : ∀ line ∈ (scanLines r).1, isDataLine line = true →
          ¬ Malformed (TrimSpace line) := fun line hl hd hmal => hm ⟨line, hl, hd, hmal⟩
      obtain ⟨records, hr, _⟩ := parseLoop_wellformed (scanLines r).1 0 [] hall
      intro hs
      unfold ParseCSV at he
      rw [hr] at he
      simp only at he
      rw [hs] at he
      cases he
  · rintro (hm | hs)
    · obtain ⟨pre, l, post, e1, e2, e3, e4⟩ := first_malformed (scanLines r).1 hm
      obtain ⟨e, he, _⟩ := parseLoop_malformed l post e3 e4 pre 0 [] e2
      rw [← e1] at he
      exact ⟨e, parseCSV_loop_error r e he⟩
    · exact parseCSV_scan_fails r ((scanLines_snd_ne_none r).2 hs)
  · intro pre line post hlines hpre hd hm
    obtain ⟨e, he, hn⟩ := parseLoop_malformed line post hd hm pre 0 [] hpre
    rw [← hlines] at he
    rw [Nat.zero_add] at hn
    exact ⟨e, parseCSV_loop_error r e he, hn⟩
  · intro hall err hs
    obtain ⟨records, hr, _⟩ := parseLoop_wellformed (scanLines r).1 0 [] hall
    exact parseCSV_scan_error r _ err hr hs

/-- C24 witness: a comment line followed by a data line of three columns fails with an
error that names line 2 and the column count. -/
theorem parseCSV_fails_iff_witness :
    (scanLines (Reader.mk shortLineCSV none)).1 =
      [String.toList "# KNMI"] ++ String.toList "260,20240101,1" :: [] ∧
    (∃ e, ParseCSV (Reader.mk shortLineCSV none) = .error e ∧
      NamesFault e 2 (TrimSpace (String.toList "260,20240101,1"))) ∧
    ParseCSV (Reader.mk shortLineCSV none) =
      .error (.leaf "line 2: expected 41 columns, got 3") :=
  ⟨by decide,
   (parseCSV_fails_iff (Reader.mk shortLineCSV none)).2.1
     [String.toList "# KNMI"] (String.toList "260,20240101,1") [] (by decide)
     (fun l hl hd => by
       rw [List.mem_singleton.1 hl] at hd
       exact absurd hd (by decide))
     (by decide) (Or.inl (by decide)),
   by decide⟩

/-- C25: when `ParseCSV` succeeds, every line of the text was scanned, and the records are,
in input order, one per data line (a line whose first non-whitespace character is an ASCII
digit), each built from its line: the station id from column 1, the date from column 2
and the 39 optional fields from columns 3 to 41 in the order DDVEC, FHVEC, ..., EV24.
Blank lines, lines starting with `#` and lines starting with anything but a digit are not
data lines, and a text without data lines gives no records. -/
theorem parseCSV_one_record_per_data_line (r : Reader) (records : List WeatherRecord)
    (h : ParseCSV r = .ok records) :
    (scanLines r).1 = (rawLines r.text).map dropCR ∧
    List.Forall₂ BuiltFrom ((scanLines r).1.filter isDataLine) records ∧
    records.length = ((scanLines r).1.filter isDataLine).length ∧
    (∀ line, (TrimSpace line = [] ∨ (TrimSpace line).head? = some '#' ∨
        ¬ ((TrimSpace line).head?.any Char.isDigit = true)) →
      line ∉ (scanLines r).1.filter isDataLine) ∧
    ((∀ line ∈ (scanLines r).1,
        TrimSpace line = [] ∨ (TrimSpace line).head? = some '#' ∨
          ¬ ((TrimSpace line).head?.any Char.isDigit = true)) → records = []) := by
  obtain ⟨hloop, hscan⟩ := parseCSV_ok_inv r records h
  have hfit : ∀ l ∈ rawLines r.text, utf8Len l < maxScanTokenSize := by
    intro l hl
    by_contra hc
    have := scanLines_too_long r ⟨l, hl, Nat.le_of_not_lt hc⟩
    rw [hscan] at this
    cases this
  have hall : ∀ line ∈ (scanLines r).1, isDataLine line = true →
      ¬ Malformed (TrimSpace line) :=
    (parseLoop_ok_iff (scanLines r).1 0 []).1 ⟨records, hloop⟩
  obtain ⟨recs, hr, hbuilt⟩ := parseLoop_wellformed (scanLines r).1 0 [] hall
  have hrecs : recs = records := by
    rw [hloop, List.nil_append] at hr
    simp only [Except.ok.injEq] at hr
    exact hr.symm
  rw [hrecs] at hbuilt
  have hskip : ∀ line, (TrimSpace line = [] ∨ (TrimSpace line).head? = some '#' ∨
      ¬ ((TrimSpace line).head?.any Char.isDigit = true)) → isDataLine line = false := by
    intro line hl
    rcases hl with h1 | h1 | h1
    · exact not_data_line line (Or.inl h1)
    · exact not_data_line line (Or.inr h1)
    · unfold isDataLine
      simpa using h1
  refine ⟨(scanLines_fit r hfit).1, hbuilt, hbuilt.length_eq.symm, ?_, ?_⟩
  · intro line hl hmem
    have := (List.mem_filter.1 hmem).2
    rw [hskip line hl] at this
    cases this
  · intro hnone
    have hempty : (scanLines r).1.filter isDataLine = [] := by
      rw [List.filter_eq_nil_iff]
      intro line hl
      rw [hskip line (hnone line hl)]
      simp
    rw [hempty] at hbuilt
    cases hbuilt
    rfl

set_option maxRecDepth 100000 in
/-- C25 witness: a comment, a blank line, a header and one data line give the one record of
the data line; the empty text gives no records. -/
theorem parseCSV_one_record_per_data_line_witness :
    ParseCSV (Reader.mk sampleCSV none) = .ok [observation (Date.mk 2024 1 1) 85] ∧
    List.Forall₂ BuiltFrom ((scanLines (Reader.mk sampleCSV none)).1.filter isDataLine)
      [observation (Date.mk 2024 1 1) 85] ∧
    ParseCSV (Reader.mk [] none) = .ok [] :=
  ⟨by decide,
   (parseCSV_one_record_per_data_line (Reader.mk sampleCSV none)
     [observation (Date.mk 2024 1 1) 85] (by decide)).2.1,
   by decide⟩

end Knmi
